import Mathlib

/-!
Verification of the `cereal` marshalling layer (`src/cereal.py`).

The Python module defines a base class `Cereal` whose subclasses are
(de)serializable object graphs.  We shallowly embed the dynamic state of such
objects: an object's `__dict__` is an association list from attribute names to
`Value`s, where `Value` is the universe of decoded JSON trees extended with
live `Cereal` entities and enumeration members.  The operations
(`__init__`/`_load_check`/`_update`, `__setattr__`, the
`auto_deserialize_hinted_nested` decorator with
`recursive_auto_deserialize_hinted_nested` and `try_deserialize_cereal_type`,
`to_json` plus the `CerealEncoder` recursion, and `__eq__`) are translated
function by function.

A Python subclass of `Cereal` is modelled by a `CerealClass`: the explicit
`__init__` parameters together with their defaults, the attributes assigned in
the constructor body before `super().__init__(**kwargs)`, and the type hints
consumed by the decorator.  Recursion through nested entity construction is
bounded by an explicit fuel argument (Python recursion is bounded by the
finite input tree; fuel is only consumed when entering a nested constructor).
-/

namespace Cereal

/-- `Cereal.CEREAL_META` from the source. -/
def metaKey : String := "_cereal_meta"

/-- `Cereal._MISSING_PROPERTIES`. -/
def missingKey : String := "missing_properties"

/-- `Cereal._EXTRA_PROPERTIES`. -/
def extraKey : String := "extra_properties"

/-- `Cereal._CEREAL_TYPE`. -/
def typeKey : String := "cereal_type"

/-- The universe of runtime values: decoded JSON trees (null, booleans,
integers, strings, lists, string-keyed mappings) plus live `Cereal` entities
(`entity cname dict` holds the class name and the object's `__dict__`) and
enumeration members (`enumMember ename mname`). -/
inductive Value where
  | null : Value
  | bool (b : Bool) : Value
  | int (n : Int) : Value
  | str (s : String) : Value
  | vlist (vs : List Value) : Value
  | dict (entries : List (String × Value)) : Value
  | entity (cname : String) (entries : List (String × Value)) : Value
  | enumMember (ename mname : String) : Value
deriving Repr

/-- An object's `__dict__` (or a raw decoded record): an insertion-ordered
association list with string keys. -/
abbrev Dict := List (String × Value)

/-- `v is None` in Python. -/
def Value.isNull : Value → Bool
  | .null => true
  | _ => false

/-- Python `d.get(k)` on an insertion-ordered mapping. -/
def lookupA (d : Dict) (k : String) : Option Value :=
  match d with
  | [] => none
  | (k', v) :: rest => if k' = k then some v else lookupA rest k

/-- Python `d[k] = v`: replace in place if the key exists, else append. -/
def updateA (d : Dict) (k : String) (v : Value) : Dict :=
  match d with
  | [] => [(k, v)]
  | (k', v') :: rest => if k' = k then (k, v) :: rest else (k', v') :: updateA rest k v

/-- Python `d.pop(k, None)`-style removal of a key (first occurrence). -/
def eraseA (d : Dict) (k : String) : Dict :=
  match d with
  | [] => []
  | (k', v') :: rest => if k' = k then rest else (k', v') :: eraseA rest k

/-- The key list of a mapping. -/
def keysOf (d : Dict) : List String := d.map Prod.fst

/-- Python `list.remove(x)` wrapped in `try/except ValueError: pass`:
remove the first occurrence if present. -/
def removeFirst (l : List String) (k : String) : List String :=
  match l with
  | [] => []
  | x :: xs => if x = k then xs else x :: removeFirst xs k

/-- A declared field type, as consumed by
`recursive_auto_deserialize_hinted_nested`: a hinted plain (non-`Cereal`)
class, a `Cereal` subclass reference, `Optional[...]`, `List[...]`, a union /
constrained type variable over `Cereal` subclasses (identified by class
names), or an enumeration with its member names. -/
inductive Hint where
  | scalar : Hint
  | entityRef (c : String) : Hint
  | optionalOf (h : Hint) : Hint
  | listOf (h : Hint) : Hint
  | oneOf (cs : List String) : Hint
  | enumOf (ename : String) (members : List String) : Hint
deriving Repr, DecidableEq

/-- Errors surfaced during construction, reconstruction or equality:
`typeMismatch` is the `CerealError` raised by `try_deserialize_cereal_type`,
`unknownEnumMember` the `KeyError` from an `Enum` lookup, `incomparableTypes`
the `NotImplementedError` from `__eq__`, `malformedMeta` the `AttributeError`
from reading a tag off a non-mapping metadata value, and `fuelExhausted`
models exceeding the recursion bound. -/
inductive CerealErr where
  | typeMismatch : CerealErr
  | unknownEnumMember (ename mname : String) : CerealErr
  | incomparableTypes : CerealErr
  | malformedMeta : CerealErr
  | fuelExhausted : CerealErr
deriving Repr, DecidableEq

/-- A `Cereal` subclass: its name, the explicit `__init__` parameters with
their default values, the attributes initialized in the constructor body
before `super().__init__(**kwargs)` (with their initial values), and the type
hints read by `auto_deserialize_hinted_nested`. -/
structure CerealClass where
  cname : String
  params : List (String × Value)
  bodyInits : List (String × Value)
  hints : List (String × Hint)
deriving Repr

/-- The collection of `Cereal` subclasses in scope (Python's class objects,
addressed by `__name__`). -/
abbrev ClassTable := List CerealClass

/-- Resolve a class name against the table. -/
def lookupClass (ct : ClassTable) (n : String) : Option CerealClass :=
  match ct with
  | [] => none
  | c :: rest => if c.cname = n then some c else lookupClass rest n

/-- Look up a field's hint. -/
def lookupHint (hs : List (String × Hint)) (k : String) : Option Hint :=
  match hs with
  | [] => none
  | (k', h) :: rest => if k' = k then some h else lookupHint rest k

/-- Python's string order: lexicographic by code point (modelled via the
character list order, which is code-point lexicographic). -/
def strLeRel (a b : String) : Prop := a.data ≤ b.data

instance : DecidableRel strLeRel := fun a b => (inferInstance : Decidable (a.data ≤ b.data))

instance : IsTotal String strLeRel := ⟨fun a b => le_total a.data b.data⟩

instance : IsTrans String strLeRel := ⟨fun _ _ _ hab hbc => le_trans hab hbc⟩

instance : IsAntisymm String strLeRel :=
  ⟨fun a b hab hba => by
    cases a; cases b
    exact congrArg String.mk (le_antisymm hab hba)⟩

/-- Entry order for `sort_keys=True`: by key. -/
def entryLeRel (a b : String × Value) : Prop := strLeRel a.1 b.1

instance : DecidableRel entryLeRel := fun a b => (inferInstance : Decidable (strLeRel a.1 b.1))

instance : IsTotal (String × Value) entryLeRel := ⟨fun a b => IsTotal.total (r := strLeRel) a.1 b.1⟩

instance : IsTrans (String × Value) entryLeRel :=
  ⟨fun _ _ _ hab hbc => IsTrans.trans (r := strLeRel) _ _ _ hab hbc⟩

/-- Python's `sorted` on strings. -/
def sortStr (l : List String) : List String :=
  l.insertionSort strLeRel

/-- `json.dumps(..., sort_keys=True)` at one mapping level: entries ordered by
key. -/
def sortEntries (l : Dict) : Dict :=
  l.insertionSort entryLeRel

mutual

/-- Structural equality of values; two serialized JSON texts are equal exactly
when the corresponding value trees are equal. -/
def Value.beq : Value → Value → Bool
  | .null, .null => true
  | .bool a, .bool b => a == b
  | .int a, .int b => a == b
  | .str a, .str b => a == b
  | .vlist a, .vlist b => beqList a b
  | .dict a, .dict b => beqEntries a b
  | .entity n a, .entity n' b => n == n' && beqEntries a b
  | .enumMember e m, .enumMember e' m' => e == e' && m == m'
  | _, _ => false

def beqList : List Value → List Value → Bool
  | [], [] => true
  | a :: as, b :: bs => Value.beq a b && beqList as bs
  | _, _ => false

def beqEntries : Dict → Dict → Bool
  | [], [] => true
  | (k, v) :: as, (k', v') :: bs => k == k' && Value.beq v v' && beqEntries as bs
  | _, _ => false

end

/-- The metadata mapping stored at `_cereal_meta`:
`{missing_properties: [...], extra_properties: [...], cereal_type: name}`
(initialized at `Cereal.__init__` lines 211-216). -/
def mkMeta (missing extra : List String) (ty : String) : Value :=
  .dict [(missingKey, .vlist (missing.map .str)),
         (extraKey, .vlist (extra.map .str)),
         (typeKey, .str ty)]

/-- Read a list of names out of a metadata list value. -/
def strListOf : Value → List String
  | .vlist vs => vs.filterMap (fun v => match v with | .str s => some s | _ => none)
  | _ => []

/-- The metadata mapping of an object's `__dict__`. -/
def getMeta (d : Dict) : Dict :=
  match lookupA d metaKey with
  | some (.dict md) => md
  | _ => []

/-- The `missing_properties` accessor. -/
def getMissing (d : Dict) : List String :=
  strListOf ((lookupA (getMeta d) missingKey).getD .null)

/-- The `extra_properties` accessor. -/
def getExtra (d : Dict) : List String :=
  strListOf ((lookupA (getMeta d) extraKey).getD .null)

/-- The `cereal_type` recorded in the metadata. -/
def getTypeName (d : Dict) : String :=
  match lookupA (getMeta d) typeKey with
  | some (.str t) => t
  | _ => ""

/-- Replace the metadata mapping wholesale (models in-place mutation of the
metadata's lists). -/
def setMeta (d : Dict) (missing extra : List String) (ty : String) : Dict :=
  updateA d metaKey (mkMeta missing extra ty)

/-- Membership in `pass_attribs` of `_load_check`: a key passed with a
non-null value in the remaining kwargs, or already defined on the object with
a non-null value. -/
def isPassed (D kwargs : Dict) (k : String) : Bool :=
  (match lookupA kwargs k with | some v => !v.isNull | none => false) ||
  (match lookupA D k with | some v => !v.isNull | none => false)

/-- `sorted(pass_attribs - defd_attribs)` of `_load_check`. -/
def extraComputed (D kwargs : Dict) : List String :=
  sortStr (((kwargs.filter (fun kv => !kv.2.isNull && !(keysOf D).contains kv.1)).map Prod.fst).dedup)

/-- `sorted(defd_attribs - pass_attribs - {CEREAL_META})` of `_load_check`. -/
def missingComputed (D kwargs : Dict) : List String :=
  sortStr (((keysOf D).filter (fun k => !isPassed D kwargs k && !(k == metaKey))).dedup)

/-- `Cereal._load_check`: extend the metadata's presence lists by the computed
extra and missing names. -/
def loadCheck (D kwargs : Dict) : Dict :=
  setMeta D (getMissing D ++ missingComputed D kwargs)
            (getExtra D ++ extraComputed D kwargs)
            (getTypeName D)

/-- `Cereal._update`: `self.__dict__.update(kwargs)`, a direct dictionary
update that does not pass through `__setattr__`. -/
def updateFold (D kwargs : Dict) : Dict :=
  kwargs.foldl (fun acc kv => updateA acc kv.1 kv.2) D

/-- `Cereal.__setattr__` acting on the `__dict__`: once the metadata exists,
remove the key from both presence lists, then write the attribute. -/
def setattrDict (D : Dict) (k : String) (v : Value) : Dict :=
  let D' := if (keysOf D).contains metaKey then
              setMeta D (removeFirst (getMissing D) k) (removeFirst (getExtra D) k) (getTypeName D)
            else D
  updateA D' k v

/-- `__setattr__` on an entity value (non-entities unchanged). -/
def setattrE : Value → String → Value → Value
  | .entity n D, k, v => .entity n (setattrDict D k v)
  | w, _, _ => w

/-- `Cereal.to_json` with `OMIT_NULL_IN_SERIAL = True`: the `__dict__`
filtered to non-null values (one level; nested values still live). -/
def toJson (D : Dict) : Dict :=
  D.filter (fun kv => !kv.2.isNull)

mutual

/-- The canonical serialized form produced by `json.dumps(-, cls=CerealEncoder)`
before text encoding: entities are replaced by their `to_json` mapping
(recursively canonicalized), enumeration members by their name. -/
def canon : Value → Value
  | .null => .null
  | .bool b => .bool b
  | .int n => .int n
  | .str s => .str s
  | .vlist vs => .vlist (canonList vs)
  | .dict d => .dict (canonEntries d)
  | .entity _ d => .dict (canonEntityEntries d)
  | .enumMember _ m => .str m

def canonList : List Value → List Value
  | [] => []
  | v :: vs => canon v :: canonList vs

def canonEntries : Dict → Dict
  | [] => []
  | (k, v) :: rest => (k, canon v) :: canonEntries rest

/-- `to_json` fused with the encoder's recursion: non-null entries of an
entity's `__dict__`, canonicalized. -/
def canonEntityEntries : Dict → Dict
  | [] => []
  | (k, v) :: rest =>
    if v.isNull then canonEntityEntries rest else (k, canon v) :: canonEntityEntries rest

end

mutual

/-- Key ordering normalization of `json.dumps(..., sort_keys=True)`: sort all
mapping levels by key. -/
def sortCanon : Value → Value
  | .null => .null
  | .bool b => .bool b
  | .int n => .int n
  | .str s => .str s
  | .vlist vs => .vlist (sortCanonList vs)
  | .dict d => .dict (sortEntries (sortCanonEntries d))
  | .entity n d => .entity n (sortEntries (sortCanonEntries d))
  | .enumMember e m => .enumMember e m

def sortCanonList : List Value → List Value
  | [] => []
  | v :: vs => sortCanon v :: sortCanonList vs

def sortCanonEntries : Dict → Dict
  | [] => []
  | (k, v) :: rest => (k, sortCanon v) :: sortCanonEntries rest

end

/-- `Cereal.__eq__`: comparing against a non-`Cereal` raises; otherwise the
canonical serializations with sorted keys are compared for equality. -/
def ceq (a b : Value) : Except CerealErr Bool :=
  match b with
  | .entity _ _ => .ok (Value.beq (sortCanon (canon a)) (sortCanon (canon b)))
  | _ => .error .incomparableTypes

/-- The candidate loop of `try_deserialize_cereal_type`: the first hinted name
that is a `Cereal` class in scope and equals the tag. -/
def findCandidate (ct : ClassTable) (cs : List String) (tag : Value) : Option CerealClass :=
  match cs with
  | [] => none
  | c :: rest =>
    match tag with
    | .str t =>
      if t = c then
        match lookupClass ct c with
        | some cls => some cls
        | none => findCandidate ct rest tag
      else findCandidate ct rest tag
    | _ => none

/-- `Cereal.try_deserialize_cereal_type`, parameterized by the constructor
callback `cb` (nested construction at one fuel level lower): read the
`cereal_type` tag out of the raw record's metadata entry; with no tag, return
the raw record unchanged; with a tag, instantiate the matching hinted class or
raise `CerealError`. -/
def tryDeserializeCerealType (cb : CerealClass → Dict → Except CerealErr Value)
    (ct : ClassTable) (d : Dict) (cs : List String) : Except CerealErr Value :=
  match lookupA d metaKey with
  | none => .ok (.dict d)
  | some (.dict md) =>
    match lookupA md typeKey with
    | none => .ok (.dict d)
    | some .null => .ok (.dict d)
    | some tag =>
      match findCandidate ct cs tag with
      | some cls => cb cls d
      | none => .error .typeMismatch
  | some _ => .error .malformedMeta

/-- `Cereal.recursive_auto_deserialize_hinted_nested`, parameterized by the
constructor callback: unwrap optionals, resolve unions and entity references
on raw records by tag, rebuild hinted lists elementwise, resolve enumeration
names, and pass everything else through unchanged. -/
def recursiveAutoDeserialize (cb : CerealClass → Dict → Except CerealErr Value)
    (ct : ClassTable) : Value → Hint → Except CerealErr Value
  | v, .optionalOf h => recursiveAutoDeserialize cb ct v h
  | .dict d, .oneOf cs => tryDeserializeCerealType cb ct d cs
  | .dict d, .entityRef c => tryDeserializeCerealType cb ct d [c]
  | .dict d, .scalar => tryDeserializeCerealType cb ct d []
  | .dict d, .listOf _ => tryDeserializeCerealType cb ct d []
  | .dict d, .enumOf _ _ => tryDeserializeCerealType cb ct d []
  | .vlist vs, .listOf h =>
    match vs.mapM (fun v => recursiveAutoDeserialize cb ct v h) with
    | .ok ws => .ok (.vlist ws)
    | .error e => .error e
  | .str s, .enumOf ename ms =>
    if ms.contains s then .ok (.enumMember ename s) else .error (.unknownEnumMember ename s)
  | v, _ => .ok v

/-- The field loop of the `auto_deserialize_hinted_nested` decorator: rewrite
each `__dict__` entry whose key has a hint through the recursive
deserializer. -/
def applyHints (cb : CerealClass → Dict → Except CerealErr Value) (ct : ClassTable)
    (hs : List (String × Hint)) : Dict → Except CerealErr Dict
  | [] => .ok []
  | (k, v) :: rest =>
    match (match lookupHint hs k with
           | some h => recursiveAutoDeserialize cb ct v h
           | none => .ok v) with
    | .ok w =>
      match applyHints cb ct hs rest with
      | .ok rest' => .ok ((k, w) :: rest')
      | .error e => .error e
    | .error e => .error e

/-- The explicit constructor parameter assignments of the subclass body:
each parameter takes the passed value or its declared default. -/
def paramAssigns (cls : CerealClass) (m : Dict) : Dict :=
  cls.params.map (fun pd => (pd.1, (lookupA m pd.1).getD pd.2))

/-- The `**kwargs` reaching `super().__init__` : the input minus the
explicitly bound parameters. -/
def ctorKwargs (cls : CerealClass) (m : Dict) : Dict :=
  cls.params.foldl (fun d pd => eraseA d pd.1) m

/-- The `__dict__` after the subclass constructor body (explicit parameter
assignments followed by body initializations), before `super().__init__`. -/
def bodyDict (cls : CerealClass) (m : Dict) : Dict :=
  updateFold [] (paramAssigns cls m ++ cls.bodyInits)

/-- The `__dict__` right after `Cereal.__init__` initializes the fresh
metadata block (lines 210-216). -/
def initDict (cls : CerealClass) (m : Dict) : Dict :=
  updateA (bodyDict cls m) metaKey (mkMeta [] [] cls.cname)

/-- The `__dict__` after `_load_check` has populated the presence lists. -/
def checkedDict (cls : CerealClass) (m : Dict) : Dict :=
  loadCheck (initDict cls m) (ctorKwargs cls m)

/-- The object's `__dict__` after `Cereal.__init__` and before the decorator
loop: body assignments, fresh metadata, `_load_check`, popping the metadata
key from kwargs, and the `_update` bulk copy. -/
def preDict (cls : CerealClass) (m : Dict) : Dict :=
  updateFold (checkedDict cls m) (eraseA (ctorKwargs cls m) metaKey)

/-- Construction of an entity of class `cls` from an input mapping: the
constructor body plus `Cereal.__init__`, then the decorator's hint loop,
recursing into nested constructions one fuel level lower. -/
def constructE : Nat → ClassTable → CerealClass → Dict → Except CerealErr Value
  | 0, _, _, _ => .error .fuelExhausted
  | fuel+1, ct, cls, m =>
    match applyHints (fun cls' d => constructE fuel ct cls' d) ct cls.hints (preDict cls m) with
    | .ok d => .ok (.entity cls.cname d)
    | .error e => .error e

/-- The recursive deserializer at a given recursion budget (as invoked from a
construction at fuel `fuel + 1`). -/
def recAutoAt (fuel : Nat) (ct : ClassTable) (v : Value) (h : Hint) : Except CerealErr Value :=
  recursiveAutoDeserialize (fun cls d => constructE fuel ct cls d) ct v h

/-- The `__dict__` of an entity (or the entries of a raw record). -/
def dictOf : Value → Dict
  | .entity _ d => d
  | .dict d => d
  | _ => []

/-- `missing_properties` of an entity value. -/
def missingOf (v : Value) : List String := getMissing (dictOf v)

/-- `extra_properties` of an entity value. -/
def extraOf (v : Value) : List String := getExtra (dictOf v)

/-- The canonical mapping of an entity (`json.loads(json.dumps(e))`). -/
def canonDict (v : Value) : Dict :=
  match canon v with
  | .dict d => d
  | _ => []

/-- Key lists without repetition (Python dictionaries cannot repeat keys). -/
def nodupKeysB : List String → Bool
  | [] => true
  | k :: ks => !ks.contains k && nodupKeysB ks

mutual

/-- A decoded interchange tree (the output of `json.loads`): no live entities
or enumeration members, and every mapping has distinct keys. -/
def decodedB : Value → Bool
  | .null => true
  | .bool _ => true
  | .int _ => true
  | .str _ => true
  | .vlist vs => decodedListB vs
  | .dict d => nodupKeysB (keysOf d) && decodedEntriesB d
  | .entity _ _ => false
  | .enumMember _ _ => false

def decodedListB : List Value → Bool
  | [] => true
  | v :: vs => decodedB v && decodedListB vs

def decodedEntriesB : Dict → Bool
  | [] => true
  | (_, v) :: rest => decodedB v && decodedEntriesB rest

end

/-- A decoded input mapping. -/
def decodedDictB (m : Dict) : Bool := decodedB (.dict m)

mutual

/-- Values reachable as constructed-entity state: every mapping has distinct
keys, and every entity's `__dict__` carries a metadata entry that is a mapping
whose `cereal_type` is the entity's class name. -/
def wellB : Value → Bool
  | .null => true
  | .bool _ => true
  | .int _ => true
  | .str _ => true
  | .vlist vs => wellListB vs
  | .dict d => nodupKeysB (keysOf d) && wellEntriesB d
  | .entity n d =>
    nodupKeysB (keysOf d) &&
    (match lookupA d metaKey with
     | some (.dict md) =>
       (match lookupA md typeKey with
        | some (.str t) => t == n
        | _ => false)
     | _ => false) &&
    wellEntriesB d
  | .enumMember _ _ => true

def wellListB : List Value → Bool
  | [] => true
  | v :: vs => wellB v && wellListB vs

def wellEntriesB : Dict → Bool
  | [] => true
  | (_, v) :: rest => wellB v && wellEntriesB rest

end

/-- All declared fields of a class: explicit parameters followed by
body-initialized attributes. -/
def declaredNames (cls : CerealClass) : List String :=
  keysOf cls.params ++ keysOf cls.bodyInits

/-- All declared defaults are null (`None`), as for optional parameters and
body initializations of the form `self.f = None`. -/
def nullDefaultsB (cls : CerealClass) : Bool :=
  cls.params.all (fun pd => pd.2.isNull) && cls.bodyInits.all (fun kv => kv.2.isNull)

/-- Sanity conditions every Python subclass satisfies: the reserved metadata
key is not a declared field nor hinted, and declared field names do not
repeat. -/
def wfClassB (cls : CerealClass) : Bool :=
  !(declaredNames cls).contains metaKey &&
  !(cls.hints.map Prod.fst).contains metaKey &&
  nodupKeysB (declaredNames cls)

/-- A table of wellformed classes with null defaults. -/
def wfTableB (ct : ClassTable) : Bool :=
  ct.all (fun c => wfClassB c && nullDefaultsB c)

/-- A fully reconstructed value for a descriptor, in the sense of the spec's
idempotence property: live entities for entity references and one-ofs, lists
of reconstructed values for list descriptors, enumeration members for
enumeration descriptors, null for optionals, primitives for scalars. -/
def reconB : Hint → Value → Bool
  | .scalar, v =>
    (match v with
     | .null => true | .bool _ => true | .int _ => true | .str _ => true
     | _ => false)
  | .entityRef c, v =>
    (match v with | .entity n _ => n == c | _ => false)
  | .optionalOf h, v => v.isNull || reconB h v
  | .listOf h, v =>
    (match v with | .vlist vs => vs.all (fun w => reconB h w) | _ => false)
  | .oneOf cs, v =>
    (match v with | .entity n _ => cs.contains n | _ => false)
  | .enumOf ename ms, v =>
    (match v with | .enumMember e m => e == ename && ms.contains m | _ => false)

/-- Spec-side definition, following the specification's words (§3, "Presence
sets"): `missing_fields` is the sorted set of declared fields whose value was
null or absent in the construction input. -/
def specMissingFields (cls : CerealClass) (m : Dict) : List String :=
  sortStr (((declaredNames cls).filter
    (fun k => !(match lookupA m k with | some v => !v.isNull | none => false))).dedup)

/-- Spec-side definition, following the specification's words (§3, "Presence
sets"): `extra_fields` is the sorted set of non-null input fields not among
the declared fields (the metadata key is never counted). -/
def specExtraFields (cls : CerealClass) (m : Dict) : List String :=
  sortStr (((m.filter (fun kv =>
    !kv.2.isNull && !(declaredNames cls).contains kv.1 && !(kv.1 == metaKey))).map Prod.fst).dedup)


/-- A minimal subclass with no declared fields (`class A(Cereal): ...`). -/
def clsA : CerealClass := { cname := "A", params := [], bodyInits := [], hints := [] }

/-- A subclass with one optional hinted scalar field
(`def __init__(self, value=None, **kwargs)` with a hint on `value`). -/
def clsInner : CerealClass :=
  { cname := "Inner", params := [("value", .null)], bodyInits := [],
    hints := [("value", .scalar)] }

/-- A subclass with one enumeration-hinted field, used to exercise a failing
construction. -/
def clsEnumF : CerealClass :=
  { cname := "C", params := [("f", .null)], bodyInits := [],
    hints := [("f", .enumOf "E" ["a"])] }


mutual

theorem Value.beq_refl : (v : Value) → Value.beq v v = true
  | .null => rfl
  | .bool b => by simp [Value.beq]
  | .int n => by simp [Value.beq]
  | .str s => by simp [Value.beq]
  | .vlist vs => by simp [Value.beq, beqList_refl vs]
  | .dict d => by simp [Value.beq, beqEntries_refl d]
  | .entity n d => by simp [Value.beq, beqEntries_refl d]
  | .enumMember e m => by simp [Value.beq]

theorem beqList_refl : (vs : List Value) → beqList vs vs = true
  | [] => rfl
  | v :: vs => by simp [beqList, Value.beq_refl v, beqList_refl vs]

theorem beqEntries_refl : (d : Dict) → beqEntries d d = true
  | [] => rfl
  | (k, v) :: rest => by simp [beqEntries, Value.beq_refl v, beqEntries_refl rest]

end

mutual

theorem Value.eq_of_beq : (a b : Value) → Value.beq a b = true → a = b
  | .null, .null, _ => rfl
  | .bool x, .bool y, h => by simp [Value.beq] at h; simp [h]
  | .int x, .int y, h => by simp [Value.beq] at h; simp [h]
  | .str x, .str y, h => by simp [Value.beq] at h; simp [h]
  | .vlist xs, .vlist ys, h => by
    simp only [Value.beq] at h
    exact congrArg Value.vlist (eqList_of_beq xs ys h)
  | .dict xs, .dict ys, h => by
    simp only [Value.beq] at h
    exact congrArg Value.dict (eqEntries_of_beq xs ys h)
  | .entity n xs, .entity n2 ys, h => by
    simp only [Value.beq, Bool.and_eq_true, beq_iff_eq] at h
    rw [h.1, eqEntries_of_beq xs ys h.2]
  | .enumMember e m, .enumMember e2 m2, h => by
    simp only [Value.beq, Bool.and_eq_true, beq_iff_eq] at h
    rw [h.1, h.2]
  | .null, .bool y, h => by simp [Value.beq] at h
  | .null, .int y, h => by simp [Value.beq] at h
  | .null, .str y, h => by simp [Value.beq] at h
  | .null, .vlist ys, h => by simp [Value.beq] at h
  | .null, .dict ys, h => by simp [Value.beq] at h
  | .null, .entity n2 ys, h => by simp [Value.beq] at h
  | .null, .enumMember e2 m2, h => by simp [Value.beq] at h
  | .bool x, .null, h => by simp [Value.beq] at h
  | .bool x, .int y, h => by simp [Value.beq] at h
  | .bool x, .str y, h => by simp [Value.beq] at h
  | .bool x, .vlist ys, h => by simp [Value.beq] at h
  | .bool x, .dict ys, h => by simp [Value.beq] at h
  | .bool x, .entity n2 ys, h => by simp [Value.beq] at h
  | .bool x, .enumMember e2 m2, h => by simp [Value.beq] at h
  | .int x, .null, h => by simp [Value.beq] at h
  | .int x, .bool y, h => by simp [Value.beq] at h
  | .int x, .str y, h => by simp [Value.beq] at h
  | .int x, .vlist ys, h => by simp [Value.beq] at h
  | .int x, .dict ys, h => by simp [Value.beq] at h
  | .int x, .entity n2 ys, h => by simp [Value.beq] at h
  | .int x, .enumMember e2 m2, h => by simp [Value.beq] at h
  | .str x, .null, h => by simp [Value.beq] at h
  | .str x, .bool y, h => by simp [Value.beq] at h
  | .str x, .int y, h => by simp [Value.beq] at h
  | .str x, .vlist ys, h => by simp [Value.beq] at h
  | .str x, .dict ys, h => by simp [Value.beq] at h
  | .str x, .entity n2 ys, h => by simp [Value.beq] at h
  | .str x, .enumMember e2 m2, h => by simp [Value.beq] at h
  | .vlist xs, .null, h => by simp [Value.beq] at h
  | .vlist xs, .bool y, h => by simp [Value.beq] at h
  | .vlist xs, .int y, h => by simp [Value.beq] at h
  | .vlist xs, .str y, h => by simp [Value.beq] at h
  | .vlist xs, .dict ys, h => by simp [Value.beq] at h
  | .vlist xs, .entity n2 ys, h => by simp [Value.beq] at h
  | .vlist xs, .enumMember e2 m2, h => by simp [Value.beq] at h
  | .dict xs, .null, h => by simp [Value.beq] at h
  | .dict xs, .bool y, h => by simp [Value.beq] at h
  | .dict xs, .int y, h => by simp [Value.beq] at h
  | .dict xs, .str y, h => by simp [Value.beq] at h
  | .dict xs, .vlist ys, h => by simp [Value.beq] at h
  | .dict xs, .entity n2 ys, h => by simp [Value.beq] at h
  | .dict xs, .enumMember e2 m2, h => by simp [Value.beq] at h
  | .entity n xs, .null, h => by simp [Value.beq] at h
  | .entity n xs, .bool y, h => by simp [Value.beq] at h
  | .entity n xs, .int y, h => by simp [Value.beq] at h
  | .entity n xs, .str y, h => by simp [Value.beq] at h
  | .entity n xs, .vlist ys, h => by simp [Value.beq] at h
  | .entity n xs, .dict ys, h => by simp [Value.beq] at h
  | .entity n xs, .enumMember e2 m2, h => by simp [Value.beq] at h
  | .enumMember e m, .null, h => by simp [Value.beq] at h
  | .enumMember e m, .bool y, h => by simp [Value.beq] at h
  | .enumMember e m, .int y, h => by simp [Value.beq] at h
  | .enumMember e m, .str y, h => by simp [Value.beq] at h
  | .enumMember e m, .vlist ys, h => by simp [Value.beq] at h
  | .enumMember e m, .dict ys, h => by simp [Value.beq] at h
  | .enumMember e m, .entity n2 ys, h => by simp [Value.beq] at h

theorem eqList_of_beq : (as bs : List Value) → beqList as bs = true → as = bs
  | [], [], _ => rfl
  | a :: as, b :: bs, h => by
    simp only [beqList, Bool.and_eq_true] at h
    rw [Value.eq_of_beq a b h.1, eqList_of_beq as bs h.2]
  | [], _ :: _, h => by simp [beqList] at h
  | _ :: _, [], h => by simp [beqList] at h

theorem eqEntries_of_beq : (as bs : Dict) → beqEntries as bs = true → as = bs
  | [], [], _ => rfl
  | (k, v) :: as, (k2, v2) :: bs, h => by
    simp only [beqEntries, Bool.and_eq_true, beq_iff_eq] at h
    rw [h.1.1, Value.eq_of_beq v v2 h.1.2, eqEntries_of_beq as bs h.2]
  | [], _ :: _, h => by simp [beqEntries] at h
  | _ :: _, [], h => by simp [beqEntries] at h

end

theorem Value.beq_eq_true_iff (a b : Value) : Value.beq a b = true ↔ a = b :=
  ⟨Value.eq_of_beq a b, fun h => h ▸ Value.beq_refl a⟩

theorem Value.beq_eq_false_of_ne {a b : Value} (h : a ≠ b) : Value.beq a b = false := by
  cases hb : Value.beq a b with
  | true => exact absurd (Value.eq_of_beq a b hb) h
  | false => rfl


/-! ### Association list and sorting toolkit -/

theorem keysOf_cons (k : String) (v : Value) (d : Dict) :
    keysOf ((k, v) :: d) = k :: keysOf d := rfl

theorem lookupA_cons_self (k : String) (v : Value) (d : Dict) :
    lookupA ((k, v) :: d) k = some v := by simp [lookupA]

theorem lookupA_cons_ne (k1 : String) (v1 : Value) (d : Dict) (k : String)
    (h : k1 ≠ k) : lookupA ((k1, v1) :: d) k = lookupA d k := by simp [lookupA, h]

theorem updateA_cons_self (k : String) (v1 v : Value) (d : Dict) :
    updateA ((k, v1) :: d) k v = (k, v) :: d := by simp [updateA]

theorem updateA_cons_ne (k1 : String) (v1 : Value) (d : Dict) (k : String) (v : Value)
    (h : k1 ≠ k) : updateA ((k1, v1) :: d) k v = (k1, v1) :: updateA d k v := by
  simp [updateA, h]

theorem eraseA_cons_self (k : String) (v1 : Value) (d : Dict) :
    eraseA ((k, v1) :: d) k = d := by simp [eraseA]

theorem eraseA_cons_ne (k1 : String) (v1 : Value) (d : Dict) (k : String)
    (h : k1 ≠ k) : eraseA ((k1, v1) :: d) k = (k1, v1) :: eraseA d k := by
  simp [eraseA, h]

theorem nodupKeysB_iff (l : List String) : nodupKeysB l = true ↔ l.Nodup := by
  induction l with
  | nil => simp [nodupKeysB]
  | cons k ks ih => simp [nodupKeysB, ih, List.elem_iff]

theorem lookupA_updateA (d : Dict) (k : String) (v : Value) (k' : String) :
    lookupA (updateA d k v) k' = if k = k' then some v else lookupA d k' := by
  induction d with
  | nil => simp [updateA, lookupA]
  | cons p rest ih =>
    obtain ⟨k1, v1⟩ := p
    by_cases h1 : k1 = k
    · subst h1
      rw [updateA_cons_self]
      by_cases h2 : k1 = k'
      · subst h2; rw [lookupA_cons_self, lookupA_cons_self, if_pos rfl]
      · rw [lookupA_cons_ne _ _ _ _ h2, lookupA_cons_ne _ _ _ _ h2, if_neg h2]
    · rw [updateA_cons_ne _ _ _ _ _ h1]
      by_cases h2 : k1 = k'
      · subst h2
        have hk : ¬ k = k1 := fun hh => h1 hh.symm
        rw [lookupA_cons_self, lookupA_cons_self, if_neg hk]
      · rw [lookupA_cons_ne _ _ _ _ h2, lookupA_cons_ne _ _ _ _ h2, ih]

theorem mem_keysOf_updateA (d : Dict) (k : String) (v : Value) (a : String) :
    a ∈ keysOf (updateA d k v) ↔ a ∈ keysOf d ∨ a = k := by
  induction d with
  | nil => simp [updateA, keysOf]
  | cons p rest ih =>
    obtain ⟨k1, v1⟩ := p
    by_cases h1 : k1 = k
    · subst h1
      rw [updateA_cons_self, keysOf_cons, keysOf_cons]
      simp only [List.mem_cons]
      tauto
    · rw [updateA_cons_ne _ _ _ _ _ h1, keysOf_cons, keysOf_cons]
      simp only [List.mem_cons, ih]
      tauto

theorem nodup_keysOf_updateA (d : Dict) (k : String) (v : Value)
    (h : (keysOf d).Nodup) : (keysOf (updateA d k v)).Nodup := by
  induction d with
  | nil => simp [updateA, keysOf]
  | cons p rest ih =>
    obtain ⟨k1, v1⟩ := p
    rw [keysOf_cons, List.nodup_cons] at h
    by_cases h1 : k1 = k
    · subst h1
      rw [updateA_cons_self, keysOf_cons, List.nodup_cons]
      exact h
    · rw [updateA_cons_ne _ _ _ _ _ h1, keysOf_cons, List.nodup_cons]
      refine ⟨fun hc => ?_, ih h.2⟩
      rcases (mem_keysOf_updateA rest k v k1).mp hc with h' | h'
      · exact h.1 h'
      · exact h1 h'

theorem lookupA_isSome_iff (d : Dict) (k : String) :
    (lookupA d k).isSome = true ↔ k ∈ keysOf d := by
  induction d with
  | nil => simp [lookupA, keysOf]
  | cons p rest ih =>
    obtain ⟨k1, v1⟩ := p
    by_cases h1 : k1 = k
    · subst h1
      rw [lookupA_cons_self, keysOf_cons]
      simp
    · have h1' : ¬ k = k1 := fun hh => h1 hh.symm
      rw [lookupA_cons_ne _ _ _ _ h1, keysOf_cons]
      simp [ih, h1']

theorem mem_keysOf_of_lookupA (d : Dict) (k : String) (v : Value)
    (h : lookupA d k = some v) : k ∈ keysOf d :=
  (lookupA_isSome_iff d k).mp (by simp [h])

theorem lookupA_eq_none_of_not_mem (d : Dict) (k : String) (h : k ∉ keysOf d) :
    lookupA d k = none := by
  cases hl : lookupA d k with
  | none => rfl
  | some v => exact absurd ((lookupA_isSome_iff d k).mp (by simp [hl])) h

theorem lookupA_eraseA (d : Dict) (k k' : String) (h : (keysOf d).Nodup) :
    lookupA (eraseA d k) k' = if k = k' then none else lookupA d k' := by
  induction d with
  | nil => simp [eraseA, lookupA]
  | cons p rest ih =>
    obtain ⟨k1, v1⟩ := p
    rw [keysOf_cons, List.nodup_cons] at h
    by_cases h1 : k1 = k
    · subst h1
      rw [eraseA_cons_self]
      by_cases h2 : k1 = k'
      · subst h2
        rw [if_pos rfl]
        exact lookupA_eq_none_of_not_mem rest k1 h.1
      · rw [if_neg h2, lookupA_cons_ne _ _ _ _ h2]
    · rw [eraseA_cons_ne _ _ _ _ h1]
      by_cases h3 : k1 = k'
      · subst h3
        have hk : ¬ k = k1 := fun hh => h1 hh.symm
        rw [lookupA_cons_self, lookupA_cons_self, if_neg hk]
      · rw [lookupA_cons_ne _ _ _ _ h3, lookupA_cons_ne _ _ _ _ h3, ih h.2]

theorem mem_keysOf_eraseA (d : Dict) (k a : String)
    (h : a ∈ keysOf (eraseA d k)) : a ∈ keysOf d := by
  induction d with
  | nil => simpa [eraseA] using h
  | cons p rest ih =>
    obtain ⟨k1, v1⟩ := p
    by_cases h1 : k1 = k
    · subst h1
      rw [eraseA_cons_self] at h
      rw [keysOf_cons]
      exact List.mem_cons_of_mem _ h
    · rw [eraseA_cons_ne _ _ _ _ h1, keysOf_cons] at h
      rw [keysOf_cons]
      rcases List.mem_cons.mp h with h' | h'
      · exact List.mem_cons.mpr (Or.inl h')
      · exact List.mem_cons.mpr (Or.inr (ih h'))

theorem nodup_keysOf_eraseA (d : Dict) (k : String)
    (h : (keysOf d).Nodup) : (keysOf (eraseA d k)).Nodup := by
  induction d with
  | nil => simp [eraseA, keysOf]
  | cons p rest ih =>
    obtain ⟨k1, v1⟩ := p
    rw [keysOf_cons, List.nodup_cons] at h
    by_cases h1 : k1 = k
    · subst h1
      rw [eraseA_cons_self]
      exact h.2
    · rw [eraseA_cons_ne _ _ _ _ h1, keysOf_cons, List.nodup_cons]
      exact ⟨fun hc => h.1 (mem_keysOf_eraseA rest k k1 hc), ih h.2⟩

theorem updateFold_cons (D : Dict) (k : String) (v : Value) (kw : Dict) :
    updateFold D ((k, v) :: kw) = updateFold (updateA D k v) kw := rfl

theorem lookupA_updateFold (D kw : Dict) (k : String) (h : (keysOf kw).Nodup) :
    lookupA (updateFold D kw) k =
      match lookupA kw k with
      | some v => some v
      | none => lookupA D k := by
  induction kw generalizing D with
  | nil => simp [updateFold, lookupA]
  | cons p rest ih =>
    obtain ⟨k1, v1⟩ := p
    rw [keysOf_cons, List.nodup_cons] at h
    rw [updateFold_cons, ih _ h.2]
    by_cases h1 : k1 = k
    · subst h1
      rw [lookupA_eq_none_of_not_mem rest k1 h.1, lookupA_cons_self]
      simp [lookupA_updateA]
    · rw [lookupA_cons_ne _ _ _ _ h1]
      cases lookupA rest k with
      | some w => rfl
      | none => simp [lookupA_updateA, h1]

theorem mem_keysOf_updateFold (D kw : Dict) (a : String) :
    a ∈ keysOf (updateFold D kw) ↔ a ∈ keysOf D ∨ a ∈ keysOf kw := by
  induction kw generalizing D with
  | nil => simp [updateFold, keysOf]
  | cons p rest ih =>
    obtain ⟨k1, v1⟩ := p
    rw [updateFold_cons, ih, keysOf_cons]
    simp only [mem_keysOf_updateA, List.mem_cons]
    tauto

theorem nodup_keysOf_updateFold (D kw : Dict) (h : (keysOf D).Nodup) :
    (keysOf (updateFold D kw)).Nodup := by
  induction kw generalizing D with
  | nil => exact h
  | cons p rest ih =>
    obtain ⟨k1, v1⟩ := p
    rw [updateFold_cons]
    exact ih _ (nodup_keysOf_updateA D k1 v1 h)

theorem mem_of_mem_removeFirst (l : List String) (k a : String)
    (h : a ∈ removeFirst l k) : a ∈ l := by
  induction l with
  | nil => simpa [removeFirst] using h
  | cons x xs ih =>
    by_cases h1 : x = k
    · subst h1; simp only [removeFirst, if_pos rfl] at h; exact List.mem_cons_of_mem _ h
    · simp only [removeFirst, if_neg h1, List.mem_cons] at h ⊢
      rcases h with h | h
      · exact Or.inl h
      · exact Or.inr (ih h)

theorem not_mem_removeFirst (l : List String) (k : String) (h : l.Nodup) :
    k ∉ removeFirst l k := by
  induction l with
  | nil => simp [removeFirst]
  | cons x xs ih =>
    rw [List.nodup_cons] at h
    by_cases h1 : x = k
    · subst h1; simpa [removeFirst] using h.1
    · simp only [removeFirst, if_neg h1, List.mem_cons]
      rintro (h2 | h2)
      · exact h1 h2.symm
      · exact ih h.2 h2

theorem removeFirst_of_not_mem (l : List String) (k : String) (h : k ∉ l) :
    removeFirst l k = l := by
  induction l with
  | nil => rfl
  | cons x xs ih =>
    rw [List.mem_cons, not_or] at h
    have hx : ¬ x = k := fun hh => h.1 hh.symm
    simp only [removeFirst, if_neg hx]
    rw [ih h.2]

theorem mem_removeFirst_of_ne (l : List String) (k a : String)
    (hm : a ∈ l) (hne : a ≠ k) : a ∈ removeFirst l k := by
  induction l with
  | nil => simp at hm
  | cons x xs ih =>
    rcases List.mem_cons.mp hm with h1 | h1
    · subst h1
      simp only [removeFirst, if_neg (fun hh => hne hh)]
      exact List.mem_cons_self _ _
    · by_cases h2 : x = k
      · subst h2; simp only [removeFirst, if_pos rfl]; exact h1
      · simp only [removeFirst, if_neg h2, List.mem_cons]
        exact Or.inr (ih h1)

theorem mem_removeFirst_iff (l : List String) (k a : String) (h : l.Nodup) :
    a ∈ removeFirst l k ↔ a ∈ l ∧ a ≠ k := by
  constructor
  · intro hm
    refine ⟨mem_of_mem_removeFirst l k a hm, ?_⟩
    rintro rfl
    exact not_mem_removeFirst l a h hm
  · rintro ⟨hm, hne⟩
    exact mem_removeFirst_of_ne l k a hm hne

theorem mem_pair_of_lookupA (d : Dict) (k : String) (v : Value)
    (h : lookupA d k = some v) : (k, v) ∈ d := by
  induction d with
  | nil => simp [lookupA] at h
  | cons p rest ih =>
    obtain ⟨k1, v1⟩ := p
    by_cases h1 : k1 = k
    · subst h1
      rw [lookupA_cons_self, Option.some.injEq] at h
      simp [h]
    · rw [lookupA_cons_ne _ _ _ _ h1] at h
      exact List.mem_cons_of_mem _ (ih h)

theorem lookupA_of_mem_pair (d : Dict) (k : String) (v : Value)
    (hn : (keysOf d).Nodup) (h : (k, v) ∈ d) : lookupA d k = some v := by
  induction d with
  | nil => simp at h
  | cons p rest ih =>
    obtain ⟨k1, v1⟩ := p
    rw [keysOf_cons, List.nodup_cons] at hn
    rcases List.mem_cons.mp h with h1 | h1
    · injection h1 with e1 e2
      subst e1; subst e2
      exact lookupA_cons_self _ _ _
    · have hk : k1 ≠ k := by
        rintro rfl
        exact hn.1 (List.mem_map.mpr ⟨(k1, v), h1, rfl⟩)
      rw [lookupA_cons_ne _ _ _ _ hk]
      exact ih hn.2 h1

theorem mem_sortStr (l : List String) (a : String) : a ∈ sortStr l ↔ a ∈ l :=
  (List.perm_insertionSort strLeRel l).mem_iff

theorem nodup_sortStr (l : List String) (h : l.Nodup) : (sortStr l).Nodup :=
  ((List.perm_insertionSort strLeRel l).nodup_iff).mpr h

theorem sorted_sortStr (l : List String) : (sortStr l).Sorted strLeRel :=
  List.sorted_insertionSort strLeRel l

theorem sortStr_eq_of_mem_iff (l1 l2 : List String)
    (h1 : l1.Nodup) (h2 : l2.Nodup) (h : ∀ a, a ∈ l1 ↔ a ∈ l2) :
    sortStr l1 = sortStr l2 := by
  have hp : List.Perm (sortStr l1) (sortStr l2) := by
    refine ((List.perm_ext_iff_of_nodup (nodup_sortStr l1 h1) (nodup_sortStr l2 h2)).mpr ?_)
    intro a
    rw [mem_sortStr, mem_sortStr]
    exact h a
  exact List.eq_of_perm_of_sorted hp (sorted_sortStr l1) (sorted_sortStr l2)

theorem mem_sortEntries (l : Dict) (p : String × Value) : p ∈ sortEntries l ↔ p ∈ l :=
  (List.perm_insertionSort entryLeRel l).mem_iff

theorem keysOf_sortEntries_perm (l : Dict) : List.Perm (keysOf (sortEntries l)) (keysOf l) :=
  (List.perm_insertionSort entryLeRel l).map Prod.fst

theorem nodup_keysOf_sortEntries (l : Dict) (h : (keysOf l).Nodup) :
    (keysOf (sortEntries l)).Nodup :=
  (keysOf_sortEntries_perm l).nodup_iff.mpr h

theorem sorted_keys_sortEntries (l : Dict) :
    (keysOf (sortEntries l)).Sorted strLeRel := by
  have hs : (sortEntries l).Sorted entryLeRel := List.sorted_insertionSort entryLeRel l
  exact hs.map Prod.fst (fun a b hab => hab)

theorem lookupA_sortEntries (l : Dict) (k : String) (h : (keysOf l).Nodup) :
    lookupA (sortEntries l) k = lookupA l k := by
  cases hl : lookupA l k with
  | none =>
    have hk : k ∉ keysOf l := by
      intro hc
      have := (lookupA_isSome_iff l k).mpr hc
      rw [hl] at this
      simp at this
    apply lookupA_eq_none_of_not_mem
    intro hc
    exact hk ((keysOf_sortEntries_perm l).mem_iff.mp hc)
  | some v =>
    exact lookupA_of_mem_pair _ k v (nodup_keysOf_sortEntries l h)
      ((mem_sortEntries l (k, v)).mpr (mem_pair_of_lookupA l k v hl))

theorem sortedEntries_lookup_ext : (l1 l2 : Dict) →
    (keysOf l1).Sorted strLeRel → (keysOf l2).Sorted strLeRel →
    (keysOf l1).Nodup → (keysOf l2).Nodup →
    (∀ k, lookupA l1 k = lookupA l2 k) → l1 = l2
  | [], [], _, _, _, _, _ => rfl
  | [], (k2, v2) :: rest2, _, _, _, _, h => by
    have hh := h k2
    rw [lookupA_cons_self] at hh
    simp [lookupA] at hh
  | (k1, v1) :: rest, [], _, _, _, _, h => by
    have hh := h k1
    rw [lookupA_cons_self] at hh
    simp [lookupA] at hh
  | (k1, v1) :: rest, (k2, v2) :: rest2, s1, s2, n1, n2, h => by
    rw [keysOf_cons, List.sorted_cons] at s1 s2
    rw [keysOf_cons, List.nodup_cons] at n1 n2
    have hkeq : k1 = k2 := by
      by_contra hne
      have e1 := h k1
      rw [lookupA_cons_self] at e1
      have hm1 : k1 ∈ keysOf ((k2, v2) :: rest2) :=
        mem_keysOf_of_lookupA _ k1 v1 e1.symm
      have e2 := h k2
      rw [lookupA_cons_self (d := rest2)] at e2
      have hm2 : k2 ∈ keysOf ((k1, v1) :: rest) :=
        mem_keysOf_of_lookupA _ k2 v2 e2
      rw [keysOf_cons, List.mem_cons] at hm1 hm2
      rcases hm1 with h1 | h1
      · exact hne h1
      · rcases hm2 with h2 | h2
        · exact hne h2.symm
        · have le1 : strLeRel k2 k1 := s2.1 k1 h1
          have le2 : strLeRel k1 k2 := s1.1 k2 h2
          exact hne (IsAntisymm.antisymm (r := strLeRel) k1 k2 le2 le1)
    subst hkeq
    have hveq : v1 = v2 := by
      have hh := h k1
      rw [lookupA_cons_self, lookupA_cons_self] at hh
      exact Option.some.inj hh
    subst hveq
    have htail : rest = rest2 := by
      refine sortedEntries_lookup_ext rest rest2 s1.2 s2.2 n1.2 n2.2 (fun k => ?_)
      by_cases hk : k = k1
      · subst hk
        rw [lookupA_eq_none_of_not_mem rest k n1.1, lookupA_eq_none_of_not_mem rest2 k n2.1]
      · have hne := h k
        have hk1 : k1 ≠ k := fun hh => hk hh.symm
        rw [lookupA_cons_ne _ _ _ _ hk1, lookupA_cons_ne _ _ _ _ hk1] at hne
        exact hne
    rw [htail]


/-! ### Canonicalization lemmas -/

theorem canon_isNull (v : Value) : (canon v).isNull = v.isNull := by
  cases v <;> simp [canon, Value.isNull]

theorem canonEntityEntries_eq (d : Dict) :
    canonEntityEntries d = canonEntries (toJson d) := by
  induction d with
  | nil => rfl
  | cons p rest ih =>
    obtain ⟨k, v⟩ := p
    by_cases hv : v.isNull = true
    · simp [canonEntityEntries, toJson, hv, ih]
    · simp [canonEntityEntries, toJson, hv, canonEntries, ih]

theorem keysOf_canonEntries (d : Dict) : keysOf (canonEntries d) = keysOf d := by
  induction d with
  | nil => rfl
  | cons p rest ih =>
    obtain ⟨k, v⟩ := p
    simp [canonEntries, keysOf_cons, ih]

theorem lookupA_canonEntries (d : Dict) (k : String) :
    lookupA (canonEntries d) k = (lookupA d k).map canon := by
  induction d with
  | nil => simp [canonEntries, lookupA]
  | cons p rest ih =>
    obtain ⟨k1, v1⟩ := p
    by_cases h1 : k1 = k
    · subst h1
      simp [canonEntries, lookupA_cons_self]
    · simp [canonEntries, lookupA_cons_ne _ _ _ _ h1, ih]

theorem canonEntityEntries_cons_null (k : String) (v : Value) (rest : Dict)
    (h : v.isNull = true) :
    canonEntityEntries ((k, v) :: rest) = canonEntityEntries rest := by
  simp [canonEntityEntries, h]

theorem canonEntityEntries_cons_nonnull (k : String) (v : Value) (rest : Dict)
    (h : ¬ v.isNull = true) :
    canonEntityEntries ((k, v) :: rest) = (k, canon v) :: canonEntityEntries rest := by
  simp [canonEntityEntries, h]

theorem keysOf_canonEntityEntries_sublist (d : Dict) :
    (keysOf (canonEntityEntries d)).Sublist (keysOf d) := by
  induction d with
  | nil => simp [canonEntityEntries, keysOf]
  | cons p rest ih =>
    obtain ⟨k, v⟩ := p
    by_cases hv : v.isNull = true
    · rw [canonEntityEntries_cons_null _ _ _ hv, keysOf_cons]
      exact ih.cons k
    · rw [canonEntityEntries_cons_nonnull _ _ _ hv, keysOf_cons, keysOf_cons]
      exact ih.cons₂ k

theorem nodup_keysOf_canonEntityEntries (d : Dict) (h : (keysOf d).Nodup) :
    (keysOf (canonEntityEntries d)).Nodup :=
  (keysOf_canonEntityEntries_sublist d).nodup h

theorem lookupA_canonEntityEntries (d : Dict) (k : String) (h : (keysOf d).Nodup) :
    lookupA (canonEntityEntries d) k =
      match lookupA d k with
      | some v => if v.isNull then none else some (canon v)
      | none => none := by
  induction d with
  | nil => simp [canonEntityEntries, lookupA]
  | cons p rest ih =>
    obtain ⟨k1, v1⟩ := p
    rw [keysOf_cons, List.nodup_cons] at h
    by_cases h1 : k1 = k
    · subst h1
      rw [lookupA_cons_self]
      by_cases hv : v1.isNull = true
      · rw [canonEntityEntries_cons_null _ _ _ hv, ih h.2,
          lookupA_eq_none_of_not_mem rest k1 h.1]
        simp [hv]
      · rw [canonEntityEntries_cons_nonnull _ _ _ hv, lookupA_cons_self]
        simp [hv]
    · by_cases hv : v1.isNull = true
      · rw [canonEntityEntries_cons_null _ _ _ hv, ih h.2, lookupA_cons_ne _ _ _ _ h1]
      · rw [canonEntityEntries_cons_nonnull _ _ _ hv, lookupA_cons_ne _ _ _ _ h1,
          lookupA_cons_ne _ _ _ _ h1, ih h.2]

mutual

theorem canon_decoded_id : (v : Value) → decodedB v = true → canon v = v
  | .null, _ => rfl
  | .bool _, _ => rfl
  | .int _, _ => rfl
  | .str _, _ => rfl
  | .vlist vs, h => by
    simp only [decodedB] at h
    simp [canon, canonList_decoded_id vs h]
  | .dict d, h => by
    simp only [decodedB, Bool.and_eq_true] at h
    simp [canon, canonEntries_decoded_id d h.2]

theorem canonList_decoded_id : (vs : List Value) → decodedListB vs = true → canonList vs = vs
  | [], _ => rfl
  | v :: vs, h => by
    simp only [decodedListB, Bool.and_eq_true] at h
    simp [canonList, canon_decoded_id v h.1, canonList_decoded_id vs h.2]

theorem canonEntries_decoded_id : (d : Dict) → decodedEntriesB d = true → canonEntries d = d
  | [], _ => rfl
  | (k, v) :: rest, h => by
    simp only [decodedEntriesB, Bool.and_eq_true] at h
    simp [canonEntries, canon_decoded_id v h.1, canonEntries_decoded_id rest h.2]

end

mutual

theorem decodedB_canon : (v : Value) → wellB v = true → decodedB (canon v) = true
  | .null, _ => rfl
  | .bool _, _ => rfl
  | .int _, _ => rfl
  | .str _, _ => rfl
  | .vlist vs, h => by
    simp only [wellB] at h
    simpa [canon, decodedB] using decodedListB_canon vs h
  | .dict d, h => by
    simp only [wellB, Bool.and_eq_true] at h
    simp only [canon, decodedB, Bool.and_eq_true]
    refine ⟨?_, decodedEntriesB_canon d h.2⟩
    rw [keysOf_canonEntries]
    exact h.1
  | .entity n d, h => by
    simp only [wellB, Bool.and_eq_true] at h
    simp only [canon, decodedB, Bool.and_eq_true]
    constructor
    · rw [nodupKeysB_iff]
      exact nodup_keysOf_canonEntityEntries d ((nodupKeysB_iff _).mp h.1.1)
    · exact decodedEntriesB_canonEntity d h.2
  | .enumMember _ _, _ => rfl

theorem decodedListB_canon : (vs : List Value) → wellListB vs = true → decodedListB (canonList vs) = true
  | [], _ => rfl
  | v :: vs, h => by
    simp only [wellListB, Bool.and_eq_true] at h
    simp only [canonList, decodedListB, Bool.and_eq_true]
    exact ⟨decodedB_canon v h.1, decodedListB_canon vs h.2⟩

theorem decodedEntriesB_canon : (d : Dict) → wellEntriesB d = true → decodedEntriesB (canonEntries d) = true
  | [], _ => rfl
  | (k, v) :: rest, h => by
    simp only [wellEntriesB, Bool.and_eq_true] at h
    simp only [canonEntries, decodedEntriesB, Bool.and_eq_true]
    exact ⟨decodedB_canon v h.1, decodedEntriesB_canon rest h.2⟩

theorem decodedEntriesB_canonEntity : (d : Dict) → wellEntriesB d = true → decodedEntriesB (canonEntityEntries d) = true
  | [], _ => rfl
  | (k, v) :: rest, h => by
    simp only [wellEntriesB, Bool.and_eq_true] at h
    by_cases hv : v.isNull = true
    · rw [canonEntityEntries_cons_null _ _ _ hv]
      exact decodedEntriesB_canonEntity rest h.2
    · rw [canonEntityEntries_cons_nonnull _ _ _ hv]
      simp only [decodedEntriesB, Bool.and_eq_true]
      exact ⟨decodedB_canon v h.1, decodedEntriesB_canonEntity rest h.2⟩

end

theorem canon_idem_of_well (v : Value) (h : wellB v = true) :
    canon (canon v) = canon v :=
  canon_decoded_id (canon v) (decodedB_canon v h)

theorem canon_decodedDict_id (m : Dict) (h : decodedDictB m = true) :
    canonEntries m = m := by
  simp only [decodedDictB, decodedB, Bool.and_eq_true] at h
  exact canonEntries_decoded_id m h.2

theorem lookupA_sortCanonEntries (d : Dict) (k : String) :
    lookupA (sortCanonEntries d) k = (lookupA d k).map sortCanon := by
  induction d with
  | nil => simp [sortCanonEntries, lookupA]
  | cons p rest ih =>
    obtain ⟨k1, v1⟩ := p
    by_cases h1 : k1 = k
    · subst h1
      simp [sortCanonEntries, lookupA_cons_self]
    · simp [sortCanonEntries, lookupA_cons_ne _ _ _ _ h1, ih]

theorem keysOf_sortCanonEntries (d : Dict) : keysOf (sortCanonEntries d) = keysOf d := by
  induction d with
  | nil => rfl
  | cons p rest ih =>
    obtain ⟨k, v⟩ := p
    simp [sortCanonEntries, keysOf_cons, ih]

theorem sortCanon_dict_ext (d1 d2 : Dict)
    (n1 : (keysOf d1).Nodup) (n2 : (keysOf d2).Nodup)
    (h : ∀ k, (lookupA d1 k).map sortCanon = (lookupA d2 k).map sortCanon) :
    sortCanon (.dict d1) = sortCanon (.dict d2) := by
  simp only [sortCanon]
  congr 1
  have m1 : (keysOf (sortCanonEntries d1)).Nodup := by rw [keysOf_sortCanonEntries]; exact n1
  have m2 : (keysOf (sortCanonEntries d2)).Nodup := by rw [keysOf_sortCanonEntries]; exact n2
  refine sortedEntries_lookup_ext _ _
    (sorted_keys_sortEntries _) (sorted_keys_sortEntries _)
    (nodup_keysOf_sortEntries _ m1) (nodup_keysOf_sortEntries _ m2)
    (fun k => ?_)
  rw [lookupA_sortEntries _ _ m1, lookupA_sortEntries _ _ m2,
    lookupA_sortCanonEntries, lookupA_sortCanonEntries]
  exact h k

theorem sortCanonList_eq_map (vs : List Value) : sortCanonList vs = vs.map sortCanon := by
  induction vs with
  | nil => rfl
  | cons v vs ih => simp [sortCanonList, ih]

theorem canonList_eq_map (vs : List Value) : canonList vs = vs.map canon := by
  induction vs with
  | nil => rfl
  | cons v vs ih => simp [canonList, ih]



/-! ### Construction pipeline characterization -/

theorem lookupA_append (a b : Dict) (k : String) :
    lookupA (a ++ b) k =
      match lookupA a k with
      | some v => some v
      | none => lookupA b k := by
  induction a with
  | nil => simp [lookupA]
  | cons p rest ih =>
    obtain ⟨k1, v1⟩ := p
    by_cases h1 : k1 = k
    · subst h1
      rw [List.cons_append, lookupA_cons_self, lookupA_cons_self]
    · rw [List.cons_append, lookupA_cons_ne _ _ _ _ h1, lookupA_cons_ne _ _ _ _ h1, ih]

theorem updateA_append_of_not_mem (D : Dict) (k : String) (v : Value) (h : k ∉ keysOf D) :
    updateA D k v = D ++ [(k, v)] := by
  induction D with
  | nil => rfl
  | cons p rest ih =>
    obtain ⟨k1, v1⟩ := p
    rw [keysOf_cons, List.mem_cons, not_or] at h
    rw [updateA_cons_ne _ _ _ _ _ (fun hh => h.1 hh.symm), ih h.2, List.cons_append]

theorem keysOf_append (a b : Dict) : keysOf (a ++ b) = keysOf a ++ keysOf b := by
  simp [keysOf]

theorem updateFold_eq_append (D kw : Dict) (hn : (keysOf kw).Nodup)
    (hd : ∀ k ∈ keysOf kw, k ∉ keysOf D) : updateFold D kw = D ++ kw := by
  induction kw generalizing D with
  | nil => simp [updateFold]
  | cons p rest ih =>
    obtain ⟨k1, v1⟩ := p
    rw [keysOf_cons, List.nodup_cons] at hn
    rw [updateFold_cons, updateA_append_of_not_mem D k1 v1 (hd k1 (by rw [keysOf_cons]; exact List.mem_cons_self _ _))]
    rw [ih _ hn.2 ?_, List.append_assoc]
    · rfl
    · intro k hk
      have hne : k ≠ k1 := fun hh => hn.1 (hh ▸ hk)
      have hnd : k ∉ keysOf D := hd k (by rw [keysOf_cons]; exact List.mem_cons_of_mem _ hk)
      intro hc
      rw [keysOf_append] at hc
      rcases List.mem_append.mp hc with hc1 | hc1
      · exact hnd hc1
      · have : k = k1 := by simpa [keysOf] using hc1
        exact hne this

theorem keysOf_paramAssigns (cls : CerealClass) (m : Dict) :
    keysOf (paramAssigns cls m) = keysOf cls.params := by
  simp [paramAssigns, keysOf, List.map_map, Function.comp]

theorem lookupA_assignMap (ps : Dict) (m : Dict) (k : String) :
    lookupA (ps.map (fun pd => (pd.1, (lookupA m pd.1).getD pd.2))) k
      = (lookupA ps k).map (fun dflt => (lookupA m k).getD dflt) := by
  induction ps with
  | nil => simp [lookupA]
  | cons p rest ih =>
    obtain ⟨k1, d1⟩ := p
    by_cases h1 : k1 = k
    · subst h1
      simp only [List.map_cons, lookupA_cons_self]
      rfl
    · simp only [List.map_cons, lookupA_cons_ne _ _ _ _ h1, ih]

theorem lookupA_paramAssigns (cls : CerealClass) (m : Dict) (k : String) :
    lookupA (paramAssigns cls m) k
      = (lookupA cls.params k).map (fun dflt => (lookupA m k).getD dflt) :=
  lookupA_assignMap cls.params m k

theorem wf_declared_nodup (cls : CerealClass) (hw : wfClassB cls = true) :
    (declaredNames cls).Nodup := by
  rw [wfClassB, Bool.and_eq_true, Bool.and_eq_true] at hw
  exact (nodupKeysB_iff _).mp hw.2

theorem wf_meta_not_declared (cls : CerealClass) (hw : wfClassB cls = true) :
    metaKey ∉ declaredNames cls := by
  rw [wfClassB, Bool.and_eq_true, Bool.and_eq_true] at hw
  have := hw.1.1
  rw [Bool.not_eq_eq_eq_not, Bool.not_true] at this
  intro hc
  have hc2 : (declaredNames cls).contains metaKey = true := List.elem_iff.mpr hc
  rw [this] at hc2
  exact Bool.noConfusion hc2

theorem lookupHint_eq_none_of_not_mem (hs : List (String × Hint)) (k : String)
    (h : k ∉ hs.map Prod.fst) : lookupHint hs k = none := by
  induction hs with
  | nil => rfl
  | cons p rest ih =>
    obtain ⟨k1, h1⟩ := p
    rw [List.map_cons, List.mem_cons, not_or] at h
    have hk : ¬ k1 = k := fun hh => h.1 hh.symm
    simp only [lookupHint, if_neg hk]
    exact ih h.2

theorem wf_meta_not_hinted (cls : CerealClass) (hw : wfClassB cls = true) :
    lookupHint cls.hints metaKey = none := by
  rw [wfClassB, Bool.and_eq_true, Bool.and_eq_true] at hw
  have := hw.1.2
  rw [Bool.not_eq_eq_eq_not, Bool.not_true] at this
  apply lookupHint_eq_none_of_not_mem
  intro hc
  have hc2 : (cls.hints.map Prod.fst).contains metaKey = true := List.elem_iff.mpr hc
  rw [this] at hc2
  exact Bool.noConfusion hc2

theorem bodyDict_eq (cls : CerealClass) (m : Dict) (hw : wfClassB cls = true) :
    bodyDict cls m = paramAssigns cls m ++ cls.bodyInits := by
  have hkeys : keysOf (paramAssigns cls m ++ cls.bodyInits) = declaredNames cls := by
    rw [keysOf_append, keysOf_paramAssigns]
    rfl
  rw [bodyDict]
  rw [updateFold_eq_append _ _ ?_ ?_]
  · simp
  · rw [hkeys]
    exact wf_declared_nodup cls hw
  · intro k _
    simp [keysOf]

theorem keysOf_bodyDict (cls : CerealClass) (m : Dict) (hw : wfClassB cls = true) :
    keysOf (bodyDict cls m) = declaredNames cls := by
  rw [bodyDict_eq cls m hw, keysOf_append, keysOf_paramAssigns]
  rfl

theorem lookupA_bodyDict (cls : CerealClass) (m : Dict) (k : String) (hw : wfClassB cls = true) :
    lookupA (bodyDict cls m) k =
      match lookupA cls.params k with
      | some dflt => some ((lookupA m k).getD dflt)
      | none => lookupA cls.bodyInits k := by
  rw [bodyDict_eq cls m hw, lookupA_append, lookupA_paramAssigns]
  cases lookupA cls.params k <;> simp

theorem lookupA_initDict_meta (cls : CerealClass) (m : Dict) :
    lookupA (initDict cls m) metaKey = some (mkMeta [] [] cls.cname) := by
  rw [initDict, lookupA_updateA]
  simp

theorem lookupA_initDict_ne (cls : CerealClass) (m : Dict) (k : String) (hk : k ≠ metaKey) :
    lookupA (initDict cls m) k = lookupA (bodyDict cls m) k := by
  rw [initDict, lookupA_updateA, if_neg (fun hh => hk hh.symm)]

theorem keysOf_initDict (cls : CerealClass) (m : Dict) (hw : wfClassB cls = true) :
    keysOf (initDict cls m) = declaredNames cls ++ [metaKey] := by
  rw [initDict, updateA_append_of_not_mem _ _ _ ?_, keysOf_append, keysOf_bodyDict cls m hw]
  · rfl
  · rw [keysOf_bodyDict cls m hw]
    exact wf_meta_not_declared cls hw

theorem nodup_keysOf_initDict (cls : CerealClass) (m : Dict) (hw : wfClassB cls = true) :
    (keysOf (initDict cls m)).Nodup := by
  rw [keysOf_initDict cls m hw]
  rw [List.nodup_append]
  refine ⟨wf_declared_nodup cls hw, List.nodup_singleton _, ?_⟩
  intro a ha hb
  simp at hb
  subst hb
  exact wf_meta_not_declared cls hw ha

theorem lookupA_ctorKwargsAux (ps : Dict) (m : Dict) (k : String) (hm : (keysOf m).Nodup) :
    lookupA (ps.foldl (fun d pd => eraseA d pd.1) m) k
      = if k ∈ keysOf ps then none else lookupA m k := by
  induction ps generalizing m with
  | nil => simp [keysOf]
  | cons p rest ih =>
    obtain ⟨k1, d1⟩ := p
    have step : ((k1, d1) :: rest).foldl (fun d pd => eraseA d pd.1) m
        = rest.foldl (fun d pd => eraseA d pd.1) (eraseA m k1) := rfl
    rw [step, ih _ (nodup_keysOf_eraseA m k1 hm), keysOf_cons]
    by_cases h1 : k ∈ keysOf rest
    · simp [h1, List.mem_cons]
    · rw [if_neg h1, lookupA_eraseA m k1 k hm]
      by_cases h2 : k1 = k
      · subst h2
        simp
      · have h2' : ¬ k = k1 := fun hh => h2 hh.symm
        simp [h1, h2, h2', List.mem_cons]

theorem lookupA_ctorKwargs (cls : CerealClass) (m : Dict) (k : String) (hm : (keysOf m).Nodup) :
    lookupA (ctorKwargs cls m) k
      = if k ∈ keysOf cls.params then none else lookupA m k :=
  lookupA_ctorKwargsAux cls.params m k hm

theorem nodup_keysOf_ctorKwargsAux (ps : Dict) (m : Dict) (hm : (keysOf m).Nodup) :
    (keysOf (ps.foldl (fun d pd => eraseA d pd.1) m)).Nodup := by
  induction ps generalizing m with
  | nil => exact hm
  | cons p rest ih =>
    obtain ⟨k1, d1⟩ := p
    exact ih _ (nodup_keysOf_eraseA m k1 hm)

theorem nodup_keysOf_ctorKwargs (cls : CerealClass) (m : Dict) (hm : (keysOf m).Nodup) :
    (keysOf (ctorKwargs cls m)).Nodup :=
  nodup_keysOf_ctorKwargsAux cls.params m hm

theorem strListOf_map_str (l : List String) : strListOf (.vlist (l.map .str)) = l := by
  induction l with
  | nil => rfl
  | cons s rest ih => simp [strListOf] at ih ⊢; exact ih

theorem lookupA_mkMeta_missing (mi ex : List String) (ty : String) :
    lookupA (dictOf (mkMeta mi ex ty)) missingKey = some (.vlist (mi.map .str)) := by
  simp [mkMeta, dictOf, lookupA, missingKey, extraKey, typeKey]

theorem getMissing_of_lookup (D : Dict) (mi ex : List String) (ty : String)
    (h : lookupA D metaKey = some (mkMeta mi ex ty)) : getMissing D = mi := by
  rw [getMissing, getMeta, h]
  simp only [mkMeta]
  rw [lookupA_cons_self]
  simp [strListOf_map_str]

theorem getExtra_of_lookup (D : Dict) (mi ex : List String) (ty : String)
    (h : lookupA D metaKey = some (mkMeta mi ex ty)) : getExtra D = ex := by
  rw [getExtra, getMeta, h]
  simp only [mkMeta]
  rw [lookupA_cons_ne _ _ _ _ (by decide), lookupA_cons_self]
  simp [strListOf_map_str]

theorem getTypeName_of_lookup (D : Dict) (mi ex : List String) (ty : String)
    (h : lookupA D metaKey = some (mkMeta mi ex ty)) : getTypeName D = ty := by
  rw [getTypeName, getMeta, h]
  simp only [mkMeta]
  rw [lookupA_cons_ne _ _ _ _ (by decide), lookupA_cons_ne _ _ _ _ (by decide), lookupA_cons_self]

theorem checkedDict_eq (cls : CerealClass) (m : Dict) :
    checkedDict cls m = updateA (initDict cls m) metaKey
      (mkMeta (missingComputed (initDict cls m) (ctorKwargs cls m))
              (extraComputed (initDict cls m) (ctorKwargs cls m)) cls.cname) := by
  rw [checkedDict, loadCheck, setMeta,
    getMissing_of_lookup _ [] [] cls.cname (lookupA_initDict_meta cls m),
    getExtra_of_lookup _ [] [] cls.cname (lookupA_initDict_meta cls m),
    getTypeName_of_lookup _ [] [] cls.cname (lookupA_initDict_meta cls m)]
  simp

theorem lookupA_checkedDict_meta (cls : CerealClass) (m : Dict) :
    lookupA (checkedDict cls m) metaKey = some
      (mkMeta (missingComputed (initDict cls m) (ctorKwargs cls m))
              (extraComputed (initDict cls m) (ctorKwargs cls m)) cls.cname) := by
  rw [checkedDict_eq, lookupA_updateA]
  simp

theorem lookupA_checkedDict_ne (cls : CerealClass) (m : Dict) (k : String) (hk : k ≠ metaKey) :
    lookupA (checkedDict cls m) k = lookupA (initDict cls m) k := by
  rw [checkedDict_eq, lookupA_updateA, if_neg (fun hh => hk hh.symm)]

theorem nodup_keysOf_checkedDict (cls : CerealClass) (m : Dict) (hw : wfClassB cls = true) :
    (keysOf (checkedDict cls m)).Nodup := by
  rw [checkedDict_eq]
  exact nodup_keysOf_updateA _ _ _ (nodup_keysOf_initDict cls m hw)

theorem mem_keysOf_checkedDict (cls : CerealClass) (m : Dict) (k : String)
    (hw : wfClassB cls = true) :
    k ∈ keysOf (checkedDict cls m) ↔ k ∈ declaredNames cls ∨ k = metaKey := by
  rw [checkedDict_eq, mem_keysOf_updateA, keysOf_initDict cls m hw, List.mem_append]
  simp only [List.mem_singleton]
  tauto

theorem nodup_keysOf_preDict (cls : CerealClass) (m : Dict) (hw : wfClassB cls = true) :
    (keysOf (preDict cls m)).Nodup := by
  rw [preDict]
  exact nodup_keysOf_updateFold _ _ (nodup_keysOf_checkedDict cls m hw)

theorem lookupA_preDict_meta (cls : CerealClass) (m : Dict)
    (hm : (keysOf m).Nodup) :
    lookupA (preDict cls m) metaKey = some
      (mkMeta (missingComputed (initDict cls m) (ctorKwargs cls m))
              (extraComputed (initDict cls m) (ctorKwargs cls m)) cls.cname) := by
  have hkn : (keysOf (ctorKwargs cls m)).Nodup := nodup_keysOf_ctorKwargs cls m hm
  rw [preDict, lookupA_updateFold _ _ _ (nodup_keysOf_eraseA _ _ hkn),
    lookupA_eraseA _ _ _ hkn]
  simp [lookupA_checkedDict_meta]

theorem lookupA_preDict_ne (cls : CerealClass) (m : Dict) (k : String)
    (hk : k ≠ metaKey) (hm : (keysOf m).Nodup) :
    lookupA (preDict cls m) k =
      match lookupA (ctorKwargs cls m) k with
      | some v => some v
      | none => lookupA (initDict cls m) k := by
  have hkn : (keysOf (ctorKwargs cls m)).Nodup := nodup_keysOf_ctorKwargs cls m hm
  rw [preDict, lookupA_updateFold _ _ _ (nodup_keysOf_eraseA _ _ hkn),
    lookupA_eraseA _ _ _ hkn, if_neg (fun hh => hk hh.symm)]
  cases lookupA (ctorKwargs cls m) k with
  | some v => rfl
  | none => simp [lookupA_checkedDict_ne cls m k hk]



/-! ### Presence list characterization -/

theorem isNull_eq_true_iff (v : Value) : v.isNull = true ↔ v = .null := by
  cases v <;> simp [Value.isNull]

theorem params_default_null (cls : CerealClass) (k : String) (d : Value)
    (hnd : nullDefaultsB cls = true) (h : lookupA cls.params k = some d) : d = .null := by
  rw [nullDefaultsB, Bool.and_eq_true] at hnd
  have hmem := mem_pair_of_lookupA _ _ _ h
  have := (List.all_eq_true.mp hnd.1) _ hmem
  exact (isNull_eq_true_iff d).mp this

theorem bodyInits_default_null (cls : CerealClass) (k : String) (d : Value)
    (hnd : nullDefaultsB cls = true) (h : lookupA cls.bodyInits k = some d) : d = .null := by
  rw [nullDefaultsB, Bool.and_eq_true] at hnd
  have hmem := mem_pair_of_lookupA _ _ _ h
  have := (List.all_eq_true.mp hnd.2) _ hmem
  exact (isNull_eq_true_iff d).mp this

theorem mem_bodyInits_of_declared (cls : CerealClass) (a : String)
    (ha : a ∈ declaredNames cls) (hp : lookupA cls.params a = none) :
    ∃ v, lookupA cls.bodyInits a = some v := by
  have hnp : a ∉ keysOf cls.params := by
    intro hc
    have := (lookupA_isSome_iff cls.params a).mpr hc
    rw [hp] at this
    exact Bool.noConfusion this
  have hb : a ∈ keysOf cls.bodyInits := by
    rcases List.mem_append.mp ha with h | h
    · exact absurd h hnp
    · exact h
  have := (lookupA_isSome_iff cls.bodyInits a).mp
  cases hl : lookupA cls.bodyInits a with
  | none =>
    exfalso
    have hs := (lookupA_isSome_iff cls.bodyInits a).mpr hb
    rw [hl] at hs
    exact Bool.noConfusion hs
  | some v => exact ⟨v, rfl⟩

theorem isPassed_initDict (cls : CerealClass) (m : Dict) (a : String)
    (hw : wfClassB cls = true) (hnd : nullDefaultsB cls = true) (hm : (keysOf m).Nodup)
    (ha : a ∈ declaredNames cls) :
    isPassed (initDict cls m) (ctorKwargs cls m) a
      = (match lookupA m a with | some v => !v.isNull | none => false) := by
  have hane : a ≠ metaKey := fun hh => wf_meta_not_declared cls hw (hh ▸ ha)
  rw [isPassed, lookupA_ctorKwargs cls m a hm, lookupA_initDict_ne cls m a hane,
    lookupA_bodyDict cls m a hw]
  cases hp : lookupA cls.params a with
  | some dflt =>
    have hdn : dflt = .null := params_default_null cls a dflt hnd hp
    subst hdn
    have hmem : a ∈ keysOf cls.params := mem_keysOf_of_lookupA _ _ _ hp
    rw [if_pos hmem]
    cases hlm : lookupA m a with
    | none => simp [Value.isNull]
    | some v => simp
  | none =>
    have hnp : a ∉ keysOf cls.params := by
      intro hc
      have := (lookupA_isSome_iff cls.params a).mpr hc
      rw [hp] at this
      exact Bool.noConfusion this
    rw [if_neg hnp]
    obtain ⟨v0, hv0⟩ := mem_bodyInits_of_declared cls a ha hp
    have hv0n : v0 = .null := bodyInits_default_null cls a v0 hnd hv0
    subst hv0n
    rw [hv0]
    cases hlm : lookupA m a with
    | none => simp [Value.isNull]
    | some v => simp [Value.isNull]

theorem missingComputed_initDict (cls : CerealClass) (m : Dict)
    (hw : wfClassB cls = true) (hnd : nullDefaultsB cls = true) (hm : (keysOf m).Nodup) :
    missingComputed (initDict cls m) (ctorKwargs cls m) = specMissingFields cls m := by
  rw [missingComputed, specMissingFields]
  apply sortStr_eq_of_mem_iff _ _ (List.nodup_dedup _) (List.nodup_dedup _)
  intro a
  rw [List.mem_dedup, List.mem_dedup, List.mem_filter, List.mem_filter]
  constructor
  · rintro ⟨hmem, hcond⟩
    rw [Bool.and_eq_true] at hcond
    have hane : a ≠ metaKey := by
      intro hh
      subst hh
      simp at hcond
    have hadecl : a ∈ declaredNames cls := by
      rw [keysOf_initDict cls m hw] at hmem
      rcases List.mem_append.mp hmem with h | h
      · exact h
      · simp at h
        exact absurd h hane
    refine ⟨hadecl, ?_⟩
    rw [isPassed_initDict cls m a hw hnd hm hadecl] at hcond
    exact hcond.1
  · rintro ⟨hadecl, hcond⟩
    have hane : a ≠ metaKey := fun hh => wf_meta_not_declared cls hw (hh ▸ hadecl)
    refine ⟨?_, ?_⟩
    · rw [keysOf_initDict cls m hw]
      exact List.mem_append.mpr (Or.inl hadecl)
    · rw [Bool.and_eq_true, isPassed_initDict cls m a hw hnd hm hadecl]
      refine ⟨hcond, ?_⟩
      simp [hane]

theorem extraComputed_initDict (cls : CerealClass) (m : Dict)
    (hw : wfClassB cls = true) (hm : (keysOf m).Nodup) :
    extraComputed (initDict cls m) (ctorKwargs cls m) = specExtraFields cls m := by
  rw [extraComputed, specExtraFields]
  apply sortStr_eq_of_mem_iff _ _ (List.nodup_dedup _) (List.nodup_dedup _)
  intro a
  rw [List.mem_dedup, List.mem_dedup, List.mem_map, List.mem_map]
  constructor
  · rintro ⟨⟨k, v⟩, hmem, hfst⟩
    rcases List.mem_filter.mp hmem with ⟨hkw, hcond⟩
    rw [Bool.and_eq_true] at hcond
    simp only at hfst
    subst hfst
    have hlkw : lookupA (ctorKwargs cls m) k = some v :=
      lookupA_of_mem_pair _ _ _ (nodup_keysOf_ctorKwargs cls m hm) hkw
    rw [lookupA_ctorKwargs cls m k hm] at hlkw
    by_cases hp : k ∈ keysOf cls.params
    · rw [if_pos hp] at hlkw
      exact Option.noConfusion hlkw
    · rw [if_neg hp] at hlkw
      have hknotin : k ∉ keysOf (initDict cls m) := by
        intro hc
        have := hcond.2
        rw [Bool.not_eq_eq_eq_not, Bool.not_true] at this
        have hc2 : (keysOf (initDict cls m)).contains k = true := List.elem_iff.mpr hc
        rw [this] at hc2
        exact Bool.noConfusion hc2
      have hkdecl : k ∉ declaredNames cls := by
        intro hc
        apply hknotin
        rw [keysOf_initDict cls m hw]
        exact List.mem_append.mpr (Or.inl hc)
      have hkmeta : k ≠ metaKey := by
        intro hc
        apply hknotin
        rw [keysOf_initDict cls m hw]
        exact List.mem_append.mpr (Or.inr (by simp [hc]))
      refine ⟨(k, v), List.mem_filter.mpr ⟨mem_pair_of_lookupA m k v hlkw, ?_⟩, rfl⟩
      rw [Bool.and_eq_true, Bool.and_eq_true]
      refine ⟨⟨hcond.1, ?_⟩, ?_⟩
      · rw [Bool.not_eq_eq_eq_not, Bool.not_true]
        cases hcc : (declaredNames cls).contains k with
        | false => rfl
        | true => exact absurd (List.elem_iff.mp hcc) hkdecl
      · simp [hkmeta]
  · rintro ⟨⟨k, v⟩, hmem, hfst⟩
    rcases List.mem_filter.mp hmem with ⟨hkm, hcond⟩
    rw [Bool.and_eq_true, Bool.and_eq_true] at hcond
    simp only at hfst
    subst hfst
    have hkdecl : k ∉ declaredNames cls := by
      intro hc
      have := hcond.1.2
      rw [Bool.not_eq_eq_eq_not, Bool.not_true] at this
      have hc2 : (declaredNames cls).contains k = true := List.elem_iff.mpr hc
      rw [this] at hc2
      exact Bool.noConfusion hc2
    have hkmeta : k ≠ metaKey := by
      intro hc
      have := hcond.2
      rw [hc] at this
      simp at this
    have hknp : k ∉ keysOf cls.params := by
      intro hc
      exact hkdecl (List.mem_append.mpr (Or.inl hc))
    refine ⟨(k, v), List.mem_filter.mpr ⟨?_, ?_⟩, rfl⟩
    · have : lookupA (ctorKwargs cls m) k = some v := by
        rw [lookupA_ctorKwargs cls m k hm, if_neg hknp]
        exact lookupA_of_mem_pair m k v hm hkm
      exact mem_pair_of_lookupA _ _ _ this
    · rw [Bool.and_eq_true]
      refine ⟨hcond.1.1, ?_⟩
      rw [Bool.not_eq_eq_eq_not, Bool.not_true]
      cases hcc : (keysOf (initDict cls m)).contains k with
      | false => rfl
      | true =>
        exfalso
        have := List.elem_iff.mp hcc
        rw [keysOf_initDict cls m hw] at this
        rcases List.mem_append.mp this with h | h
        · exact hkdecl h
        · simp at h
          exact hkmeta h

theorem lookupA_preDict_meta_spec (cls : CerealClass) (m : Dict)
    (hw : wfClassB cls = true) (hnd : nullDefaultsB cls = true) (hm : (keysOf m).Nodup) :
    lookupA (preDict cls m) metaKey = some
      (mkMeta (specMissingFields cls m) (specExtraFields cls m) cls.cname) := by
  rw [lookupA_preDict_meta cls m hm, missingComputed_initDict cls m hw hnd hm,
    extraComputed_initDict cls m hw hm]

theorem lookupA_preDict_declared (cls : CerealClass) (m : Dict) (k : String)
    (hw : wfClassB cls = true) (hnd : nullDefaultsB cls = true) (hm : (keysOf m).Nodup)
    (hk : k ∈ declaredNames cls) :
    lookupA (preDict cls m) k = some ((lookupA m k).getD .null) := by
  have hkm : k ≠ metaKey := fun hh => wf_meta_not_declared cls hw (hh ▸ hk)
  rw [lookupA_preDict_ne cls m k hkm hm, lookupA_ctorKwargs cls m k hm]
  by_cases hp : k ∈ keysOf cls.params
  · rw [if_pos hp]
    rw [lookupA_initDict_ne cls m k hkm, lookupA_bodyDict cls m k hw]
    cases hpl : lookupA cls.params k with
    | none =>
      exfalso
      have := (lookupA_isSome_iff cls.params k).mpr hp
      rw [hpl] at this
      exact Bool.noConfusion this
    | some dflt =>
      have := params_default_null cls k dflt hnd hpl
      subst this
      rfl
  · rw [if_neg hp]
    cases hlm : lookupA m k with
    | some v => rfl
    | none =>
      rw [lookupA_initDict_ne cls m k hkm, lookupA_bodyDict cls m k hw]
      have hpl : lookupA cls.params k = none :=
        lookupA_eq_none_of_not_mem cls.params k hp
      rw [hpl]
      obtain ⟨v0, hv0⟩ := mem_bodyInits_of_declared cls k hk hpl
      have := bodyInits_default_null cls k v0 hnd hv0
      subst this
      rw [hv0]
      rfl

theorem lookupA_preDict_undeclared (cls : CerealClass) (m : Dict) (k : String)
    (hw : wfClassB cls = true) (hm : (keysOf m).Nodup)
    (hk1 : k ∉ declaredNames cls) (hk2 : k ≠ metaKey) :
    lookupA (preDict cls m) k = lookupA m k := by
  have hknp : k ∉ keysOf cls.params := fun hc => hk1 (List.mem_append.mpr (Or.inl hc))
  rw [lookupA_preDict_ne cls m k hk2 hm, lookupA_ctorKwargs cls m k hm, if_neg hknp]
  cases hlm : lookupA m k with
  | some v => rfl
  | none =>
    rw [lookupA_initDict_ne cls m k hk2, lookupA_bodyDict cls m k hw,
      lookupA_eq_none_of_not_mem cls.params k hknp,
      lookupA_eq_none_of_not_mem cls.bodyInits k
        (fun hc => hk1 (List.mem_append.mpr (Or.inr hc)))]

theorem mem_keysOf_preDict (cls : CerealClass) (m : Dict) (k : String)
    (hw : wfClassB cls = true) (hm : (keysOf m).Nodup) :
    k ∈ keysOf (preDict cls m) ↔ k ∈ declaredNames cls ∨ k = metaKey ∨ k ∈ keysOf m := by
  have hkn : (keysOf (ctorKwargs cls m)).Nodup := nodup_keysOf_ctorKwargs cls m hm
  rw [preDict, mem_keysOf_updateFold, mem_keysOf_checkedDict cls m k hw]
  constructor
  · rintro ((h | h) | h)
    · exact Or.inl h
    · exact Or.inr (Or.inl h)
    · refine Or.inr (Or.inr ?_)
      have h2 := mem_keysOf_eraseA _ _ _ h
      cases hl : lookupA (ctorKwargs cls m) k with
      | none =>
        exfalso
        have := (lookupA_isSome_iff _ k).mpr h2
        rw [hl] at this
        exact Bool.noConfusion this
      | some v =>
        rw [lookupA_ctorKwargs cls m k hm] at hl
        by_cases hp : k ∈ keysOf cls.params
        · rw [if_pos hp] at hl
          exact Option.noConfusion hl
        · rw [if_neg hp] at hl
          exact mem_keysOf_of_lookupA m k v hl
  · rintro (h | h | h)
    · exact Or.inl (Or.inl h)
    · exact Or.inl (Or.inr h)
    · by_cases hd : k ∈ declaredNames cls
      · exact Or.inl (Or.inl hd)
      · by_cases hme : k = metaKey
        · exact Or.inl (Or.inr hme)
        · refine Or.inr ?_
          have hknp : k ∉ keysOf cls.params :=
            fun hc => hd (List.mem_append.mpr (Or.inl hc))
          cases hl : lookupA m k with
          | none =>
            exfalso
            have := (lookupA_isSome_iff m k).mpr h
            rw [hl] at this
            exact Bool.noConfusion this
          | some v =>
            have hlk : lookupA (eraseA (ctorKwargs cls m) metaKey) k = some v := by
              rw [lookupA_eraseA _ _ _ hkn, if_neg (fun hh => hme hh.symm),
                lookupA_ctorKwargs cls m k hm, if_neg hknp]
              exact hl
            exact mem_keysOf_of_lookupA _ k v hlk



/-! ### Reconstruction engine characterization -/

theorem mapM_except_nil (f : Value → Except CerealErr Value) :
    ([] : List Value).mapM f = .ok [] := rfl

theorem mapM_except_cons (f : Value → Except CerealErr Value) (v : Value) (vs : List Value) :
    (v :: vs).mapM f =
      match f v with
      | .ok w =>
        (match vs.mapM f with
         | .ok ws => .ok (w :: ws)
         | .error e => .error e)
      | .error e => .error e := by
  rw [List.mapM_cons]
  cases hf : f v with
  | ok w =>
    cases hrest : vs.mapM f with
    | ok ws => simp [hf, hrest, Bind.bind, Except.bind, pure, Except.pure]
    | error e => simp [hf, hrest, Bind.bind, Except.bind]
  | error e => simp [hf, Bind.bind, Except.bind]

theorem mapM_except_ok_id (f : Value → Except CerealErr Value) (vs : List Value)
    (h : ∀ x ∈ vs, f x = .ok x) : vs.mapM f = .ok vs := by
  induction vs with
  | nil => rfl
  | cons v vs ih =>
    rw [mapM_except_cons, h v (List.mem_cons_self _ _), ih (fun x hx => h x (List.mem_cons_of_mem _ hx))]

theorem recAuto_null (cb : CerealClass → Dict → Except CerealErr Value) (ct : ClassTable) :
    (h : Hint) → recursiveAutoDeserialize cb ct .null h = .ok .null
  | .scalar => rfl
  | .entityRef _ => rfl
  | .optionalOf h => recAuto_null cb ct h
  | .listOf _ => rfl
  | .oneOf _ => rfl
  | .enumOf _ _ => rfl

theorem recAuto_optionalOf (cb : CerealClass → Dict → Except CerealErr Value)
    (ct : ClassTable) (v : Value) (h : Hint) :
    recursiveAutoDeserialize cb ct v (.optionalOf h) = recursiveAutoDeserialize cb ct v h := by
  cases v <;> rfl

theorem recAuto_reconB (cb : CerealClass → Dict → Except CerealErr Value) (ct : ClassTable) :
    (h : Hint) → (v : Value) → reconB h v = true →
      recursiveAutoDeserialize cb ct v h = .ok v
  | .scalar, v, hr => by
    cases v <;> simp [reconB] at hr <;> rfl
  | .entityRef c, v, hr => by
    cases v <;> simp [reconB] at hr
    rfl
  | .optionalOf h, v, hr => by
    rw [reconB, Bool.or_eq_true] at hr
    rcases hr with hr | hr
    · rw [(isNull_eq_true_iff v).mp hr]
      exact recAuto_null cb ct (.optionalOf h)
    · rw [recAuto_optionalOf]
      exact recAuto_reconB cb ct h v hr
  | .listOf h, v, hr => by
    cases v with
    | vlist vs =>
      simp only [reconB] at hr
      rw [List.all_eq_true] at hr
      show (match vs.mapM (fun v => recursiveAutoDeserialize cb ct v h) with
            | Except.ok ws => Except.ok (Value.vlist ws)
            | Except.error e => Except.error e) = Except.ok (Value.vlist vs)
      rw [mapM_except_ok_id _ vs (fun x hx => recAuto_reconB cb ct h x (hr x hx))]
    | null => exact absurd hr (by simp [reconB])
    | bool b => exact absurd hr (by simp [reconB])
    | int n => exact absurd hr (by simp [reconB])
    | str ss => exact absurd hr (by simp [reconB])
    | dict d => exact absurd hr (by simp [reconB])
    | entity n d => exact absurd hr (by simp [reconB])
    | enumMember e mm => exact absurd hr (by simp [reconB])
  | .oneOf cs, v, hr => by
    cases v <;> simp [reconB] at hr
    rfl
  | .enumOf ename ms, v, hr => by
    cases v <;> simp [reconB] at hr
    rfl

theorem applyHints_nil (cb : CerealClass → Dict → Except CerealErr Value)
    (ct : ClassTable) (hs : List (String × Hint)) :
    applyHints cb ct hs [] = .ok [] := rfl

theorem applyHints_cons (cb : CerealClass → Dict → Except CerealErr Value)
    (ct : ClassTable) (hs : List (String × Hint)) (k : String) (v : Value) (rest : Dict) :
    applyHints cb ct hs ((k, v) :: rest) =
      match (match lookupHint hs k with
             | some h => recursiveAutoDeserialize cb ct v h
             | none => .ok v) with
      | .ok w =>
        (match applyHints cb ct hs rest with
         | .ok rest' => .ok ((k, w) :: rest')
         | .error e => .error e)
      | .error e => .error e := rfl

theorem applyHints_keysOf (cb : CerealClass → Dict → Except CerealErr Value)
    (ct : ClassTable) (hs : List (String × Hint)) :
    ∀ (D D' : Dict), applyHints cb ct hs D = .ok D' → keysOf D' = keysOf D := by
  intro D
  induction D with
  | nil =>
    intro D' h
    rw [applyHints_nil] at h
    injection h with h
    rw [← h]
  | cons p rest ih =>
    intro D' h
    obtain ⟨k, v⟩ := p
    rw [applyHints_cons] at h
    cases hstep : (match lookupHint hs k with
                   | some hh => recursiveAutoDeserialize cb ct v hh
                   | none => .ok v) with
    | error e => rw [hstep] at h; exact Except.noConfusion h
    | ok w =>
      rw [hstep] at h
      cases hrest : applyHints cb ct hs rest with
      | error e => rw [hrest] at h; exact Except.noConfusion h
      | ok rest' =>
        rw [hrest] at h
        injection h with h
        rw [← h, keysOf_cons, keysOf_cons, ih rest' hrest]

theorem applyHints_lookupA (cb : CerealClass → Dict → Except CerealErr Value)
    (ct : ClassTable) (hs : List (String × Hint)) :
    ∀ (D D' : Dict), applyHints cb ct hs D = .ok D' →
      ∀ (k : String) (v : Value), lookupA D k = some v →
        ∃ w, lookupA D' k = some w ∧
          (match lookupHint hs k with
           | some h => recursiveAutoDeserialize cb ct v h = .ok w
           | none => w = v) := by
  intro D
  induction D with
  | nil => intro D' _ k v hl; exact absurd hl (by simp [lookupA])
  | cons p rest ih =>
    intro D' h k v hl
    obtain ⟨k1, v1⟩ := p
    rw [applyHints_cons] at h
    cases hstep : (match lookupHint hs k1 with
                   | some hh => recursiveAutoDeserialize cb ct v1 hh
                   | none => .ok v1) with
    | error e => rw [hstep] at h; exact Except.noConfusion h
    | ok w1 =>
      rw [hstep] at h
      cases hrest : applyHints cb ct hs rest with
      | error e => rw [hrest] at h; exact Except.noConfusion h
      | ok rest' =>
        rw [hrest] at h
        injection h with h
        subst h
        by_cases hk : k1 = k
        · subst hk
          rw [lookupA_cons_self] at hl
          injection hl with hl
          subst hl
          refine ⟨w1, lookupA_cons_self _ _ _, ?_⟩
          cases hh : lookupHint hs k1 with
          | some hhint => rw [hh] at hstep; exact hstep
          | none =>
            rw [hh] at hstep
            injection hstep with e
            exact e.symm
        · rw [lookupA_cons_ne _ _ _ _ hk] at hl
          obtain ⟨w, hw, hws⟩ := ih rest' hrest k v hl
          exact ⟨w, by rw [lookupA_cons_ne _ _ _ _ hk]; exact hw, hws⟩

theorem applyHints_mem (cb : CerealClass → Dict → Except CerealErr Value)
    (ct : ClassTable) (hs : List (String × Hint)) :
    ∀ (D D' : Dict), applyHints cb ct hs D = .ok D' →
      ∀ (k : String) (w : Value), (k, w) ∈ D' →
        ∃ v, (k, v) ∈ D ∧
          (match lookupHint hs k with
           | some h => recursiveAutoDeserialize cb ct v h = .ok w
           | none => w = v) := by
  intro D
  induction D with
  | nil =>
    intro D' h k w hw
    rw [applyHints_nil] at h
    injection h with h
    subst h
    simp at hw
  | cons p rest ih =>
    intro D' h k w hw
    obtain ⟨k1, v1⟩ := p
    rw [applyHints_cons] at h
    cases hstep : (match lookupHint hs k1 with
                   | some hh => recursiveAutoDeserialize cb ct v1 hh
                   | none => .ok v1) with
    | error e => rw [hstep] at h; exact Except.noConfusion h
    | ok w1 =>
      rw [hstep] at h
      cases hrest : applyHints cb ct hs rest with
      | error e => rw [hrest] at h; exact Except.noConfusion h
      | ok rest' =>
        rw [hrest] at h
        injection h with h
        subst h
        rcases List.mem_cons.mp hw with h1 | h1
        · injection h1 with e1 e2
          subst e1; subst e2
          refine ⟨v1, List.mem_cons_self _ _, ?_⟩
          cases hh : lookupHint hs k with
          | some hhint => rw [hh] at hstep; exact hstep
          | none =>
            rw [hh] at hstep
            injection hstep with e
            exact e.symm
        · obtain ⟨v, hv, hvs⟩ := ih rest' hrest k w h1
          exact ⟨v, List.mem_cons_of_mem _ hv, hvs⟩

theorem applyHints_ok_of_forall (cb : CerealClass → Dict → Except CerealErr Value)
    (ct : ClassTable) (hs : List (String × Hint)) :
    ∀ (D : Dict),
      (∀ p ∈ D, ∃ w,
        (match lookupHint hs p.1 with
         | some h => recursiveAutoDeserialize cb ct p.2 h = .ok w
         | none => w = p.2)) →
      ∃ D', applyHints cb ct hs D = .ok D' := by
  intro D
  induction D with
  | nil => intro _; exact ⟨[], rfl⟩
  | cons p rest ih =>
    intro hall
    obtain ⟨k, v⟩ := p
    obtain ⟨w, hw0⟩ := hall (k, v) (List.mem_cons_self _ _)
    have hw : (match lookupHint hs k with
               | some h => recursiveAutoDeserialize cb ct v h = .ok w
               | none => w = v) := hw0
    obtain ⟨rest', hrest⟩ := ih (fun q hq => hall q (List.mem_cons_of_mem _ hq))
    refine ⟨(k, w) :: rest', ?_⟩
    rw [applyHints_cons]
    cases hh : lookupHint hs k with
    | some hhint =>
      rw [hh] at hw
      have hw2 : recursiveAutoDeserialize cb ct v hhint = .ok w := hw
      change (match recursiveAutoDeserialize cb ct v hhint with
              | Except.ok w' =>
                (match applyHints cb ct hs rest with
                 | Except.ok r => Except.ok ((k, w') :: r)
                 | Except.error e => Except.error e)
              | Except.error e => Except.error e) = Except.ok ((k, w) :: rest')
      rw [hw2, hrest]
    | none =>
      rw [hh] at hw
      have hw2 : w = v := hw
      subst hw2
      change (match applyHints cb ct hs rest with
              | Except.ok r => Except.ok ((k, w) :: r)
              | Except.error e => Except.error e) = Except.ok ((k, w) :: rest')
      rw [hrest]



/-! ### Wellformedness of constructed values -/

theorem constructE_zero (ct : ClassTable) (cls : CerealClass) (m : Dict) :
    constructE 0 ct cls m = .error .fuelExhausted := rfl

theorem constructE_succ (fuel : Nat) (ct : ClassTable) (cls : CerealClass) (m : Dict) :
    constructE (fuel + 1) ct cls m =
      match applyHints (fun cls' d => constructE fuel ct cls' d) ct cls.hints (preDict cls m) with
      | .ok d => .ok (.entity cls.cname d)
      | .error e => .error e := rfl

theorem constructE_succ_ok (fuel : Nat) (ct : ClassTable) (cls : CerealClass) (m : Dict)
    (e : Value) (h : constructE (fuel + 1) ct cls m = .ok e) :
    ∃ D, e = .entity cls.cname D ∧
      applyHints (fun cls' d => constructE fuel ct cls' d) ct cls.hints (preDict cls m) = .ok D := by
  rw [constructE_succ] at h
  cases hD : applyHints (fun cls' d => constructE fuel ct cls' d) ct cls.hints (preDict cls m) with
  | ok D =>
    rw [hD] at h
    injection h with h
    exact ⟨D, h.symm, rfl⟩
  | error er =>
    rw [hD] at h
    exact Except.noConfusion h

theorem lookupClass_mem (ct : ClassTable) (n : String) (cls : CerealClass)
    (h : lookupClass ct n = some cls) : cls ∈ ct := by
  induction ct with
  | nil => exact Option.noConfusion h
  | cons c rest ih =>
    by_cases hc : c.cname = n
    · simp only [lookupClass, if_pos hc, Option.some.injEq] at h
      rw [← h]
      exact List.mem_cons_self _ _
    · simp only [lookupClass, if_neg hc] at h
      exact List.mem_cons_of_mem _ (ih h)

theorem lookupClass_cname (ct : ClassTable) (n : String) (cls : CerealClass)
    (h : lookupClass ct n = some cls) : cls.cname = n := by
  induction ct with
  | nil => exact Option.noConfusion h
  | cons c rest ih =>
    by_cases hc : c.cname = n
    · simp only [lookupClass, if_pos hc, Option.some.injEq] at h
      rw [← h]
      exact hc
    · simp only [lookupClass, if_neg hc] at h
      exact ih h

theorem findCandidate_mem (ct : ClassTable) (cs : List String) (tag : Value)
    (cls : CerealClass) (h : findCandidate ct cs tag = some cls) : cls ∈ ct := by
  induction cs with
  | nil => exact Option.noConfusion h
  | cons c rest ih =>
    cases tag with
    | str t =>
      by_cases hc : t = c
      · simp only [findCandidate, if_pos hc] at h
        cases hl : lookupClass ct c with
        | some cls2 =>
          rw [hl] at h
          injection h with h
          rw [← h]
          exact lookupClass_mem ct c cls2 hl
        | none =>
          rw [hl] at h
          exact ih h
      · simp only [findCandidate, if_neg hc] at h
        exact ih h
    | null => exact Option.noConfusion h
    | bool b => exact Option.noConfusion h
    | int n => exact Option.noConfusion h
    | vlist vs => exact Option.noConfusion h
    | dict d => exact Option.noConfusion h
    | entity n d => exact Option.noConfusion h
    | enumMember e mm => exact Option.noConfusion h

theorem wfTable_mem (ct : ClassTable) (cls : CerealClass)
    (hT : wfTableB ct = true) (h : cls ∈ ct) :
    wfClassB cls = true ∧ nullDefaultsB cls = true := by
  rw [wfTableB, List.all_eq_true] at hT
  have := hT cls h
  rw [Bool.and_eq_true] at this
  exact this

theorem decodedEntriesB_iff (d : Dict) :
    decodedEntriesB d = true ↔ ∀ p ∈ d, decodedB p.2 = true := by
  induction d with
  | nil => simp [decodedEntriesB]
  | cons p rest ih =>
    obtain ⟨k, v⟩ := p
    rw [decodedEntriesB, Bool.and_eq_true, ih]
    constructor
    · rintro ⟨h1, h2⟩ q hq
      rcases List.mem_cons.mp hq with h | h
      · rw [h]; exact h1
      · exact h2 q h
    · intro h
      exact ⟨h (k, v) (List.mem_cons_self _ _), fun q hq => h q (List.mem_cons_of_mem _ hq)⟩

theorem wellEntriesB_iff (d : Dict) :
    wellEntriesB d = true ↔ ∀ p ∈ d, wellB p.2 = true := by
  induction d with
  | nil => simp [wellEntriesB]
  | cons p rest ih =>
    obtain ⟨k, v⟩ := p
    rw [wellEntriesB, Bool.and_eq_true, ih]
    constructor
    · rintro ⟨h1, h2⟩ q hq
      rcases List.mem_cons.mp hq with h | h
      · rw [h]; exact h1
      · exact h2 q h
    · intro h
      exact ⟨h (k, v) (List.mem_cons_self _ _), fun q hq => h q (List.mem_cons_of_mem _ hq)⟩

mutual

theorem wellB_of_decodedB : (v : Value) → decodedB v = true → wellB v = true
  | .null, _ => rfl
  | .bool _, _ => rfl
  | .int _, _ => rfl
  | .str _, _ => rfl
  | .vlist vs, h => by
    rw [decodedB] at h
    rw [wellB]
    exact wellListB_of_decodedListB vs h
  | .dict d, h => by
    rw [decodedB, Bool.and_eq_true] at h
    rw [wellB, Bool.and_eq_true]
    exact ⟨h.1, wellEntriesB_of_decodedEntriesB d h.2⟩
  | .entity _ _, h => by rw [decodedB] at h; exact Bool.noConfusion h
  | .enumMember _ _, h => by rw [decodedB] at h; exact Bool.noConfusion h

theorem wellListB_of_decodedListB : (vs : List Value) → decodedListB vs = true → wellListB vs = true
  | [], _ => rfl
  | v :: vs, h => by
    rw [decodedListB, Bool.and_eq_true] at h
    rw [wellListB, Bool.and_eq_true]
    exact ⟨wellB_of_decodedB v h.1, wellListB_of_decodedListB vs h.2⟩

theorem wellEntriesB_of_decodedEntriesB : (d : Dict) → decodedEntriesB d = true → wellEntriesB d = true
  | [], _ => rfl
  | (k, v) :: rest, h => by
    rw [decodedEntriesB, Bool.and_eq_true] at h
    rw [wellEntriesB, Bool.and_eq_true]
    exact ⟨wellB_of_decodedB v h.1, wellEntriesB_of_decodedEntriesB rest h.2⟩

end

theorem decodedListB_map_str (l : List String) : decodedListB (l.map .str) = true := by
  induction l with
  | nil => rfl
  | cons s rest ih => rw [List.map_cons, decodedListB, Bool.and_eq_true]; exact ⟨rfl, ih⟩

theorem decodedB_mkMeta (mi ex : List String) (ty : String) :
    decodedB (mkMeta mi ex ty) = true := by
  rw [mkMeta, decodedB, Bool.and_eq_true]
  constructor
  · show nodupKeysB [missingKey, extraKey, typeKey] = true
    decide
  · rw [decodedEntriesB_iff]
    rintro ⟨k, v⟩ hp
    rcases List.mem_cons.mp hp with h | h
    · injection h with e1 e2; subst e2; exact decodedListB_map_str mi
    · rcases List.mem_cons.mp h with h2 | h2
      · injection h2 with e1 e2; subst e2; exact decodedListB_map_str ex
      · rcases List.mem_cons.mp h2 with h3 | h3
        · injection h3 with e1 e2; subst e2; rfl
        · simp at h3

theorem decodedDict_lookup (m : Dict) (k : String) (v : Value)
    (hm : decodedDictB m = true) (h : lookupA m k = some v) : decodedB v = true := by
  rw [decodedDictB, decodedB, Bool.and_eq_true] at hm
  exact (decodedEntriesB_iff m).mp hm.2 (k, v) (mem_pair_of_lookupA m k v h)

theorem preDict_values_decoded (cls : CerealClass) (m : Dict) (k : String) (v : Value)
    (hw : wfClassB cls = true) (hnd : nullDefaultsB cls = true) (hm : decodedDictB m = true)
    (h : lookupA (preDict cls m) k = some v) : decodedB v = true := by
  have hmk : (keysOf m).Nodup := by
    rw [decodedDictB, decodedB, Bool.and_eq_true, nodupKeysB_iff] at hm
    exact hm.1
  by_cases hk : k = metaKey
  · subst hk
    rw [lookupA_preDict_meta cls m hmk] at h
    injection h with h
    rw [← h]
    exact decodedB_mkMeta _ _ _
  · by_cases hd : k ∈ declaredNames cls
    · rw [lookupA_preDict_declared cls m k hw hnd hmk hd] at h
      injection h with h
      rw [← h]
      cases hlm : lookupA m k with
      | none => rfl
      | some u => exact decodedDict_lookup m k u hm hlm
    · rw [lookupA_preDict_undeclared cls m k hw hmk hd hk] at h
      exact decodedDict_lookup m k v hm h

theorem lookupA_mkMeta_type (mi ex : List String) (ty : String) :
    lookupA (dictOf (mkMeta mi ex ty)) typeKey = some (.str ty) := by
  simp [mkMeta, dictOf, lookupA, missingKey, extraKey, typeKey]

theorem tryDes_well (cb : CerealClass → Dict → Except CerealErr Value) (ct : ClassTable)
    (hcb : ∀ cls d w, cls ∈ ct → decodedDictB d = true → cb cls d = .ok w → wellB w = true)
    (cs : List String) (d : Dict) (w : Value) (hd : decodedB (.dict d) = true)
    (hok : tryDeserializeCerealType cb ct d cs = .ok w) : wellB w = true := by
  rw [tryDeserializeCerealType] at hok
  cases hmeta : lookupA d metaKey with
  | none =>
    rw [hmeta] at hok
    injection hok with hok
    rw [← hok]
    exact wellB_of_decodedB _ hd
  | some mv =>
    rw [hmeta] at hok
    cases mv with
    | dict md =>
      have hok2 : (match lookupA md typeKey with
                   | none => Except.ok (Value.dict d)
                   | some Value.null => Except.ok (Value.dict d)
                   | some tag =>
                     match findCandidate ct cs tag with
                     | some cls => cb cls d
                     | none => Except.error CerealErr.typeMismatch) = Except.ok w := hok
      cases htag : lookupA md typeKey with
      | none =>
        rw [htag] at hok2
        injection hok2 with hok2
        rw [← hok2]
        exact wellB_of_decodedB _ hd
      | some tag =>
        rw [htag] at hok2
        cases tag with
        | null =>
          injection hok2 with hok2
          rw [← hok2]
          exact wellB_of_decodedB _ hd
        | bool b =>
          have hok3 : (match findCandidate ct cs (Value.bool b) with
                       | some cls => cb cls d
                       | none => Except.error CerealErr.typeMismatch) = Except.ok w := hok2
          cases hfc : findCandidate ct cs (Value.bool b) with
          | some cls =>
            rw [hfc] at hok3
            exact hcb cls d w (findCandidate_mem ct cs _ cls hfc) hd hok3
          | none =>
            rw [hfc] at hok3
            exact Except.noConfusion hok3
        | int n =>
          have hok3 : (match findCandidate ct cs (Value.int n) with
                       | some cls => cb cls d
                       | none => Except.error CerealErr.typeMismatch) = Except.ok w := hok2
          cases hfc : findCandidate ct cs (Value.int n) with
          | some cls =>
            rw [hfc] at hok3
            exact hcb cls d w (findCandidate_mem ct cs _ cls hfc) hd hok3
          | none =>
            rw [hfc] at hok3
            exact Except.noConfusion hok3
        | str t =>
          have hok3 : (match findCandidate ct cs (Value.str t) with
                       | some cls => cb cls d
                       | none => Except.error CerealErr.typeMismatch) = Except.ok w := hok2
          cases hfc : findCandidate ct cs (Value.str t) with
          | some cls =>
            rw [hfc] at hok3
            exact hcb cls d w (findCandidate_mem ct cs _ cls hfc) hd hok3
          | none =>
            rw [hfc] at hok3
            exact Except.noConfusion hok3
        | vlist vs =>
          have hok3 : (match findCandidate ct cs (Value.vlist vs) with
                       | some cls => cb cls d
                       | none => Except.error CerealErr.typeMismatch) = Except.ok w := hok2
          cases hfc : findCandidate ct cs (Value.vlist vs) with
          | some cls =>
            rw [hfc] at hok3
            exact hcb cls d w (findCandidate_mem ct cs _ cls hfc) hd hok3
          | none =>
            rw [hfc] at hok3
            exact Except.noConfusion hok3
        | dict dd =>
          have hok3 : (match findCandidate ct cs (Value.dict dd) with
                       | some cls => cb cls d
                       | none => Except.error CerealErr.typeMismatch) = Except.ok w := hok2
          cases hfc : findCandidate ct cs (Value.dict dd) with
          | some cls =>
            rw [hfc] at hok3
            exact hcb cls d w (findCandidate_mem ct cs _ cls hfc) hd hok3
          | none =>
            rw [hfc] at hok3
            exact Except.noConfusion hok3
        | entity en dd =>
          have hok3 : (match findCandidate ct cs (Value.entity en dd) with
                       | some cls => cb cls d
                       | none => Except.error CerealErr.typeMismatch) = Except.ok w := hok2
          cases hfc : findCandidate ct cs (Value.entity en dd) with
          | some cls =>
            rw [hfc] at hok3
            exact hcb cls d w (findCandidate_mem ct cs _ cls hfc) hd hok3
          | none =>
            rw [hfc] at hok3
            exact Except.noConfusion hok3
        | enumMember en mm =>
          have hok3 : (match findCandidate ct cs (Value.enumMember en mm) with
                       | some cls => cb cls d
                       | none => Except.error CerealErr.typeMismatch) = Except.ok w := hok2
          cases hfc : findCandidate ct cs (Value.enumMember en mm) with
          | some cls =>
            rw [hfc] at hok3
            exact hcb cls d w (findCandidate_mem ct cs _ cls hfc) hd hok3
          | none =>
            rw [hfc] at hok3
            exact Except.noConfusion hok3
    | null => exact Except.noConfusion hok
    | bool b => exact Except.noConfusion hok
    | int n => exact Except.noConfusion hok
    | str t => exact Except.noConfusion hok
    | vlist vs => exact Except.noConfusion hok
    | entity en dd => exact Except.noConfusion hok
    | enumMember en mm => exact Except.noConfusion hok


mutual

theorem recAuto_well (cb : CerealClass → Dict → Except CerealErr Value) (ct : ClassTable)
    (hcb : ∀ cls d w, cls ∈ ct → decodedDictB d = true → cb cls d = .ok w → wellB w = true) :
    (h : Hint) → (v w : Value) → decodedB v = true →
      recursiveAutoDeserialize cb ct v h = .ok w → wellB w = true
  | .optionalOf h, v, w, hd, hok => by
    rw [recAuto_optionalOf] at hok
    exact recAuto_well cb ct hcb h v w hd hok
  | .scalar, .null, w, hd, hok => by
    injection hok with e
    subst e
    exact wellB_of_decodedB _ hd
  | .scalar, .bool b, w, hd, hok => by
    injection hok with e
    subst e
    exact wellB_of_decodedB _ hd
  | .scalar, .int n, w, hd, hok => by
    injection hok with e
    subst e
    exact wellB_of_decodedB _ hd
  | .scalar, .str s, w, hd, hok => by
    injection hok with e
    subst e
    exact wellB_of_decodedB _ hd
  | .scalar, .vlist vs, w, hd, hok => by
    injection hok with e
    subst e
    exact wellB_of_decodedB _ hd
  | .scalar, .dict d, w, hd, hok => by
    exact tryDes_well cb ct hcb [] d w hd hok
  | .scalar, .entity en dd, w, hd, hok => by
    injection hok with e
    subst e
    exact wellB_of_decodedB _ hd
  | .scalar, .enumMember en mm, w, hd, hok => by
    injection hok with e
    subst e
    exact wellB_of_decodedB _ hd
  | .entityRef c, .null, w, hd, hok => by
    injection hok with e
    subst e
    exact wellB_of_decodedB _ hd
  | .entityRef c, .bool b, w, hd, hok => by
    injection hok with e
    subst e
    exact wellB_of_decodedB _ hd
  | .entityRef c, .int n, w, hd, hok => by
    injection hok with e
    subst e
    exact wellB_of_decodedB _ hd
  | .entityRef c, .str s, w, hd, hok => by
    injection hok with e
    subst e
    exact wellB_of_decodedB _ hd
  | .entityRef c, .vlist vs, w, hd, hok => by
    injection hok with e
    subst e
    exact wellB_of_decodedB _ hd
  | .entityRef c, .dict d, w, hd, hok => by
    exact tryDes_well cb ct hcb [c] d w hd hok
  | .entityRef c, .entity en dd, w, hd, hok => by
    injection hok with e
    subst e
    exact wellB_of_decodedB _ hd
  | .entityRef c, .enumMember en mm, w, hd, hok => by
    injection hok with e
    subst e
    exact wellB_of_decodedB _ hd
  | .listOf hh, .null, w, hd, hok => by
    injection hok with e
    subst e
    exact wellB_of_decodedB _ hd
  | .listOf hh, .bool b, w, hd, hok => by
    injection hok with e
    subst e
    exact wellB_of_decodedB _ hd
  | .listOf hh, .int n, w, hd, hok => by
    injection hok with e
    subst e
    exact wellB_of_decodedB _ hd
  | .listOf hh, .str s, w, hd, hok => by
    injection hok with e
    subst e
    exact wellB_of_decodedB _ hd
  | .listOf hh, .vlist vs, w, hd, hok => by
    rw [decodedB] at hd
    have hok2 : (match vs.mapM (fun v => recursiveAutoDeserialize cb ct v hh) with
                 | Except.ok ws => Except.ok (Value.vlist ws)
                 | Except.error e => Except.error e) = Except.ok w := hok
    cases hrest : vs.mapM (fun v => recursiveAutoDeserialize cb ct v hh) with
    | error e =>
      rw [hrest] at hok2
      exact Except.noConfusion hok2
    | ok ws =>
      rw [hrest] at hok2
      injection hok2 with e
      subst e
      rw [wellB]
      exact recAutoList_well cb ct hcb hh vs ws hd hrest
  | .listOf hh, .dict d, w, hd, hok => by
    exact tryDes_well cb ct hcb [] d w hd hok
  | .listOf hh, .entity en dd, w, hd, hok => by
    injection hok with e
    subst e
    exact wellB_of_decodedB _ hd
  | .listOf hh, .enumMember en mm, w, hd, hok => by
    injection hok with e
    subst e
    exact wellB_of_decodedB _ hd
  | .oneOf cs, .null, w, hd, hok => by
    injection hok with e
    subst e
    exact wellB_of_decodedB _ hd
  | .oneOf cs, .bool b, w, hd, hok => by
    injection hok with e
    subst e
    exact wellB_of_decodedB _ hd
  | .oneOf cs, .int n, w, hd, hok => by
    injection hok with e
    subst e
    exact wellB_of_decodedB _ hd
  | .oneOf cs, .str s, w, hd, hok => by
    injection hok with e
    subst e
    exact wellB_of_decodedB _ hd
  | .oneOf cs, .vlist vs, w, hd, hok => by
    injection hok with e
    subst e
    exact wellB_of_decodedB _ hd
  | .oneOf cs, .dict d, w, hd, hok => by
    exact tryDes_well cb ct hcb cs d w hd hok
  | .oneOf cs, .entity en dd, w, hd, hok => by
    injection hok with e
    subst e
    exact wellB_of_decodedB _ hd
  | .oneOf cs, .enumMember en mm, w, hd, hok => by
    injection hok with e
    subst e
    exact wellB_of_decodedB _ hd
  | .enumOf en2 ms, .null, w, hd, hok => by
    injection hok with e
    subst e
    exact wellB_of_decodedB _ hd
  | .enumOf en2 ms, .bool b, w, hd, hok => by
    injection hok with e
    subst e
    exact wellB_of_decodedB _ hd
  | .enumOf en2 ms, .int n, w, hd, hok => by
    injection hok with e
    subst e
    exact wellB_of_decodedB _ hd
  | .enumOf en2 ms, .str s, w, hd, hok => by
    have hok2 : (if ms.contains s then Except.ok (Value.enumMember en2 s)
                 else Except.error (CerealErr.unknownEnumMember en2 s)) = Except.ok w := hok
    by_cases hc2 : ms.contains s = true
    · rw [if_pos hc2] at hok2
      injection hok2 with e
      subst e
      rfl
    · rw [if_neg hc2] at hok2
      exact Except.noConfusion hok2
  | .enumOf en2 ms, .vlist vs, w, hd, hok => by
    injection hok with e
    subst e
    exact wellB_of_decodedB _ hd
  | .enumOf en2 ms, .dict d, w, hd, hok => by
    exact tryDes_well cb ct hcb [] d w hd hok
  | .enumOf en2 ms, .entity en dd, w, hd, hok => by
    injection hok with e
    subst e
    exact wellB_of_decodedB _ hd
  | .enumOf en2 ms, .enumMember en mm, w, hd, hok => by
    injection hok with e
    subst e
    exact wellB_of_decodedB _ hd
termination_by h v w hd hok => (sizeOf h, sizeOf v)

theorem recAutoList_well (cb : CerealClass → Dict → Except CerealErr Value) (ct : ClassTable)
    (hcb : ∀ cls d w, cls ∈ ct → decodedDictB d = true → cb cls d = .ok w → wellB w = true) :
    (h : Hint) → (vs ws : List Value) → decodedListB vs = true →
      vs.mapM (fun v => recursiveAutoDeserialize cb ct v h) = .ok ws → wellListB ws = true
  | _, [], ws, _, hok => by
    rw [mapM_except_nil] at hok
    injection hok with e
    subst e
    rfl
  | h, v :: vs, ws, hd, hok => by
    rw [decodedListB, Bool.and_eq_true] at hd
    rw [mapM_except_cons] at hok
    cases hv : recursiveAutoDeserialize cb ct v h with
    | error e =>
      rw [hv] at hok
      exact Except.noConfusion hok
    | ok w0 =>
      rw [hv] at hok
      cases hrest : vs.mapM (fun v => recursiveAutoDeserialize cb ct v h) with
      | error e =>
        rw [hrest] at hok
        exact Except.noConfusion hok
      | ok ws0 =>
        rw [hrest] at hok
        injection hok with e
        subst e
        rw [wellListB, Bool.and_eq_true]
        exact ⟨recAuto_well cb ct hcb h v w0 hd.1 hv, recAutoList_well cb ct hcb h vs ws0 hd.2 hrest⟩
termination_by h vs ws hd hok => (sizeOf h, sizeOf vs)

end



theorem constructE_well : ∀ (fuel : Nat) (ct : ClassTable) (cls : CerealClass) (m : Dict)
    (e : Value), wfTableB ct = true → wfClassB cls = true → nullDefaultsB cls = true →
    decodedDictB m = true → constructE fuel ct cls m = .ok e → wellB e = true := by
  intro fuel
  induction fuel with
  | zero =>
    intro ct cls m e _ _ _ _ hok
    rw [constructE_zero] at hok
    exact Except.noConfusion hok
  | succ f ih =>
    intro ct cls m e hT hC hN hm hok
    obtain ⟨D, rfl, hD⟩ := constructE_succ_ok f ct cls m e hok
    have hmk : (keysOf m).Nodup := by
      rw [decodedDictB, decodedB, Bool.and_eq_true, nodupKeysB_iff] at hm
      exact hm.1
    have hcb : ∀ cls' d w, cls' ∈ ct → decodedDictB d = true →
        constructE f ct cls' d = .ok w → wellB w = true := by
      intro cls' d w hmem hd hok2
      obtain ⟨hC', hN'⟩ := wfTable_mem ct cls' hT hmem
      exact ih ct cls' d w hT hC' hN' hd hok2
    rw [wellB, Bool.and_eq_true, Bool.and_eq_true]
    refine ⟨⟨?_, ?_⟩, ?_⟩
    · rw [nodupKeysB_iff, applyHints_keysOf _ _ _ _ _ hD]
      exact nodup_keysOf_preDict cls m hC
    · obtain ⟨w, hw, hwstep⟩ := applyHints_lookupA _ _ _ _ _ hD metaKey _
        (lookupA_preDict_meta cls m hmk)
      rw [wf_meta_not_hinted cls hC] at hwstep
      have hw2 : w = mkMeta (missingComputed (initDict cls m) (ctorKwargs cls m))
          (extraComputed (initDict cls m) (ctorKwargs cls m)) cls.cname := hwstep
      rw [hw, hw2]
      simp [mkMeta, lookupA, missingKey, extraKey, typeKey]
    · rw [wellEntriesB_iff]
      rintro ⟨k, w⟩ hp
      obtain ⟨v, hv, hstep⟩ := applyHints_mem _ _ _ _ _ hD k w hp
      have hvd : decodedB v = true := preDict_values_decoded cls m k v hC hN hm
        (lookupA_of_mem_pair _ _ _ (nodup_keysOf_preDict cls m hC) hv)
      cases hh : lookupHint cls.hints k with
      | some hhint =>
        rw [hh] at hstep
        have hstep2 : recursiveAutoDeserialize (fun cls' d => constructE f ct cls' d) ct v hhint
            = .ok w := hstep
        exact recAuto_well _ ct hcb hhint v w hvd hstep2
      | none =>
        rw [hh] at hstep
        have hstep2 : w = v := hstep
        subst hstep2
        exact wellB_of_decodedB _ hvd



/-! ### Null preservation and tag facts -/

theorem tryDes_isNull (cb : CerealClass → Dict → Except CerealErr Value) (ct : ClassTable)
    (hcb : ∀ cls d w, cb cls d = .ok w → w.isNull = false)
    (cs : List String) (d : Dict) (w : Value)
    (hok : tryDeserializeCerealType cb ct d cs = .ok w) : w.isNull = false := by
  rw [tryDeserializeCerealType] at hok
  cases hmeta : lookupA d metaKey with
  | none =>
    rw [hmeta] at hok
    injection hok with hok
    rw [← hok]
    rfl
  | some mv =>
    rw [hmeta] at hok
    cases mv with
    | dict md =>
      have hok2 : (match lookupA md typeKey with
                   | none => Except.ok (Value.dict d)
                   | some Value.null => Except.ok (Value.dict d)
                   | some tag =>
                     match findCandidate ct cs tag with
                     | some cls => cb cls d
                     | none => Except.error CerealErr.typeMismatch) = Except.ok w := hok
      cases htag : lookupA md typeKey with
      | none =>
        rw [htag] at hok2
        injection hok2 with hok2
        rw [← hok2]
        rfl
      | some tag =>
        rw [htag] at hok2
        cases tag with
        | null =>
          injection hok2 with hok2
          rw [← hok2]
          rfl
        | str t =>
          have hok3 : (match findCandidate ct cs (Value.str t) with
                       | some cls => cb cls d
                       | none => Except.error CerealErr.typeMismatch) = Except.ok w := hok2
          cases hfc : findCandidate ct cs (Value.str t) with
          | some cls =>
            rw [hfc] at hok3
            exact hcb cls d w hok3
          | none =>
            rw [hfc] at hok3
            exact Except.noConfusion hok3
        | bool b =>
          have hok3 : (match findCandidate ct cs (Value.bool b) with
                       | some cls => cb cls d
                       | none => Except.error CerealErr.typeMismatch) = Except.ok w := hok2
          cases hfc : findCandidate ct cs (Value.bool b) with
          | some cls => rw [hfc] at hok3; exact hcb cls d w hok3
          | none => rw [hfc] at hok3; exact Except.noConfusion hok3
        | int n =>
          have hok3 : (match findCandidate ct cs (Value.int n) with
                       | some cls => cb cls d
                       | none => Except.error CerealErr.typeMismatch) = Except.ok w := hok2
          cases hfc : findCandidate ct cs (Value.int n) with
          | some cls => rw [hfc] at hok3; exact hcb cls d w hok3
          | none => rw [hfc] at hok3; exact Except.noConfusion hok3
        | vlist vs =>
          have hok3 : (match findCandidate ct cs (Value.vlist vs) with
                       | some cls => cb cls d
                       | none => Except.error CerealErr.typeMismatch) = Except.ok w := hok2
          cases hfc : findCandidate ct cs (Value.vlist vs) with
          | some cls => rw [hfc] at hok3; exact hcb cls d w hok3
          | none => rw [hfc] at hok3; exact Except.noConfusion hok3
        | dict dd =>
          have hok3 : (match findCandidate ct cs (Value.dict dd) with
                       | some cls => cb cls d
                       | none => Except.error CerealErr.typeMismatch) = Except.ok w := hok2
          cases hfc : findCandidate ct cs (Value.dict dd) with
          | some cls => rw [hfc] at hok3; exact hcb cls d w hok3
          | none => rw [hfc] at hok3; exact Except.noConfusion hok3
        | entity n dd =>
          have hok3 : (match findCandidate ct cs (Value.entity n dd) with
                       | some cls => cb cls d
                       | none => Except.error CerealErr.typeMismatch) = Except.ok w := hok2
          cases hfc : findCandidate ct cs (Value.entity n dd) with
          | some cls => rw [hfc] at hok3; exact hcb cls d w hok3
          | none => rw [hfc] at hok3; exact Except.noConfusion hok3
        | enumMember en mm =>
          have hok3 : (match findCandidate ct cs (Value.enumMember en mm) with
                       | some cls => cb cls d
                       | none => Except.error CerealErr.typeMismatch) = Except.ok w := hok2
          cases hfc : findCandidate ct cs (Value.enumMember en mm) with
          | some cls => rw [hfc] at hok3; exact hcb cls d w hok3
          | none => rw [hfc] at hok3; exact Except.noConfusion hok3
    | null => exact Except.noConfusion hok
    | bool b => exact Except.noConfusion hok
    | int n => exact Except.noConfusion hok
    | str ss => exact Except.noConfusion hok
    | vlist vs => exact Except.noConfusion hok
    | entity n dd => exact Except.noConfusion hok
    | enumMember en mm => exact Except.noConfusion hok

theorem recAuto_isNull (cb : CerealClass → Dict → Except CerealErr Value) (ct : ClassTable)
    (hcb : ∀ cls d w, cb cls d = .ok w → w.isNull = false) :
    (h : Hint) → (v w : Value) →
      recursiveAutoDeserialize cb ct v h = .ok w → w.isNull = v.isNull
  | .optionalOf h, v, w, hok => by
    rw [recAuto_optionalOf] at hok
    exact recAuto_isNull cb ct hcb h v w hok
  | .scalar, .null, w, hok => by
    injection hok with e
    subst e
    rfl
  | .scalar, .bool b, w, hok => by
    injection hok with e
    subst e
    rfl
  | .scalar, .int n, w, hok => by
    injection hok with e
    subst e
    rfl
  | .scalar, .str s, w, hok => by
    injection hok with e
    subst e
    rfl
  | .scalar, .vlist vs, w, hok => by
    injection hok with e
    subst e
    rfl
  | .scalar, .dict d, w, hok => by
    rw [tryDes_isNull cb ct hcb [] d w hok]
    rfl
  | .scalar, .entity en dd, w, hok => by
    injection hok with e
    subst e
    rfl
  | .scalar, .enumMember en mm, w, hok => by
    injection hok with e
    subst e
    rfl
  | .entityRef c, .null, w, hok => by
    injection hok with e
    subst e
    rfl
  | .entityRef c, .bool b, w, hok => by
    injection hok with e
    subst e
    rfl
  | .entityRef c, .int n, w, hok => by
    injection hok with e
    subst e
    rfl
  | .entityRef c, .str s, w, hok => by
    injection hok with e
    subst e
    rfl
  | .entityRef c, .vlist vs, w, hok => by
    injection hok with e
    subst e
    rfl
  | .entityRef c, .dict d, w, hok => by
    rw [tryDes_isNull cb ct hcb [c] d w hok]
    rfl
  | .entityRef c, .entity en dd, w, hok => by
    injection hok with e
    subst e
    rfl
  | .entityRef c, .enumMember en mm, w, hok => by
    injection hok with e
    subst e
    rfl
  | .listOf hh, .null, w, hok => by
    injection hok with e
    subst e
    rfl
  | .listOf hh, .bool b, w, hok => by
    injection hok with e
    subst e
    rfl
  | .listOf hh, .int n, w, hok => by
    injection hok with e
    subst e
    rfl
  | .listOf hh, .str s, w, hok => by
    injection hok with e
    subst e
    rfl
  | .listOf hh, .vlist vs, w, hok => by
    have hok2 : (match vs.mapM (fun v => recursiveAutoDeserialize cb ct v hh) with
                 | Except.ok ws => Except.ok (Value.vlist ws)
                 | Except.error e => Except.error e) = Except.ok w := hok
    cases hrest : vs.mapM (fun v => recursiveAutoDeserialize cb ct v hh) with
    | error e =>
      rw [hrest] at hok2
      exact Except.noConfusion hok2
    | ok ws =>
      rw [hrest] at hok2
      injection hok2 with e
      subst e
      rfl
  | .listOf hh, .dict d, w, hok => by
    rw [tryDes_isNull cb ct hcb [] d w hok]
    rfl
  | .listOf hh, .entity en dd, w, hok => by
    injection hok with e
    subst e
    rfl
  | .listOf hh, .enumMember en mm, w, hok => by
    injection hok with e
    subst e
    rfl
  | .oneOf cs, .null, w, hok => by
    injection hok with e
    subst e
    rfl
  | .oneOf cs, .bool b, w, hok => by
    injection hok with e
    subst e
    rfl
  | .oneOf cs, .int n, w, hok => by
    injection hok with e
    subst e
    rfl
  | .oneOf cs, .str s, w, hok => by
    injection hok with e
    subst e
    rfl
  | .oneOf cs, .vlist vs, w, hok => by
    injection hok with e
    subst e
    rfl
  | .oneOf cs, .dict d, w, hok => by
    rw [tryDes_isNull cb ct hcb cs d w hok]
    rfl
  | .oneOf cs, .entity en dd, w, hok => by
    injection hok with e
    subst e
    rfl
  | .oneOf cs, .enumMember en mm, w, hok => by
    injection hok with e
    subst e
    rfl
  | .enumOf en2 ms, .null, w, hok => by
    injection hok with e
    subst e
    rfl
  | .enumOf en2 ms, .bool b, w, hok => by
    injection hok with e
    subst e
    rfl
  | .enumOf en2 ms, .int n, w, hok => by
    injection hok with e
    subst e
    rfl
  | .enumOf en2 ms, .str s, w, hok => by
    have hok2 : (if ms.contains s then Except.ok (Value.enumMember en2 s)
                 else Except.error (CerealErr.unknownEnumMember en2 s)) = Except.ok w := hok
    by_cases hc2 : ms.contains s = true
    · rw [if_pos hc2] at hok2
      injection hok2 with e
      subst e
      rfl
    · rw [if_neg hc2] at hok2
      exact Except.noConfusion hok2
  | .enumOf en2 ms, .vlist vs, w, hok => by
    injection hok with e
    subst e
    rfl
  | .enumOf en2 ms, .dict d, w, hok => by
    rw [tryDes_isNull cb ct hcb [] d w hok]
    rfl
  | .enumOf en2 ms, .entity en dd, w, hok => by
    injection hok with e
    subst e
    rfl
  | .enumOf en2 ms, .enumMember en mm, w, hok => by
    injection hok with e
    subst e
    rfl

theorem findCandidate_cname (ct : ClassTable) (cs : List String) (t : String)
    (cls : CerealClass) (h : findCandidate ct cs (.str t) = some cls) : cls.cname = t := by
  induction cs with
  | nil => exact Option.noConfusion h
  | cons c rest ih =>
    by_cases hc : t = c
    · simp only [findCandidate, if_pos hc] at h
      cases hl : lookupClass ct c with
      | some cls2 =>
        rw [hl] at h
        injection h with h
        rw [← h]
        rw [lookupClass_cname ct c cls2 hl, hc]
      | none =>
        rw [hl] at h
        exact ih h
    · simp only [findCandidate, if_neg hc] at h
      exact ih h

theorem wellB_entity_elim (n : String) (D : Dict) (h : wellB (.entity n D) = true) :
    (keysOf D).Nodup ∧ wellEntriesB D = true ∧
      ∃ md, lookupA D metaKey = some (.dict md) ∧ lookupA md typeKey = some (.str n) := by
  rw [wellB, Bool.and_eq_true, Bool.and_eq_true] at h
  obtain ⟨⟨h1, h2⟩, h3⟩ := h
  refine ⟨(nodupKeysB_iff _).mp h1, h3, ?_⟩
  cases hmeta : lookupA D metaKey with
  | none => rw [hmeta] at h2; exact Bool.noConfusion h2
  | some mv =>
    rw [hmeta] at h2
    cases mv with
    | dict md =>
      have h2a : (match lookupA md typeKey with
                  | some (Value.str t) => t == n
                  | _ => false) = true := h2
      cases htag : lookupA md typeKey with
      | none => rw [htag] at h2a; exact Bool.noConfusion h2a
      | some tv =>
        rw [htag] at h2a
        cases tv with
        | str t =>
          refine ⟨md, rfl, ?_⟩
          have : t = n := by
            have h2b : (t == n) = true := h2a
            exact eq_of_beq h2b
          rw [htag, this]
        | null => exact Bool.noConfusion h2a
        | bool b => exact Bool.noConfusion h2a
        | int nn => exact Bool.noConfusion h2a
        | vlist vs => exact Bool.noConfusion h2a
        | dict dd => exact Bool.noConfusion h2a
        | entity nn dd => exact Bool.noConfusion h2a
        | enumMember ee mm => exact Bool.noConfusion h2a
    | null => exact Bool.noConfusion h2
    | bool b => exact Bool.noConfusion h2
    | int nn => exact Bool.noConfusion h2
    | str ss => exact Bool.noConfusion h2
    | vlist vs => exact Bool.noConfusion h2
    | entity nn dd => exact Bool.noConfusion h2
    | enumMember ee mm => exact Bool.noConfusion h2

theorem canon_mkMeta (mi ex : List String) (ty : String) :
    canon (mkMeta mi ex ty) = mkMeta mi ex ty :=
  canon_decoded_id _ (decodedB_mkMeta mi ex ty)

theorem mkMeta_isNull (mi ex : List String) (ty : String) :
    (mkMeta mi ex ty).isNull = false := rfl

theorem sortCanon_canon_vlist (l : List Value) :
    sortCanon (canon (.vlist l)) = .vlist (l.map (fun x => sortCanon (canon x))) := by
  rw [canon, sortCanon, sortCanonList_eq_map, canonList_eq_map, List.map_map]
  rfl

theorem map_eq_of_forall2 (f : Value → Value) (l1 l2 : List Value)
    (h : List.Forall₂ (fun a b => f a = f b) l1 l2) : l1.map f = l2.map f := by
  induction h with
  | nil => rfl
  | cons h1 h2 ih => simp [h1, ih]



/-! ### Round trip of the recursive deserializer -/

theorem findCandidate_str_of_some (ct : ClassTable) (cs : List String) (tag : Value)
    (cls : CerealClass) (h : findCandidate ct cs tag = some cls) : ∃ t, tag = .str t := by
  induction cs with
  | nil => exact Option.noConfusion h
  | cons c rest ih =>
    cases tag with
    | str t => exact ⟨t, rfl⟩
    | null => exact Option.noConfusion h
    | bool b => exact Option.noConfusion h
    | int n => exact Option.noConfusion h
    | vlist vs => exact Option.noConfusion h
    | dict dd => exact Option.noConfusion h
    | entity n dd => exact Option.noConfusion h
    | enumMember e m => exact Option.noConfusion h

theorem canonDict_dict (d : Dict) : canonDict (.dict d) = canonEntries d := rfl

theorem canonDict_entity (n : String) (D : Dict) :
    canonDict (.entity n D) = canonEntityEntries D := rfl

theorem tryDes_roundtrip (cb : CerealClass → Dict → Except CerealErr Value) (ct : ClassTable)
    (hcbW : ∀ cls d w, cls ∈ ct → decodedDictB d = true → cb cls d = .ok w → wellB w = true)
    (hcbE : ∀ cls d w, cb cls d = .ok w → ∃ D, w = .entity cls.cname D)
    (hcbR : ∀ cls d w, cls ∈ ct → decodedDictB d = true → cb cls d = .ok w →
      ∃ w2, cb cls (canonDict w) = .ok w2 ∧ sortCanon (canon w2) = sortCanon (canon w))
    (cs : List String) (d : Dict) (w : Value)
    (hd : decodedB (.dict d) = true)
    (hok : tryDeserializeCerealType cb ct d cs = .ok w) :
    ∃ w2, tryDeserializeCerealType cb ct (canonDict w) cs = .ok w2 ∧
      sortCanon (canon w2) = sortCanon (canon w) ∧ canon w = .dict (canonDict w) := by
  have hd2 := hd
  rw [decodedB, Bool.and_eq_true] at hd2
  have hde : canonEntries d = d := canonEntries_decoded_id d hd2.2
  have hok0 := hok
  rw [tryDeserializeCerealType] at hok
  cases hmeta : lookupA d metaKey with
  | none =>
    rw [hmeta] at hok
    injection hok with hok
    subst hok
    refine ⟨.dict d, ?_, rfl, rfl⟩
    rw [canonDict_dict, hde]
    exact hok0
  | some mv =>
    rw [hmeta] at hok
    cases mv with
    | dict md =>
      have hok2 : (match lookupA md typeKey with
                   | none => Except.ok (Value.dict d)
                   | some Value.null => Except.ok (Value.dict d)
                   | some tag =>
                     match findCandidate ct cs tag with
                     | some cls => cb cls d
                     | none => Except.error CerealErr.typeMismatch) = Except.ok w := hok
      cases htag : lookupA md typeKey with
      | none =>
        rw [htag] at hok2
        injection hok2 with hok2
        subst hok2
        refine ⟨.dict d, ?_, rfl, rfl⟩
        rw [canonDict_dict, hde]
        exact hok0
      | some tag =>
        rw [htag] at hok2
        cases tag with
        | null =>
          injection hok2 with hok2
          subst hok2
          refine ⟨.dict d, ?_, rfl, rfl⟩
          rw [canonDict_dict, hde]
          exact hok0
        | str t =>
          have hok3 : (match findCandidate ct cs (Value.str t) with
                       | some cls => cb cls d
                       | none => Except.error CerealErr.typeMismatch) = Except.ok w := hok2
          cases hfc : findCandidate ct cs (Value.str t) with
          | none =>
            rw [hfc] at hok3
            exact Except.noConfusion hok3
          | some cls =>
            rw [hfc] at hok3
            have hok4 : cb cls d = Except.ok w := hok3
            have hmem : cls ∈ ct := findCandidate_mem ct cs _ cls hfc
            have hdd : decodedDictB d = true := hd
            obtain ⟨D, hwD⟩ := hcbE cls d w hok4
            subst hwD
            have hwell : wellB (Value.entity cls.cname D) = true := hcbW cls d _ hmem hdd hok4
            obtain ⟨hnd, hwe, md2, hmd2, htag2⟩ := wellB_entity_elim cls.cname D hwell
            obtain ⟨w2, hw2, heq2⟩ := hcbR cls d _ hmem hdd hok4
            have hcn : cls.cname = t := findCandidate_cname ct cs t cls hfc
            have hlm : lookupA (canonEntityEntries D) metaKey
                = some (Value.dict (canonEntries md2)) := by
              rw [lookupA_canonEntityEntries D metaKey hnd, hmd2]
              rfl
            have hlt : lookupA (canonEntries md2) typeKey = some (Value.str t) := by
              rw [lookupA_canonEntries, htag2, hcn]
              rfl
            refine ⟨w2, ?_, heq2, rfl⟩
            show tryDeserializeCerealType cb ct (canonEntityEntries D) cs = Except.ok w2
            rw [tryDeserializeCerealType, hlm]
            change (match lookupA (canonEntries md2) typeKey with
                    | none => Except.ok (Value.dict (canonEntityEntries D))
                    | some Value.null => Except.ok (Value.dict (canonEntityEntries D))
                    | some tag =>
                      match findCandidate ct cs tag with
                      | some cls2 => cb cls2 (canonEntityEntries D)
                      | none => Except.error CerealErr.typeMismatch) = Except.ok w2
            rw [hlt]
            change (match findCandidate ct cs (Value.str t) with
                    | some cls2 => cb cls2 (canonEntityEntries D)
                    | none => Except.error CerealErr.typeMismatch) = Except.ok w2
            rw [hfc]
            exact hw2
        | bool b =>
          have hok3 : (match findCandidate ct cs (Value.bool b) with
                       | some cls => cb cls d
                       | none => Except.error CerealErr.typeMismatch) = Except.ok w := hok2
          cases hfc : findCandidate ct cs (Value.bool b) with
          | some cls =>
            obtain ⟨t, ht⟩ := findCandidate_str_of_some ct cs _ cls hfc
            exact Value.noConfusion ht
          | none =>
            rw [hfc] at hok3
            exact Except.noConfusion hok3
        | int n =>
          have hok3 : (match findCandidate ct cs (Value.int n) with
                       | some cls => cb cls d
                       | none => Except.error CerealErr.typeMismatch) = Except.ok w := hok2
          cases hfc : findCandidate ct cs (Value.int n) with
          | some cls =>
            obtain ⟨t, ht⟩ := findCandidate_str_of_some ct cs _ cls hfc
            exact Value.noConfusion ht
          | none =>
            rw [hfc] at hok3
            exact Except.noConfusion hok3
        | vlist vs =>
          have hok3 : (match findCandidate ct cs (Value.vlist vs) with
                       | some cls => cb cls d
                       | none => Except.error CerealErr.typeMismatch) = Except.ok w := hok2
          cases hfc : findCandidate ct cs (Value.vlist vs) with
          | some cls =>
            obtain ⟨t, ht⟩ := findCandidate_str_of_some ct cs _ cls hfc
            exact Value.noConfusion ht
          | none =>
            rw [hfc] at hok3
            exact Except.noConfusion hok3
        | dict dd =>
          have hok3 : (match findCandidate ct cs (Value.dict dd) with
                       | some cls => cb cls d
                       | none => Except.error CerealErr.typeMismatch) = Except.ok w := hok2
          cases hfc : findCandidate ct cs (Value.dict dd) with
          | some cls =>
            obtain ⟨t, ht⟩ := findCandidate_str_of_some ct cs _ cls hfc
            exact Value.noConfusion ht
          | none =>
            rw [hfc] at hok3
            exact Except.noConfusion hok3
        | entity en dd =>
          have hok3 : (match findCandidate ct cs (Value.entity en dd) with
                       | some cls => cb cls d
                       | none => Except.error CerealErr.typeMismatch) = Except.ok w := hok2
          cases hfc : findCandidate ct cs (Value.entity en dd) with
          | some cls =>
            obtain ⟨t, ht⟩ := findCandidate_str_of_some ct cs _ cls hfc
            exact Value.noConfusion ht
          | none =>
            rw [hfc] at hok3
            exact Except.noConfusion hok3
        | enumMember en mm =>
          have hok3 : (match findCandidate ct cs (Value.enumMember en mm) with
                       | some cls => cb cls d
                       | none => Except.error CerealErr.typeMismatch) = Except.ok w := hok2
          cases hfc : findCandidate ct cs (Value.enumMember en mm) with
          | some cls =>
            obtain ⟨t, ht⟩ := findCandidate_str_of_some ct cs _ cls hfc
            exact Value.noConfusion ht
          | none =>
            rw [hfc] at hok3
            exact Except.noConfusion hok3
    | null => exact Except.noConfusion hok
    | bool b => exact Except.noConfusion hok
    | int n => exact Except.noConfusion hok
    | str ss => exact Except.noConfusion hok
    | vlist vs => exact Except.noConfusion hok
    | entity n dd => exact Except.noConfusion hok
    | enumMember en mm => exact Except.noConfusion hok

mutual

theorem recAuto_roundtrip (cb : CerealClass → Dict → Except CerealErr Value) (ct : ClassTable)
    (hcbW : ∀ cls d w, cls ∈ ct → decodedDictB d = true → cb cls d = .ok w → wellB w = true)
    (hcbE : ∀ cls d w, cb cls d = .ok w → ∃ D, w = .entity cls.cname D)
    (hcbR : ∀ cls d w, cls ∈ ct → decodedDictB d = true → cb cls d = .ok w →
      ∃ w2, cb cls (canonDict w) = .ok w2 ∧ sortCanon (canon w2) = sortCanon (canon w)) :
    (h : Hint) → (v w : Value) → decodedB v = true →
      recursiveAutoDeserialize cb ct v h = .ok w →
      ∃ w2, recursiveAutoDeserialize cb ct (canon w) h = .ok w2 ∧
        sortCanon (canon w2) = sortCanon (canon w)
  | .optionalOf h, v, w, hd, hok => by
    rw [recAuto_optionalOf] at hok
    obtain ⟨w2, h1, h2⟩ := recAuto_roundtrip cb ct hcbW hcbE hcbR h v w hd hok
    refine ⟨w2, ?_, h2⟩
    rw [recAuto_optionalOf]
    exact h1
  | .scalar, .dict d, w, hd, hok => by
    have hok2 : tryDeserializeCerealType cb ct d [] = Except.ok w := hok
    obtain ⟨w2, h1, h2, h3⟩ := tryDes_roundtrip cb ct hcbW hcbE hcbR [] d w hd hok2
    refine ⟨w2, ?_, h2⟩
    rw [h3]
    exact h1
  | .scalar, .null, w, hd, hok => by
    injection hok with e
    subst e
    exact ⟨_, rfl, rfl⟩
  | .scalar, .bool b, w, hd, hok => by
    injection hok with e
    subst e
    exact ⟨_, rfl, rfl⟩
  | .scalar, .int n, w, hd, hok => by
    injection hok with e
    subst e
    exact ⟨_, rfl, rfl⟩
  | .scalar, .str s, w, hd, hok => by
    injection hok with e
    subst e
    exact ⟨_, rfl, rfl⟩
  | .scalar, .vlist vs, w, hd, hok => by
    injection hok with e
    subst e
    refine ⟨Value.vlist vs, ?_, rfl⟩
    rw [canon_decoded_id _ hd]
    rfl
  | .entityRef c, .dict d, w, hd, hok => by
    have hok2 : tryDeserializeCerealType cb ct d [c] = Except.ok w := hok
    obtain ⟨w2, h1, h2, h3⟩ := tryDes_roundtrip cb ct hcbW hcbE hcbR [c] d w hd hok2
    refine ⟨w2, ?_, h2⟩
    rw [h3]
    exact h1
  | .entityRef c, .null, w, hd, hok => by
    injection hok with e
    subst e
    exact ⟨_, rfl, rfl⟩
  | .entityRef c, .bool b, w, hd, hok => by
    injection hok with e
    subst e
    exact ⟨_, rfl, rfl⟩
  | .entityRef c, .int n, w, hd, hok => by
    injection hok with e
    subst e
    exact ⟨_, rfl, rfl⟩
  | .entityRef c, .str s, w, hd, hok => by
    injection hok with e
    subst e
    exact ⟨_, rfl, rfl⟩
  | .entityRef c, .vlist vs, w, hd, hok => by
    injection hok with e
    subst e
    refine ⟨Value.vlist vs, ?_, rfl⟩
    rw [canon_decoded_id _ hd]
    rfl
  | .listOf hh, .dict d, w, hd, hok => by
    have hok2 : tryDeserializeCerealType cb ct d [] = Except.ok w := hok
    obtain ⟨w2, h1, h2, h3⟩ := tryDes_roundtrip cb ct hcbW hcbE hcbR [] d w hd hok2
    refine ⟨w2, ?_, h2⟩
    rw [h3]
    exact h1
  | .listOf hh, .null, w, hd, hok => by
    injection hok with e
    subst e
    exact ⟨_, rfl, rfl⟩
  | .listOf hh, .bool b, w, hd, hok => by
    injection hok with e
    subst e
    exact ⟨_, rfl, rfl⟩
  | .listOf hh, .int n, w, hd, hok => by
    injection hok with e
    subst e
    exact ⟨_, rfl, rfl⟩
  | .listOf hh, .str s, w, hd, hok => by
    injection hok with e
    subst e
    exact ⟨_, rfl, rfl⟩
  | .listOf hh, .vlist vs, w, hd, hok => by
    have hok2 : (match vs.mapM (fun v => recursiveAutoDeserialize cb ct v hh) with
                 | Except.ok ws => Except.ok (Value.vlist ws)
                 | Except.error e => Except.error e) = Except.ok w := hok
    cases hrest : vs.mapM (fun v => recursiveAutoDeserialize cb ct v hh) with
    | error e =>
      rw [hrest] at hok2
      exact Except.noConfusion hok2
    | ok ws =>
      rw [hrest] at hok2
      injection hok2 with e
      subst e
      obtain ⟨ws2, hm2, hfa⟩ := recAutoList_roundtrip cb ct hcbW hcbE hcbR hh vs ws hd hrest
      refine ⟨Value.vlist ws2, ?_, ?_⟩
      · show (match (canonList ws).mapM (fun v => recursiveAutoDeserialize cb ct v hh) with
              | Except.ok ws3 => Except.ok (Value.vlist ws3)
              | Except.error e => Except.error e) = Except.ok (Value.vlist ws2)
        rw [hm2]
      · rw [sortCanon_canon_vlist, sortCanon_canon_vlist]
        exact congrArg Value.vlist (map_eq_of_forall2 (fun x => sortCanon (canon x)) ws2 ws hfa)
  | .oneOf cs2, .dict d, w, hd, hok => by
    have hok2 : tryDeserializeCerealType cb ct d cs2 = Except.ok w := hok
    obtain ⟨w2, h1, h2, h3⟩ := tryDes_roundtrip cb ct hcbW hcbE hcbR cs2 d w hd hok2
    refine ⟨w2, ?_, h2⟩
    rw [h3]
    exact h1
  | .oneOf cs2, .null, w, hd, hok => by
    injection hok with e
    subst e
    exact ⟨_, rfl, rfl⟩
  | .oneOf cs2, .bool b, w, hd, hok => by
    injection hok with e
    subst e
    exact ⟨_, rfl, rfl⟩
  | .oneOf cs2, .int n, w, hd, hok => by
    injection hok with e
    subst e
    exact ⟨_, rfl, rfl⟩
  | .oneOf cs2, .str s, w, hd, hok => by
    injection hok with e
    subst e
    exact ⟨_, rfl, rfl⟩
  | .oneOf cs2, .vlist vs, w, hd, hok => by
    injection hok with e
    subst e
    refine ⟨Value.vlist vs, ?_, rfl⟩
    rw [canon_decoded_id _ hd]
    rfl
  | .enumOf ename ms, .dict d, w, hd, hok => by
    have hok2 : tryDeserializeCerealType cb ct d [] = Except.ok w := hok
    obtain ⟨w2, h1, h2, h3⟩ := tryDes_roundtrip cb ct hcbW hcbE hcbR [] d w hd hok2
    refine ⟨w2, ?_, h2⟩
    rw [h3]
    exact h1
  | .enumOf ename ms, .null, w, hd, hok => by
    injection hok with e
    subst e
    exact ⟨_, rfl, rfl⟩
  | .enumOf ename ms, .bool b, w, hd, hok => by
    injection hok with e
    subst e
    exact ⟨_, rfl, rfl⟩
  | .enumOf ename ms, .int n, w, hd, hok => by
    injection hok with e
    subst e
    exact ⟨_, rfl, rfl⟩
  | .enumOf ename ms, .vlist vs, w, hd, hok => by
    injection hok with e
    subst e
    refine ⟨Value.vlist vs, ?_, rfl⟩
    rw [canon_decoded_id _ hd]
    rfl
  | .enumOf ename ms, .str s, w, hd, hok => by
    have hok2 : (if ms.contains s then Except.ok (Value.enumMember ename s)
                 else Except.error (CerealErr.unknownEnumMember ename s)) = Except.ok w := hok
    by_cases hc2 : ms.contains s = true
    · rw [if_pos hc2] at hok2
      injection hok2 with e
      subst e
      refine ⟨Value.enumMember ename s, ?_, rfl⟩
      show (if ms.contains s then Except.ok (Value.enumMember ename s)
            else Except.error (CerealErr.unknownEnumMember ename s))
        = Except.ok (Value.enumMember ename s)
      rw [if_pos hc2]
    · rw [if_neg hc2] at hok2
      exact Except.noConfusion hok2
  | _, .entity en dd, w, hd, hok => by
    exact Bool.noConfusion hd
  | _, .enumMember en mm, w, hd, hok => by
    exact Bool.noConfusion hd
termination_by h v w hd hok => (sizeOf h, sizeOf v)

theorem recAutoList_roundtrip (cb : CerealClass → Dict → Except CerealErr Value) (ct : ClassTable)
    (hcbW : ∀ cls d w, cls ∈ ct → decodedDictB d = true → cb cls d = .ok w → wellB w = true)
    (hcbE : ∀ cls d w, cb cls d = .ok w → ∃ D, w = .entity cls.cname D)
    (hcbR : ∀ cls d w, cls ∈ ct → decodedDictB d = true → cb cls d = .ok w →
      ∃ w2, cb cls (canonDict w) = .ok w2 ∧ sortCanon (canon w2) = sortCanon (canon w)) :
    (h : Hint) → (vs ws : List Value) → decodedListB vs = true →
      vs.mapM (fun v => recursiveAutoDeserialize cb ct v h) = .ok ws →
      ∃ ws2, (canonList ws).mapM (fun v => recursiveAutoDeserialize cb ct v h) = .ok ws2 ∧
        List.Forall₂ (fun a b => sortCanon (canon a) = sortCanon (canon b)) ws2 ws
  | _, [], ws, _, hok => by
    rw [mapM_except_nil] at hok
    injection hok with e
    subst e
    exact ⟨[], rfl, List.Forall₂.nil⟩
  | h, v :: vs, ws, hd, hok => by
    rw [decodedListB, Bool.and_eq_true] at hd
    rw [mapM_except_cons] at hok
    cases hv : recursiveAutoDeserialize cb ct v h with
    | error e =>
      rw [hv] at hok
      exact Except.noConfusion hok
    | ok w0 =>
      rw [hv] at hok
      cases hrest : vs.mapM (fun v => recursiveAutoDeserialize cb ct v h) with
      | error e =>
        rw [hrest] at hok
        exact Except.noConfusion hok
      | ok ws0 =>
        rw [hrest] at hok
        injection hok with e
        subst e
        obtain ⟨w02, hw02, he0⟩ := recAuto_roundtrip cb ct hcbW hcbE hcbR h v w0 hd.1 hv
        obtain ⟨ws02, hws02, hfa⟩ := recAutoList_roundtrip cb ct hcbW hcbE hcbR h vs ws0 hd.2 hrest
        refine ⟨w02 :: ws02, ?_, List.Forall₂.cons he0 hfa⟩
        show (canon w0 :: canonList ws0).mapM (fun v => recursiveAutoDeserialize cb ct v h)
          = Except.ok (w02 :: ws02)
        rw [mapM_except_cons, hw02, hws02]
termination_by h vs ws hd hok => (sizeOf h, sizeOf vs)

end



/-! ### Round trip of entity construction -/

theorem constructE_ok_entity (fuel : Nat) (ct : ClassTable) (cls : CerealClass) (m : Dict)
    (w : Value) (h : constructE fuel ct cls m = .ok w) : ∃ D, w = .entity cls.cname D := by
  cases fuel with
  | zero => rw [constructE_zero] at h; exact Except.noConfusion h
  | succ f =>
    obtain ⟨D, hw, _⟩ := constructE_succ_ok f ct cls m w h
    exact ⟨D, hw⟩

theorem constructE_ok_nonnull (fuel : Nat) (ct : ClassTable) (cls : CerealClass) (m : Dict)
    (w : Value) (h : constructE fuel ct cls m = .ok w) : w.isNull = false := by
  obtain ⟨D, hw⟩ := constructE_ok_entity fuel ct cls m w h
  rw [hw]
  rfl

theorem mem_map_fst_filter_iff (m : Dict) (p : String × Value → Bool) (a : String)
    (hm : (keysOf m).Nodup) :
    a ∈ (m.filter p).map Prod.fst ↔ ∃ v, lookupA m a = some v ∧ p (a, v) = true := by
  rw [List.mem_map]
  constructor
  · rintro ⟨⟨k, v⟩, hkv, hfst⟩
    rcases List.mem_filter.mp hkv with ⟨hmem, hp⟩
    have hk : k = a := hfst
    subst hk
    exact ⟨v, lookupA_of_mem_pair _ _ _ hm hmem, hp⟩
  · rintro ⟨v, hl, hp⟩
    exact ⟨(a, v), List.mem_filter.mpr ⟨mem_pair_of_lookupA _ _ _ hl, hp⟩, rfl⟩

theorem constructE_roundtrip : ∀ (fuel : Nat) (ct : ClassTable) (cls : CerealClass) (m : Dict)
    (e : Value), wfTableB ct = true → wfClassB cls = true → nullDefaultsB cls = true →
    decodedDictB m = true → constructE fuel ct cls m = .ok e →
    ∃ e2, constructE fuel ct cls (canonDict e) = .ok e2 ∧
      sortCanon (canon e2) = sortCanon (canon e) := by
  intro fuel
  induction fuel with
  | zero =>
    intro ct cls m e _ _ _ _ hok
    rw [constructE_zero] at hok
    exact Except.noConfusion hok
  | succ f ih =>
    intro ct cls m e hT hC hN hm hok
    obtain ⟨D, rfl, hD⟩ := constructE_succ_ok f ct cls m e hok
    have hmk : (keysOf m).Nodup := by
      rw [decodedDictB, decodedB, Bool.and_eq_true, nodupKeysB_iff] at hm
      exact hm.1
    have hcbW : ∀ cls' d w, cls' ∈ ct → decodedDictB d = true →
        (fun cls' d => constructE f ct cls' d) cls' d = .ok w → wellB w = true := by
      intro cls' d w hmem hd hok2
      obtain ⟨hC', hN'⟩ := wfTable_mem ct cls' hT hmem
      exact constructE_well f ct cls' d w hT hC' hN' hd hok2
    have hcbE : ∀ cls' d w,
        (fun cls' d => constructE f ct cls' d) cls' d = .ok w →
        ∃ D', w = .entity cls'.cname D' := by
      intro cls' d w hok2
      exact constructE_ok_entity f ct cls' d w hok2
    have hcbN : ∀ cls' d w,
        (fun cls' d => constructE f ct cls' d) cls' d = .ok w → w.isNull = false := by
      intro cls' d w hok2
      exact constructE_ok_nonnull f ct cls' d w hok2
    have hcbR : ∀ cls' d w, cls' ∈ ct → decodedDictB d = true →
        (fun cls' d => constructE f ct cls' d) cls' d = .ok w →
        ∃ w2, (fun cls' d => constructE f ct cls' d) cls' (canonDict w) = .ok w2 ∧
          sortCanon (canon w2) = sortCanon (canon w) := by
      intro cls' d w hmem hd hok2
      obtain ⟨hC', hN'⟩ := wfTable_mem ct cls' hT hmem
      exact ih ct cls' d w hT hC' hN' hd hok2
    have hwell : wellB (.entity cls.cname D) = true :=
      constructE_well (f + 1) ct cls m _ hT hC hN hm hok
    obtain ⟨hndD, hweD, _⟩ := wellB_entity_elim cls.cname D hwell
    have keysD : keysOf D = keysOf (preDict cls m) := applyHints_keysOf _ _ _ _ _ hD
    have hck : (keysOf (canonEntityEntries D)).Nodup :=
      nodup_keysOf_canonEntityEntries D hndD
    -- the metadata entry of the constructed record
    obtain ⟨wm, hwmD, hwmstep⟩ := applyHints_lookupA _ _ _ _ _ hD metaKey _
      (lookupA_preDict_meta_spec cls m hC hN hmk)
    rw [wf_meta_not_hinted cls hC] at hwmstep
    have hwm2 : wm = mkMeta (specMissingFields cls m) (specExtraFields cls m) cls.cname :=
      hwmstep
    have hDmeta : lookupA D metaKey =
        some (mkMeta (specMissingFields cls m) (specExtraFields cls m) cls.cname) := by
      rw [← hwm2]
      exact hwmD
    -- presence lists computed over the serialized record equal the original ones
    have hMS : specMissingFields cls (canonEntityEntries D) = specMissingFields cls m := by
      rw [specMissingFields, specMissingFields]
      apply sortStr_eq_of_mem_iff _ _ (List.nodup_dedup _) (List.nodup_dedup _)
      intro a
      rw [List.mem_dedup, List.mem_dedup, List.mem_filter, List.mem_filter]
      have hcond : ∀ a ∈ declaredNames cls,
          (match lookupA (canonEntityEntries D) a with
           | some v => !v.isNull
           | none => false) =
          (match lookupA m a with
           | some v => !v.isNull
           | none => false) := by
        intro a ha
        have hvm : lookupA (preDict cls m) a = some ((lookupA m a).getD .null) :=
          lookupA_preDict_declared cls m a hC hN hmk ha
        obtain ⟨w, hwDa, hstep⟩ := applyHints_lookupA _ _ _ _ _ hD a _ hvm
        have hwn : w.isNull = ((lookupA m a).getD .null).isNull := by
          cases hh : lookupHint cls.hints a with
          | some hhint =>
            rw [hh] at hstep
            have hstep2 : recursiveAutoDeserialize (fun cls' d => constructE f ct cls' d) ct
                ((lookupA m a).getD .null) hhint = .ok w := hstep
            exact recAuto_isNull _ ct hcbN hhint _ w hstep2
          | none =>
            rw [hh] at hstep
            have hstep2 : w = (lookupA m a).getD .null := hstep
            rw [hstep2]
        have hlc : lookupA (canonEntityEntries D) a =
            if w.isNull then none else some (canon w) := by
          rw [lookupA_canonEntityEntries D a hndD, hwDa]
        cases hm0 : lookupA m a with
        | none =>
          have hwn2 : w.isNull = true := by rw [hwn, hm0]; rfl
          rw [hlc, if_pos hwn2]
        | some v0 =>
          cases hv0 : v0.isNull with
          | true =>
            have hwn2 : w.isNull = true := by
              rw [hwn, hm0]
              exact hv0
            rw [hlc, if_pos hwn2]
            show false = !v0.isNull
            rw [hv0]
            rfl
          | false =>
            have hwn2 : w.isNull = false := by
              rw [hwn, hm0]
              exact hv0
            have hwnn : ¬ w.isNull = true := fun hh => by
              rw [hwn2] at hh
              exact Bool.noConfusion hh
            rw [hlc, if_neg hwnn]
            show (!(canon w).isNull) = !v0.isNull
            rw [canon_isNull, hwn2, hv0]
      constructor
      · rintro ⟨ha, hcnd⟩
        refine ⟨ha, ?_⟩
        rw [show ((match lookupA m a with
                   | some v => !v.isNull
                   | none => false) : Bool) =
              (match lookupA (canonEntityEntries D) a with
               | some v => !v.isNull
               | none => false) from (hcond a ha).symm]
        exact hcnd
      · rintro ⟨ha, hcnd⟩
        refine ⟨ha, ?_⟩
        rw [show ((match lookupA (canonEntityEntries D) a with
                   | some v => !v.isNull
                   | none => false) : Bool) =
              (match lookupA m a with
               | some v => !v.isNull
               | none => false) from hcond a ha]
        exact hcnd
    have hXS : specExtraFields cls (canonEntityEntries D) = specExtraFields cls m := by
      rw [specExtraFields, specExtraFields]
      apply sortStr_eq_of_mem_iff _ _ (List.nodup_dedup _) (List.nodup_dedup _)
      intro a
      rw [List.mem_dedup, List.mem_dedup,
        mem_map_fst_filter_iff _ _ a hck, mem_map_fst_filter_iff _ _ a hmk]
      constructor
      · rintro ⟨v, hl, hp⟩
        rw [Bool.and_eq_true, Bool.and_eq_true] at hp
        obtain ⟨⟨hp1, hp2⟩, hp3⟩ := hp
        have hane : a ≠ metaKey := by
          intro hh
          rw [hh] at hp3
          simp at hp3
        have had : a ∉ declaredNames cls := by
          intro hc
          have hp2b : (!(declaredNames cls).contains a) = true := hp2
          have hcc : (declaredNames cls).contains a = true := List.elem_iff.mpr hc
          rw [hcc] at hp2b
          exact Bool.noConfusion hp2b
        rw [lookupA_canonEntityEntries D a hndD] at hl
        cases hwDa : lookupA D a with
        | none =>
          rw [hwDa] at hl
          exact Option.noConfusion hl
        | some w =>
          rw [hwDa] at hl
          have hl2 : (if w.isNull then none else some (canon w)) = some v := hl
          cases hwn : w.isNull with
          | true =>
            rw [if_pos hwn] at hl2
            exact Option.noConfusion hl2
          | false =>
            have hwnn : ¬ w.isNull = true := fun hh => by
              rw [hwn] at hh
              exact Bool.noConfusion hh
            rw [if_neg hwnn] at hl2
            have hkD : a ∈ keysOf (preDict cls m) := by
              rw [← keysD]
              exact mem_keysOf_of_lookupA D a w hwDa
            have hiss := (lookupA_isSome_iff (preDict cls m) a).mpr hkD
            cases hvm : lookupA (preDict cls m) a with
            | none =>
              rw [hvm] at hiss
              exact Bool.noConfusion hiss
            | some v1 =>
              have hv1m : lookupA m a = some v1 := by
                rw [← lookupA_preDict_undeclared cls m a hC hmk had hane]
                exact hvm
              obtain ⟨w', hw'D, hstep⟩ := applyHints_lookupA _ _ _ _ _ hD a v1 hvm
              have hww : w' = w := by
                rw [hwDa] at hw'D
                injection hw'D with hw'D
                exact hw'D.symm
              subst hww
              have hv1n : v1.isNull = false := by
                rw [← hwn]
                cases hh : lookupHint cls.hints a with
                | some hhint =>
                  rw [hh] at hstep
                  have hstep2 : recursiveAutoDeserialize
                      (fun cls' d => constructE f ct cls' d) ct v1 hhint = .ok w' := hstep
                  rw [recAuto_isNull _ ct hcbN hhint v1 w' hstep2]
                | none =>
                  rw [hh] at hstep
                  have hstep2 : w' = v1 := hstep
                  rw [hstep2]
              refine ⟨v1, hv1m, ?_⟩
              rw [Bool.and_eq_true, Bool.and_eq_true]
              exact ⟨⟨by rw [hv1n]; rfl, hp2⟩, hp3⟩
      · rintro ⟨v1, hv1m, hp⟩
        rw [Bool.and_eq_true, Bool.and_eq_true] at hp
        obtain ⟨⟨hp1, hp2⟩, hp3⟩ := hp
        have hane : a ≠ metaKey := by
          intro hh
          rw [hh] at hp3
          simp at hp3
        have had : a ∉ declaredNames cls := by
          intro hc
          have hp2b : (!(declaredNames cls).contains a) = true := hp2
          have hcc : (declaredNames cls).contains a = true := List.elem_iff.mpr hc
          rw [hcc] at hp2b
          exact Bool.noConfusion hp2b
        have hvm : lookupA (preDict cls m) a = some v1 := by
          rw [lookupA_preDict_undeclared cls m a hC hmk had hane]
          exact hv1m
        obtain ⟨w, hwDa, hstep⟩ := applyHints_lookupA _ _ _ _ _ hD a v1 hvm
        have hwn : w.isNull = false := by
          cases hh : lookupHint cls.hints a with
          | some hhint =>
            rw [hh] at hstep
            have hstep2 : recursiveAutoDeserialize
                (fun cls' d => constructE f ct cls' d) ct v1 hhint = .ok w := hstep
            rw [recAuto_isNull _ ct hcbN hhint v1 w hstep2]
            rw [Bool.not_eq_true'] at hp1
            exact hp1
          | none =>
            rw [hh] at hstep
            have hstep2 : w = v1 := hstep
            rw [hstep2]
            rw [Bool.not_eq_true'] at hp1
            exact hp1
        have hwnn : ¬ w.isNull = true := fun hh => by
          rw [hwn] at hh
          exact Bool.noConfusion hh
        refine ⟨canon w, ?_, ?_⟩
        · rw [lookupA_canonEntityEntries D a hndD, hwDa]
          show (if w.isNull then none else some (canon w)) = some (canon w)
          rw [if_neg hwnn]
        · rw [Bool.and_eq_true, Bool.and_eq_true]
          refine ⟨⟨?_, hp2⟩, hp3⟩
          rw [canon_isNull, hwn]
          rfl
    -- existence of the reconstruction
    obtain ⟨D2, hD2⟩ : ∃ D2, applyHints (fun cls' d => constructE f ct cls' d) ct cls.hints
        (preDict cls (canonEntityEntries D)) = .ok D2 := by
      apply applyHints_ok_of_forall
      rintro ⟨k, u⟩ hmemp
      have hku : lookupA (preDict cls (canonEntityEntries D)) k = some u :=
        lookupA_of_mem_pair _ _ _ (nodup_keysOf_preDict cls (canonEntityEntries D) hC) hmemp
      cases hh : lookupHint cls.hints k with
      | none => exact ⟨u, rfl⟩
      | some hhint =>
        by_cases hkm : k = metaKey
        · subst hkm
          rw [wf_meta_not_hinted cls hC] at hh
          exact Option.noConfusion hh
        by_cases hdec : k ∈ declaredNames cls
        · have hvm : lookupA (preDict cls m) k = some ((lookupA m k).getD .null) :=
            lookupA_preDict_declared cls m k hC hN hmk hdec
          obtain ⟨w, hwD, hstep⟩ := applyHints_lookupA _ _ _ _ _ hD k _ hvm
          have hucv : u = (lookupA (canonEntityEntries D) k).getD .null := by
            rw [lookupA_preDict_declared cls (canonEntityEntries D) k hC hN hck hdec] at hku
            injection hku with hku
            exact hku.symm
          have hlc : lookupA (canonEntityEntries D) k =
              if w.isNull then none else some (canon w) := by
            rw [lookupA_canonEntityEntries D k hndD, hwD]
          cases hwn : w.isNull with
          | true =>
            have hu0 : u = .null := by
              rw [hucv, hlc, if_pos hwn]
              rfl
            subst hu0
            refine ⟨.null, ?_⟩
            show recursiveAutoDeserialize (fun cls' d => constructE f ct cls' d) ct
              Value.null hhint = Except.ok Value.null
            exact recAuto_null _ ct hhint
          | false =>
            have hwnn : ¬ w.isNull = true := fun hh2 => by
              rw [hwn] at hh2
              exact Bool.noConfusion hh2
            have hu1 : u = canon w := by
              rw [hucv, hlc, if_neg hwnn]
              rfl
            subst hu1
            have hvd : decodedB ((lookupA m k).getD .null) = true :=
              preDict_values_decoded cls m k _ hC hN hm hvm
            rw [hh] at hstep
            have hstep2 : recursiveAutoDeserialize (fun cls' d => constructE f ct cls' d) ct
                ((lookupA m k).getD .null) hhint = .ok w := hstep
            obtain ⟨w2, hrec, _⟩ :=
              recAuto_roundtrip _ ct hcbW hcbE hcbR hhint _ w hvd hstep2
            refine ⟨w2, ?_⟩
            show recursiveAutoDeserialize (fun cls' d => constructE f ct cls' d) ct
              (canon w) hhint = Except.ok w2
            exact hrec
        · have hlcu : lookupA (canonEntityEntries D) k = some u := by
            rw [← lookupA_preDict_undeclared cls (canonEntityEntries D) k hC hck hdec hkm]
            exact hku
          rw [lookupA_canonEntityEntries D k hndD] at hlcu
          cases hwD : lookupA D k with
          | none =>
            rw [hwD] at hlcu
            exact Option.noConfusion hlcu
          | some w =>
            rw [hwD] at hlcu
            have hlcu2 : (if w.isNull then none else some (canon w)) = some u := hlcu
            cases hwn : w.isNull with
            | true =>
              rw [if_pos hwn] at hlcu2
              exact Option.noConfusion hlcu2
            | false =>
              have hwnn : ¬ w.isNull = true := fun hh2 => by
                rw [hwn] at hh2
                exact Bool.noConfusion hh2
              rw [if_neg hwnn] at hlcu2
              injection hlcu2 with hlcu2
              have hkD : k ∈ keysOf (preDict cls m) := by
                rw [← keysD]
                exact mem_keysOf_of_lookupA D k w hwD
              have hiss := (lookupA_isSome_iff (preDict cls m) k).mpr hkD
              cases hvm : lookupA (preDict cls m) k with
              | none =>
                rw [hvm] at hiss
                exact Bool.noConfusion hiss
              | some v =>
                obtain ⟨w', hw'D, hstep⟩ := applyHints_lookupA _ _ _ _ _ hD k v hvm
                have hww : w' = w := by
                  rw [hwD] at hw'D
                  injection hw'D with hw'D
                  exact hw'D.symm
                subst hww
                have hvd : decodedB v = true :=
                  preDict_values_decoded cls m k v hC hN hm hvm
                rw [hh] at hstep
                have hstep2 : recursiveAutoDeserialize
                    (fun cls' d => constructE f ct cls' d) ct v hhint = .ok w' := hstep
                obtain ⟨w2, hrec, _⟩ :=
                  recAuto_roundtrip _ ct hcbW hcbE hcbR hhint v w' hvd hstep2
                refine ⟨w2, ?_⟩
                show recursiveAutoDeserialize (fun cls' d => constructE f ct cls' d) ct u hhint
                  = Except.ok w2
                rw [← hlcu2]
                exact hrec
    -- reconstruction facts
    have hkeys2 : keysOf D2 = keysOf (preDict cls (canonEntityEntries D)) :=
      applyHints_keysOf _ _ _ _ _ hD2
    have hndD2 : (keysOf D2).Nodup := by
      rw [hkeys2]
      exact nodup_keysOf_preDict cls (canonEntityEntries D) hC
    obtain ⟨wm2, hwm2D, hwm2step⟩ := applyHints_lookupA _ _ _ _ _ hD2 metaKey _
      (lookupA_preDict_meta_spec cls (canonEntityEntries D) hC hN hck)
    rw [wf_meta_not_hinted cls hC] at hwm2step
    have hwm2eq : wm2 = mkMeta (specMissingFields cls (canonEntityEntries D))
        (specExtraFields cls (canonEntityEntries D)) cls.cname := hwm2step
    rw [hMS, hXS] at hwm2eq
    have hD2meta : lookupA D2 metaKey =
        some (mkMeta (specMissingFields cls m) (specExtraFields cls m) cls.cname) := by
      rw [← hwm2eq]
      exact hwm2D
    refine ⟨.entity cls.cname D2, ?_, ?_⟩
    · show constructE (f + 1) ct cls (canonEntityEntries D) = .ok (.entity cls.cname D2)
      rw [constructE_succ, hD2]
    · show sortCanon (.dict (canonEntityEntries D2)) = sortCanon (.dict (canonEntityEntries D))
      apply sortCanon_dict_ext _ _ (nodup_keysOf_canonEntityEntries D2 hndD2)
        (nodup_keysOf_canonEntityEntries D hndD)
      intro k
      by_cases hkm : k = metaKey
      · subst hkm
        have hL2 : lookupA (canonEntityEntries D2) metaKey =
            some (canon (mkMeta (specMissingFields cls m) (specExtraFields cls m)
              cls.cname)) := by
          rw [lookupA_canonEntityEntries D2 metaKey hndD2, hD2meta]
          rfl
        have hL1 : lookupA (canonEntityEntries D) metaKey =
            some (canon (mkMeta (specMissingFields cls m) (specExtraFields cls m)
              cls.cname)) := by
          rw [lookupA_canonEntityEntries D metaKey hndD, hDmeta]
          rfl
        rw [hL2, hL1]
      · cases hvpm : lookupA (preDict cls m) k with
        | none =>
          have hDk : lookupA D k = none := by
            apply lookupA_eq_none_of_not_mem
            rw [keysD]
            intro hc
            have hiss := (lookupA_isSome_iff _ _).mpr hc
            rw [hvpm] at hiss
            exact Bool.noConfusion hiss
          have hD2k : lookupA D2 k = none := by
            apply lookupA_eq_none_of_not_mem
            rw [hkeys2]
            intro hc
            rcases (mem_keysOf_preDict cls (canonEntityEntries D) k hC hck).mp hc
              with h1 | h1 | h1
            · have h2 : k ∈ keysOf (preDict cls m) :=
                (mem_keysOf_preDict cls m k hC hmk).mpr (Or.inl h1)
              have hiss := (lookupA_isSome_iff _ _).mpr h2
              rw [hvpm] at hiss
              exact Bool.noConfusion hiss
            · exact hkm h1
            · have hkD : k ∈ keysOf D := (keysOf_canonEntityEntries_sublist D).subset h1
              rw [keysD] at hkD
              have hiss := (lookupA_isSome_iff _ _).mpr hkD
              rw [hvpm] at hiss
              exact Bool.noConfusion hiss
          rw [lookupA_canonEntityEntries D2 k hndD2, hD2k,
            lookupA_canonEntityEntries D k hndD, hDk]
        | some v =>
          obtain ⟨w, hwD, hstep⟩ := applyHints_lookupA _ _ _ _ _ hD k v hvpm
          have hLD : lookupA (canonEntityEntries D) k =
              if w.isNull then none else some (canon w) := by
            rw [lookupA_canonEntityEntries D k hndD, hwD]
          cases hwn : w.isNull with
          | true =>
            have hLDn : lookupA (canonEntityEntries D) k = none := by
              rw [hLD, if_pos hwn]
            by_cases hdec : k ∈ declaredNames cls
            · have hup : lookupA (preDict cls (canonEntityEntries D)) k =
                  some ((lookupA (canonEntityEntries D) k).getD .null) :=
                lookupA_preDict_declared cls (canonEntityEntries D) k hC hN hck hdec
              rw [hLDn] at hup
              have hu : lookupA (preDict cls (canonEntityEntries D)) k = some .null := hup
              obtain ⟨w2, hw2D2, hstep2⟩ := applyHints_lookupA _ _ _ _ _ hD2 k _ hu
              have hw2null : w2.isNull = true := by
                cases hh : lookupHint cls.hints k with
                | some hhint =>
                  rw [hh] at hstep2
                  have hstep3 : recursiveAutoDeserialize
                      (fun cls' d => constructE f ct cls' d) ct Value.null hhint
                      = .ok w2 := hstep2
                  rw [recAuto_isNull _ ct hcbN hhint _ w2 hstep3]
                  rfl
                | none =>
                  rw [hh] at hstep2
                  have hstep3 : w2 = Value.null := hstep2
                  rw [hstep3]
                  rfl
              have hLD2n : lookupA (canonEntityEntries D2) k = none := by
                rw [lookupA_canonEntityEntries D2 k hndD2, hw2D2]
                show (if w2.isNull then none else some (canon w2)) = none
                rw [if_pos hw2null]
              rw [hLD2n, hLDn]
            · have hD2k : lookupA D2 k = none := by
                apply lookupA_eq_none_of_not_mem
                rw [hkeys2]
                intro hc
                rcases (mem_keysOf_preDict cls (canonEntityEntries D) k hC hck).mp hc
                  with h1 | h1 | h1
                · exact hdec h1
                · exact hkm h1
                · have hiss := (lookupA_isSome_iff _ _).mpr h1
                  rw [hLDn] at hiss
                  exact Bool.noConfusion hiss
              rw [lookupA_canonEntityEntries D2 k hndD2, hD2k, hLDn]
          | false =>
            have hwnn : ¬ w.isNull = true := fun hh2 => by
              rw [hwn] at hh2
              exact Bool.noConfusion hh2
            have hLDs : lookupA (canonEntityEntries D) k = some (canon w) := by
              rw [hLD, if_neg hwnn]
            have hu : lookupA (preDict cls (canonEntityEntries D)) k = some (canon w) := by
              by_cases hdec : k ∈ declaredNames cls
              · rw [lookupA_preDict_declared cls (canonEntityEntries D) k hC hN hck hdec,
                  hLDs]
                rfl
              · rw [lookupA_preDict_undeclared cls (canonEntityEntries D) k hC hck hdec hkm]
                exact hLDs
            obtain ⟨w2, hw2D2, hstep2⟩ := applyHints_lookupA _ _ _ _ _ hD2 k _ hu
            have hvd : decodedB v = true :=
              preDict_values_decoded cls m k v hC hN hm hvpm
            have hwellw : wellB w = true :=
              (wellEntriesB_iff D).mp hweD (k, w) (mem_pair_of_lookupA D k w hwD)
            cases hh : lookupHint cls.hints k with
            | none =>
              rw [hh] at hstep
              have hstepv : w = v := hstep
              rw [hh] at hstep2
              have hstep2v : w2 = canon w := hstep2
              have hw2n : ¬ w2.isNull = true := fun hh2 => by
                rw [hstep2v, canon_isNull, hwn] at hh2
                exact Bool.noConfusion hh2
              have hLD2s : lookupA (canonEntityEntries D2) k = some (canon w2) := by
                rw [lookupA_canonEntityEntries D2 k hndD2, hw2D2]
                show (if w2.isNull then none else some (canon w2)) = some (canon w2)
                rw [if_neg hw2n]
              rw [hLD2s, hLDs]
              show some (sortCanon (canon w2)) = some (sortCanon (canon w))
              rw [hstep2v, canon_idem_of_well w hwellw]
            | some hhint =>
              rw [hh] at hstep
              have hstepc : recursiveAutoDeserialize
                  (fun cls' d => constructE f ct cls' d) ct v hhint = .ok w := hstep
              rw [hh] at hstep2
              have hstep2c : recursiveAutoDeserialize
                  (fun cls' d => constructE f ct cls' d) ct (canon w) hhint
                  = .ok w2 := hstep2
              obtain ⟨w2', hrec, heqq⟩ :=
                recAuto_roundtrip _ ct hcbW hcbE hcbR hhint v w hvd hstepc
              have hw22 : w2 = w2' := by
                rw [hstep2c] at hrec
                injection hrec with hrec
              have hw2n : ¬ w2.isNull = true := fun hh2 => by
                rw [recAuto_isNull _ ct hcbN hhint _ w2 hstep2c, canon_isNull, hwn] at hh2
                exact Bool.noConfusion hh2
              have hLD2s : lookupA (canonEntityEntries D2) k = some (canon w2) := by
                rw [lookupA_canonEntityEntries D2 k hndD2, hw2D2]
                show (if w2.isNull then none else some (canon w2)) = some (canon w2)
                rw [if_neg hw2n]
              rw [hLD2s, hLDs]
              show some (sortCanon (canon w2)) = some (sortCanon (canon w))
              rw [hw22]
              exact congrArg some heqq



/-! ### Presence lists and metadata of constructed entities -/

theorem constructE_dict_meta (fuel : Nat) (ct : ClassTable) (cls : CerealClass) (m : Dict)
    (e : Value) (hC : wfClassB cls = true) (hN : nullDefaultsB cls = true)
    (hmk : (keysOf m).Nodup) (hok : constructE fuel ct cls m = .ok e) :
    lookupA (dictOf e) metaKey =
      some (mkMeta (specMissingFields cls m) (specExtraFields cls m) cls.cname) := by
  cases fuel with
  | zero => rw [constructE_zero] at hok; exact Except.noConfusion hok
  | succ f =>
    obtain ⟨D, rfl, hD⟩ := constructE_succ_ok f ct cls m e hok
    obtain ⟨wm, hwmD, hwmstep⟩ := applyHints_lookupA _ _ _ _ _ hD metaKey _
      (lookupA_preDict_meta_spec cls m hC hN hmk)
    rw [wf_meta_not_hinted cls hC] at hwmstep
    have hwm2 : wm = mkMeta (specMissingFields cls m) (specExtraFields cls m) cls.cname :=
      hwmstep
    show lookupA D metaKey = _
    rw [← hwm2]
    exact hwmD

theorem missingOf_constructE (fuel : Nat) (ct : ClassTable) (cls : CerealClass) (m : Dict)
    (e : Value) (hC : wfClassB cls = true) (hN : nullDefaultsB cls = true)
    (hmk : (keysOf m).Nodup) (hok : constructE fuel ct cls m = .ok e) :
    missingOf e = specMissingFields cls m :=
  getMissing_of_lookup _ _ _ _ (constructE_dict_meta fuel ct cls m e hC hN hmk hok)

theorem extraOf_constructE (fuel : Nat) (ct : ClassTable) (cls : CerealClass) (m : Dict)
    (e : Value) (hC : wfClassB cls = true) (hN : nullDefaultsB cls = true)
    (hmk : (keysOf m).Nodup) (hok : constructE fuel ct cls m = .ok e) :
    extraOf e = specExtraFields cls m :=
  getExtra_of_lookup _ _ _ _ (constructE_dict_meta fuel ct cls m e hC hN hmk hok)

theorem nodup_keysOf_constructE (fuel : Nat) (ct : ClassTable) (cls : CerealClass) (m : Dict)
    (e : Value) (hC : wfClassB cls = true) (hok : constructE fuel ct cls m = .ok e) :
    (keysOf (dictOf e)).Nodup := by
  cases fuel with
  | zero => rw [constructE_zero] at hok; exact Except.noConfusion hok
  | succ f =>
    obtain ⟨D, rfl, hD⟩ := constructE_succ_ok f ct cls m e hok
    show (keysOf D).Nodup
    rw [applyHints_keysOf _ _ _ _ _ hD]
    exact nodup_keysOf_preDict cls m hC

theorem metaKey_not_mem_specMissingFields (cls : CerealClass) (m : Dict)
    (hC : wfClassB cls = true) : metaKey ∉ specMissingFields cls m := by
  intro h
  rw [specMissingFields, mem_sortStr, List.mem_dedup, List.mem_filter] at h
  exact wf_meta_not_declared cls hC h.1

theorem metaKey_not_mem_specExtraFields (cls : CerealClass) (m : Dict) :
    metaKey ∉ specExtraFields cls m := by
  intro h
  rw [specExtraFields, mem_sortStr, List.mem_dedup, List.mem_map] at h
  obtain ⟨⟨k, v⟩, hkv, hfst⟩ := h
  have hk : k = metaKey := hfst
  subst hk
  rcases List.mem_filter.mp hkv with ⟨_, hp⟩
  rw [Bool.and_eq_true, Bool.and_eq_true] at hp
  have hp2b : (!(metaKey == metaKey)) = true := hp.2
  exact absurd hp2b (by decide)

theorem nodup_specMissingFields (cls : CerealClass) (m : Dict) :
    (specMissingFields cls m).Nodup :=
  nodup_sortStr _ (List.nodup_dedup _)

theorem nodup_specExtraFields (cls : CerealClass) (m : Dict) :
    (specExtraFields cls m).Nodup :=
  nodup_sortStr _ (List.nodup_dedup _)

theorem mem_specExtraFields_of (cls : CerealClass) (m : Dict) (g : String) (v : Value)
    (hmk : (keysOf m).Nodup) (hl : lookupA m g = some v) (hv : v.isNull = false)
    (hd : g ∉ declaredNames cls) (hgm : g ≠ metaKey) : g ∈ specExtraFields cls m := by
  rw [specExtraFields, mem_sortStr, List.mem_dedup, mem_map_fst_filter_iff _ _ _ hmk]
  refine ⟨v, hl, ?_⟩
  rw [Bool.and_eq_true, Bool.and_eq_true]
  refine ⟨⟨by rw [hv]; rfl, ?_⟩, ?_⟩
  · cases hcc : (declaredNames cls).contains g with
    | false => rfl
    | true => exact absurd (List.elem_iff.mp hcc) hd
  · have hb : (g == metaKey) = false := by
      cases hgb : (g == metaKey) with
      | false => rfl
      | true => exact absurd (eq_of_beq hgb) hgm
    rw [hb]
    rfl

/-! ### `__setattr__` and the bulk update against the presence lists -/

theorem setattrDict_eq_of_meta (D : Dict) (k : String) (v : Value)
    (hmeta : (keysOf D).contains metaKey = true) :
    setattrDict D k v =
      updateA (setMeta D (removeFirst (getMissing D) k) (removeFirst (getExtra D) k)
        (getTypeName D)) k v := by
  show updateA (if (keysOf D).contains metaKey = true then
      setMeta D (removeFirst (getMissing D) k) (removeFirst (getExtra D) k) (getTypeName D)
    else D) k v = _
  rw [if_pos hmeta]

theorem lookup_meta_setattrDict (D : Dict) (k : String) (v : Value)
    (mi ex : List String) (ty : String)
    (h : lookupA D metaKey = some (mkMeta mi ex ty)) (hk : k ≠ metaKey) :
    lookupA (setattrDict D k v) metaKey =
      some (mkMeta (removeFirst mi k) (removeFirst ex k) ty) := by
  have hc : (keysOf D).contains metaKey = true :=
    List.elem_iff.mpr (mem_keysOf_of_lookupA D metaKey _ h)
  rw [setattrDict_eq_of_meta D k v hc, lookupA_updateA, if_neg hk, setMeta,
    lookupA_updateA, if_pos rfl, getMissing_of_lookup D mi ex ty h,
    getExtra_of_lookup D mi ex ty h, getTypeName_of_lookup D mi ex ty h]

theorem presence_setattrE (n : String) (D : Dict) (k : String) (v : Value)
    (mi ex : List String) (ty : String)
    (h : lookupA D metaKey = some (mkMeta mi ex ty)) (hk : k ≠ metaKey) :
    missingOf (setattrE (.entity n D) k v) = removeFirst mi k ∧
    extraOf (setattrE (.entity n D) k v) = removeFirst ex k :=
  ⟨getMissing_of_lookup _ _ _ _ (lookup_meta_setattrDict D k v mi ex ty h hk),
   getExtra_of_lookup _ _ _ _ (lookup_meta_setattrDict D k v mi ex ty h hk)⟩

theorem lookupA_updateFold_not_mem (D kw : Dict) (k : String) (h : k ∉ keysOf kw) :
    lookupA (updateFold D kw) k = lookupA D k := by
  induction kw generalizing D with
  | nil => rfl
  | cons p rest ih =>
    obtain ⟨k1, v1⟩ := p
    rw [keysOf_cons] at h
    have h1 : ¬ k1 = k := fun hh => h (by rw [hh]; exact List.mem_cons_self _ _)
    have h2 : k ∉ keysOf rest := fun hh => h (List.mem_cons_of_mem _ hh)
    rw [updateFold_cons, ih _ h2, lookupA_updateA, if_neg h1]

/-! ### Candidate selection facts -/

theorem findCandidate_of_mem (ct : ClassTable) (cs : List String) (t : String)
    (cls : CerealClass) (h1 : t ∈ cs) (h2 : lookupClass ct t = some cls) :
    findCandidate ct cs (.str t) = some cls := by
  induction cs with
  | nil => exact absurd h1 (List.not_mem_nil t)
  | cons c rest ih =>
    by_cases hc : t = c
    · subst hc
      show (if t = t then
              match lookupClass ct t with
              | some cls2 => some cls2
              | none => findCandidate ct rest (Value.str t)
            else findCandidate ct rest (Value.str t)) = some cls
      rw [if_pos rfl, h2]
    · show (if t = c then
              match lookupClass ct c with
              | some cls2 => some cls2
              | none => findCandidate ct rest (Value.str t)
            else findCandidate ct rest (Value.str t)) = some cls
      rw [if_neg hc]
      rcases List.mem_cons.mp h1 with h | h
      · exact absurd h hc
      · exact ih h

theorem findCandidate_not_mem (ct : ClassTable) (cs : List String) (t : String)
    (h1 : t ∉ cs) : findCandidate ct cs (.str t) = none := by
  induction cs with
  | nil => rfl
  | cons c rest ih =>
    have hc : ¬ t = c := fun hh => h1 (by rw [hh]; exact List.mem_cons_self _ _)
    simp only [findCandidate, if_neg hc]
    exact ih (fun hh => h1 (List.mem_cons_of_mem _ hh))

/-! ### The canonical serialized metadata block -/

theorem sortCanonList_map_str (l : List String) :
    sortCanonList (l.map .str) = l.map .str := by
  induction l with
  | nil => rfl
  | cons a l ih =>
    rw [List.map_cons]
    show Value.str a :: sortCanonList (l.map .str) = _
    rw [ih]

theorem sortCanon_mkMeta (mi ex : List String) (ty : String) :
    sortCanon (mkMeta mi ex ty) =
      .dict [(typeKey, .str ty), (extraKey, .vlist (ex.map .str)),
             (missingKey, .vlist (mi.map .str))] := by
  show Value.dict (sortEntries
    [(missingKey, Value.vlist (sortCanonList (mi.map .str))),
     (extraKey, Value.vlist (sortCanonList (ex.map .str))),
     (typeKey, Value.str ty)]) = _
  rw [sortCanonList_map_str mi, sortCanonList_map_str ex]
  rfl

theorem mapStr_inj : (l1 l2 : List String) → l1.map Value.str = l2.map Value.str → l1 = l2
  | [], [], _ => rfl
  | [], _ :: _, h => by
    rw [List.map_nil, List.map_cons] at h
    exact List.noConfusion h
  | _ :: _, [], h => by
    rw [List.map_nil, List.map_cons] at h
    exact List.noConfusion h
  | a :: l1, b :: l2, h => by
    rw [List.map_cons, List.map_cons] at h
    injection h with h1 h2
    injection h1 with h1
    rw [h1, mapStr_inj l1 l2 h2]



/-! ## The claims -/

/-- C1: corrected round trip.  For an entity freshly constructed by
`constructE` from a decoded input mapping (wellformed class table, null
defaults), reconstructing an entity of the same class from the canonical
serialized mapping yields an entity that `ceq` reports equal.  The
specification's unconditional version over all well-typed entity graphs fails
for graphs mutated after construction (see the counterexample): a
post-construction assignment adds a field that reappears as an extra field
after the round trip, so the serialized metadata blocks differ. -/
theorem claim_C1_round_trip (fuel : Nat) (ct : ClassTable) (cls : CerealClass) (m : Dict)
    (e : Value) (hT : wfTableB ct = true) (hC : wfClassB cls = true)
    (hN : nullDefaultsB cls = true) (hm : decodedDictB m = true)
    (hok : constructE fuel ct cls m = .ok e) :
    ∃ e2, constructE fuel ct cls (canonDict e) = .ok e2 ∧ ceq e2 e = .ok true := by
  obtain ⟨e2, h1, h2⟩ := constructE_roundtrip fuel ct cls m e hT hC hN hm hok
  obtain ⟨D, rfl⟩ := constructE_ok_entity fuel ct cls m e hok
  refine ⟨e2, h1, ?_⟩
  show Except.ok (Value.beq (sortCanon (canon e2))
    (sortCanon (canon (Value.entity cls.cname D)))) = Except.ok true
  rw [h2, Value.beq_refl]

/-- C1 witness: the round trip at a concrete one-field entity. -/
theorem claim_C1_round_trip_witness :
    ∃ e2, constructE 1 [clsInner] clsInner
        (canonDict (.entity "Inner" [("value", .int 3), (metaKey, mkMeta [] [] "Inner")]))
        = .ok e2 ∧
      ceq e2 (.entity "Inner" [("value", .int 3), (metaKey, mkMeta [] [] "Inner")])
        = .ok true :=
  claim_C1_round_trip 1 [clsInner] clsInner [("value", .int 3)]
    (.entity "Inner" [("value", .int 3), (metaKey, mkMeta [] [] "Inner")])
    (by decide) (by decide) (by decide) (by decide) rfl

/-- C1 counterexample: a well-typed entity graph obtained by constructing an
entity and then assigning a new attribute in code does not round trip: the
assigned field is serialized, counts as extra on reconstruction, and the
reconstructed entity compares unequal. -/
theorem claim_C1_counterexample :
    constructE 1 [clsInner] clsInner []
      = .ok (.entity "Inner" [("value", .null), (metaKey, mkMeta ["value"] [] "Inner")]) ∧
    setattrE (.entity "Inner" [("value", .null), (metaKey, mkMeta ["value"] [] "Inner")])
        "w" (.int 5)
      = .entity "Inner" [("value", .null), (metaKey, mkMeta ["value"] [] "Inner"),
          ("w", .int 5)] ∧
    wellB (.entity "Inner" [("value", .null), (metaKey, mkMeta ["value"] [] "Inner"),
      ("w", .int 5)]) = true ∧
    constructE 1 [clsInner] clsInner
        (canonDict (.entity "Inner" [("value", .null),
          (metaKey, mkMeta ["value"] [] "Inner"), ("w", .int 5)]))
      = .ok (.entity "Inner" [("value", .null), (metaKey, mkMeta ["value"] ["w"] "Inner"),
          ("w", .int 5)]) ∧
    ceq (.entity "Inner" [("value", .null), (metaKey, mkMeta ["value"] ["w"] "Inner"),
        ("w", .int 5)])
      (.entity "Inner" [("value", .null), (metaKey, mkMeta ["value"] [] "Inner"),
        ("w", .int 5)]) = .ok false :=
  ⟨rfl, rfl, by decide, rfl, rfl⟩

/-- C2: the reserved metadata key is never among the computed missing or extra
names of a constructed entity, the canonical serialized mapping has distinct
keys, and its entry at the reserved key is exactly the canonicalized metadata
block (so the metadata travels only under its reserved key, never as a regular
field, and an input metadata entry is never copied out as one). -/
theorem claim_C2_meta_invariant (fuel : Nat) (ct : ClassTable) (cls : CerealClass)
    (m : Dict) (e : Value) (hC : wfClassB cls = true) (hN : nullDefaultsB cls = true)
    (hmk : (keysOf m).Nodup) (hok : constructE fuel ct cls m = .ok e) :
    metaKey ∉ missingOf e ∧ metaKey ∉ extraOf e ∧
    (keysOf (canonDict e)).Nodup ∧
    lookupA (canonDict e) metaKey =
      some (canon (mkMeta (missingOf e) (extraOf e) cls.cname)) := by
  obtain ⟨D, rfl⟩ := constructE_ok_entity fuel ct cls m e hok
  have hmeta : lookupA D metaKey =
      some (mkMeta (specMissingFields cls m) (specExtraFields cls m) cls.cname) :=
    constructE_dict_meta fuel ct cls m _ hC hN hmk hok
  have hndD : (keysOf D).Nodup := nodup_keysOf_constructE fuel ct cls m _ hC hok
  have hmiss : missingOf (Value.entity cls.cname D) = specMissingFields cls m :=
    getMissing_of_lookup _ _ _ _ hmeta
  have hext : extraOf (Value.entity cls.cname D) = specExtraFields cls m :=
    getExtra_of_lookup _ _ _ _ hmeta
  refine ⟨?_, ?_, ?_, ?_⟩
  · rw [hmiss]
    exact metaKey_not_mem_specMissingFields cls m hC
  · rw [hext]
    exact metaKey_not_mem_specExtraFields cls m
  · show (keysOf (canonEntityEntries D)).Nodup
    exact nodup_keysOf_canonEntityEntries D hndD
  · show lookupA (canonEntityEntries D) metaKey = _
    rw [lookupA_canonEntityEntries D metaKey hndD, hmeta, hmiss, hext]
    rfl

/-- C2 witness: the metadata invariant at a concrete constructed entity. -/
theorem claim_C2_meta_invariant_witness :
    metaKey ∉ missingOf (.entity "Inner"
      [("value", .int 3), (metaKey, mkMeta [] [] "Inner")]) ∧
    metaKey ∉ extraOf (.entity "Inner"
      [("value", .int 3), (metaKey, mkMeta [] [] "Inner")]) ∧
    (keysOf (canonDict (.entity "Inner"
      [("value", .int 3), (metaKey, mkMeta [] [] "Inner")]))).Nodup ∧
    lookupA (canonDict (.entity "Inner"
        [("value", .int 3), (metaKey, mkMeta [] [] "Inner")])) metaKey
      = some (canon (mkMeta
          (missingOf (.entity "Inner" [("value", .int 3), (metaKey, mkMeta [] [] "Inner")]))
          (extraOf (.entity "Inner" [("value", .int 3), (metaKey, mkMeta [] [] "Inner")]))
          "Inner")) :=
  claim_C2_meta_invariant 1 [clsInner] clsInner [("value", .int 3)]
    (.entity "Inner" [("value", .int 3), (metaKey, mkMeta [] [] "Inner")])
    (by decide) (by decide) (by decide) rfl

/-- C3: corrected assignment semantics.  An attribute assignment that goes
through `__setattr__` removes the key from both presence lists; but the
constructor's step-5 bulk copy is `self.__dict__.update(kwargs)`, a raw
dictionary update that bypasses `__setattr__` and leaves the metadata (both
presence lists) untouched.  The claim's assertion that the bulk copy removes
each copied key from the lists is refuted by the counterexample. -/
theorem claim_C3_assignments (D kwargs : Dict) (k : String) (v : Value)
    (mi ex : List String) (ty : String)
    (h : lookupA D metaKey = some (mkMeta mi ex ty)) (hk : k ≠ metaKey)
    (hkw : metaKey ∉ keysOf kwargs) :
    getMissing (setattrDict D k v) = removeFirst mi k ∧
    getExtra (setattrDict D k v) = removeFirst ex k ∧
    getMissing (updateFold D kwargs) = mi ∧
    getExtra (updateFold D kwargs) = ex := by
  have hl : lookupA (updateFold D kwargs) metaKey = some (mkMeta mi ex ty) := by
    rw [lookupA_updateFold_not_mem D kwargs metaKey hkw]
    exact h
  exact ⟨getMissing_of_lookup _ _ _ _ (lookup_meta_setattrDict D k v mi ex ty h hk),
         getExtra_of_lookup _ _ _ _ (lookup_meta_setattrDict D k v mi ex ty h hk),
         getMissing_of_lookup _ _ _ _ hl,
         getExtra_of_lookup _ _ _ _ hl⟩

/-- C3 witness: `__setattr__` removes the assigned key from both lists, the
bulk update leaves them unchanged, at concrete state. -/
theorem claim_C3_assignments_witness :
    getMissing (setattrDict [(metaKey, mkMeta ["a"] ["b"] "T"), ("a", .null)] "a" (.int 1))
      = removeFirst ["a"] "a" ∧
    getExtra (setattrDict [(metaKey, mkMeta ["a"] ["b"] "T"), ("a", .null)] "a" (.int 1))
      = removeFirst ["b"] "a" ∧
    getMissing (updateFold [(metaKey, mkMeta ["a"] ["b"] "T"), ("a", .null)]
      [("z", .int 2)]) = ["a"] ∧
    getExtra (updateFold [(metaKey, mkMeta ["a"] ["b"] "T"), ("a", .null)]
      [("z", .int 2)]) = ["b"] :=
  claim_C3_assignments [(metaKey, mkMeta ["a"] ["b"] "T"), ("a", .null)] [("z", .int 2)]
    "a" (.int 1) ["a"] ["b"] "T" rfl (by decide) (by decide)

/-- C3 counterexample: an undeclared input key written onto the entity by the
step-5 bulk copy is present as an attribute, yet still listed in
`extra_properties` — the bulk copy did not remove it from the extra list as
the claim asserts. -/
theorem claim_C3_counterexample :
    constructE 1 [clsA] clsA [("g", .int 1)]
      = .ok (.entity "A" [(metaKey, mkMeta [] ["g"] "A"), ("g", .int 1)]) ∧
    lookupA [(metaKey, mkMeta [] ["g"] "A"), ("g", .int 1)] "g" = some (.int 1) ∧
    extraOf (.entity "A" [(metaKey, mkMeta [] ["g"] "A"), ("g", .int 1)]) = ["g"] :=
  ⟨rfl, rfl, rfl⟩

/-- C4: an undeclared input key with a non-null value is in `extra_properties`
right after construction; a later in-code assignment to that attribute
(through `__setattr__`) removes it from `extra_properties`. -/
theorem claim_C4_extra_lifecycle (fuel : Nat) (ct : ClassTable) (cls : CerealClass)
    (m : Dict) (e : Value) (g : String) (v w : Value)
    (hC : wfClassB cls = true) (hN : nullDefaultsB cls = true)
    (hmk : (keysOf m).Nodup) (hok : constructE fuel ct cls m = .ok e)
    (hd : g ∉ declaredNames cls) (hgm : g ≠ metaKey)
    (hl : lookupA m g = some v) (hv : v.isNull = false) :
    g ∈ extraOf e ∧ g ∉ extraOf (setattrE e g w) := by
  obtain ⟨D, rfl⟩ := constructE_ok_entity fuel ct cls m e hok
  have hmeta : lookupA D metaKey =
      some (mkMeta (specMissingFields cls m) (specExtraFields cls m) cls.cname) :=
    constructE_dict_meta fuel ct cls m _ hC hN hmk hok
  have hext : extraOf (Value.entity cls.cname D) = specExtraFields cls m :=
    getExtra_of_lookup _ _ _ _ hmeta
  constructor
  · rw [hext]
    exact mem_specExtraFields_of cls m g v hmk hl hv hd hgm
  · obtain ⟨_, hex⟩ := presence_setattrE cls.cname D g w _ _ _ hmeta hgm
    rw [hex]
    exact not_mem_removeFirst _ _ (nodup_specExtraFields cls m)

/-- C4 witness: the extra-field lifecycle at a concrete entity. -/
theorem claim_C4_extra_lifecycle_witness :
    "gx" ∈ extraOf (.entity "A" [(metaKey, mkMeta [] ["gx"] "A"), ("gx", .int 7)]) ∧
    "gx" ∉ extraOf (setattrE
      (.entity "A" [(metaKey, mkMeta [] ["gx"] "A"), ("gx", .int 7)]) "gx" (.str "later")) :=
  claim_C4_extra_lifecycle 1 [clsA] clsA [("gx", .int 7)]
    (.entity "A" [(metaKey, mkMeta [] ["gx"] "A"), ("gx", .int 7)])
    "gx" (.int 7) (.str "later")
    (by decide) (by decide) (by decide) rfl (by decide) (by decide) rfl rfl

/-- C5: corrected missing-field semantics.  Right after construction,
`missing_properties` is exactly the sorted set of declared fields whose input
value was null or absent; but any later assignment through `__setattr__`
removes the key from the missing list regardless of the assigned value — in
particular an assignment of null removes it, refuting the claim's "remains
missing while only assigned null" (see the counterexample). -/
theorem claim_C5_missing_semantics (fuel : Nat) (ct : ClassTable) (cls : CerealClass)
    (m : Dict) (e : Value) (k : String) (v : Value)
    (hC : wfClassB cls = true) (hN : nullDefaultsB cls = true)
    (hmk : (keysOf m).Nodup) (hok : constructE fuel ct cls m = .ok e)
    (hk : k ≠ metaKey) :
    missingOf e = specMissingFields cls m ∧ k ∉ missingOf (setattrE e k v) := by
  obtain ⟨D, rfl⟩ := constructE_ok_entity fuel ct cls m e hok
  have hmeta : lookupA D metaKey =
      some (mkMeta (specMissingFields cls m) (specExtraFields cls m) cls.cname) :=
    constructE_dict_meta fuel ct cls m _ hC hN hmk hok
  refine ⟨getMissing_of_lookup _ _ _ _ hmeta, ?_⟩
  obtain ⟨hms, _⟩ := presence_setattrE cls.cname D k v _ _ _ hmeta hk
  rw [hms]
  exact not_mem_removeFirst _ _ (nodup_specMissingFields cls m)

/-- C5 witness: the corrected missing-field semantics at a concrete entity. -/
theorem claim_C5_missing_semantics_witness :
    missingOf (.entity "Inner" [("value", .null), (metaKey, mkMeta ["value"] [] "Inner")])
      = specMissingFields clsInner [] ∧
    "value" ∉ missingOf (setattrE
      (.entity "Inner" [("value", .null), (metaKey, mkMeta ["value"] [] "Inner")])
      "value" (.int 9)) :=
  claim_C5_missing_semantics 1 [clsInner] clsInner []
    (.entity "Inner" [("value", .null), (metaKey, mkMeta ["value"] [] "Inner")])
    "value" (.int 9) (by decide) (by decide) (by decide) rfl (by decide)

/-- C5 counterexample: a field missing at construction that is then assigned
null is no longer reported missing — `__setattr__` removes the key from the
missing list for any assigned value, null included. -/
theorem claim_C5_counterexample :
    constructE 1 [clsInner] clsInner []
      = .ok (.entity "Inner" [("value", .null), (metaKey, mkMeta ["value"] [] "Inner")]) ∧
    missingOf (.entity "Inner" [("value", .null), (metaKey, mkMeta ["value"] [] "Inner")])
      = ["value"] ∧
    missingOf (setattrE
      (.entity "Inner" [("value", .null), (metaKey, mkMeta ["value"] [] "Inner")])
      "value" .null) = [] :=
  ⟨rfl, rfl, rfl⟩

/-- C6: one-of dispatch on a raw record: a type tag naming a hinted candidate
class in scope constructs that candidate (and any successful construction is
an entity of that class); a tag naming no candidate fails with
`typeMismatch`; a record with no metadata entry, or metadata carrying no tag,
passes through unchanged. -/
theorem claim_C6_one_of_dispatch (fuel : Nat) (ct : ClassTable) (d md : Dict)
    (cs : List String) (t : String) (cls : CerealClass) :
    (lookupA d metaKey = some (.dict md) → lookupA md typeKey = some (.str t) →
      t ∈ cs → lookupClass ct t = some cls →
      recAutoAt fuel ct (.dict d) (.oneOf cs) = constructE fuel ct cls d ∧
      ∀ w, constructE fuel ct cls d = .ok w → ∃ D2, w = .entity cls.cname D2) ∧
    (lookupA d metaKey = some (.dict md) → lookupA md typeKey = some (.str t) →
      t ∉ cs → recAutoAt fuel ct (.dict d) (.oneOf cs) = .error .typeMismatch) ∧
    (lookupA d metaKey = none →
      recAutoAt fuel ct (.dict d) (.oneOf cs) = .ok (.dict d)) ∧
    (lookupA d metaKey = some (.dict md) → lookupA md typeKey = none →
      recAutoAt fuel ct (.dict d) (.oneOf cs) = .ok (.dict d)) := by
  refine ⟨?_, ?_, ?_, ?_⟩
  · intro hmeta htag hmem hcl
    constructor
    · show tryDeserializeCerealType (fun cls' d' => constructE fuel ct cls' d') ct d cs
        = constructE fuel ct cls d
      rw [tryDeserializeCerealType, hmeta]
      change (match lookupA md typeKey with
              | none => Except.ok (Value.dict d)
              | some Value.null => Except.ok (Value.dict d)
              | some tag =>
                match findCandidate ct cs tag with
                | some cls2 => constructE fuel ct cls2 d
                | none => Except.error CerealErr.typeMismatch) = constructE fuel ct cls d
      rw [htag]
      change (match findCandidate ct cs (Value.str t) with
              | some cls2 => constructE fuel ct cls2 d
              | none => Except.error CerealErr.typeMismatch) = constructE fuel ct cls d
      rw [findCandidate_of_mem ct cs t cls hmem hcl]
    · intro w hw
      exact constructE_ok_entity fuel ct cls d w hw
  · intro hmeta htag hnm
    show tryDeserializeCerealType (fun cls' d' => constructE fuel ct cls' d') ct d cs
      = Except.error CerealErr.typeMismatch
    rw [tryDeserializeCerealType, hmeta]
    change (match lookupA md typeKey with
            | none => Except.ok (Value.dict d)
            | some Value.null => Except.ok (Value.dict d)
            | some tag =>
              match findCandidate ct cs tag with
              | some cls2 => constructE fuel ct cls2 d
              | none => Except.error CerealErr.typeMismatch)
        = Except.error CerealErr.typeMismatch
    rw [htag]
    change (match findCandidate ct cs (Value.str t) with
            | some cls2 => constructE fuel ct cls2 d
            | none => Except.error CerealErr.typeMismatch)
        = Except.error CerealErr.typeMismatch
    rw [findCandidate_not_mem ct cs t hnm]
  · intro hmeta
    show tryDeserializeCerealType (fun cls' d' => constructE fuel ct cls' d') ct d cs
      = Except.ok (Value.dict d)
    rw [tryDeserializeCerealType, hmeta]
  · intro hmeta htag
    show tryDeserializeCerealType (fun cls' d' => constructE fuel ct cls' d') ct d cs
      = Except.ok (Value.dict d)
    rw [tryDeserializeCerealType, hmeta]
    change (match lookupA md typeKey with
            | none => Except.ok (Value.dict d)
            | some Value.null => Except.ok (Value.dict d)
            | some tag =>
              match findCandidate ct cs tag with
              | some cls2 => constructE fuel ct cls2 d
              | none => Except.error CerealErr.typeMismatch) = Except.ok (Value.dict d)
    rw [htag]

/-- C6 witness: the three dispatch behaviors at concrete records. -/
theorem claim_C6_one_of_dispatch_witness :
    recAutoAt 1 [clsInner]
        (.dict [("value", .int 2), (metaKey, .dict [(typeKey, .str "Inner")])])
        (.oneOf ["Inner"])
      = constructE 1 [clsInner] clsInner
          [("value", .int 2), (metaKey, .dict [(typeKey, .str "Inner")])] ∧
    recAutoAt 1 [clsInner]
        (.dict [("value", .int 2), (metaKey, .dict [(typeKey, .str "Inner")])])
        (.oneOf ["Other"])
      = .error .typeMismatch ∧
    recAutoAt 1 [clsInner] (.dict [("value", .int 2)]) (.oneOf ["Inner"])
      = .ok (.dict [("value", .int 2)]) ∧
    recAutoAt 1 [clsInner] (.dict [(metaKey, .dict [("k", .int 0)])]) (.oneOf ["Inner"])
      = .ok (.dict [(metaKey, .dict [("k", .int 0)])]) :=
  ⟨((claim_C6_one_of_dispatch 1 [clsInner]
      [("value", .int 2), (metaKey, .dict [(typeKey, .str "Inner")])]
      [(typeKey, .str "Inner")] ["Inner"] "Inner" clsInner).1
        rfl rfl (by decide) rfl).1,
   (claim_C6_one_of_dispatch 1 [clsInner]
      [("value", .int 2), (metaKey, .dict [(typeKey, .str "Inner")])]
      [(typeKey, .str "Inner")] ["Other"] "Inner" clsInner).2.1
        rfl rfl (by decide),
   (claim_C6_one_of_dispatch 1 [clsInner] [("value", .int 2)] [] ["Inner"] "" clsInner).2.2.1
     rfl,
   (claim_C6_one_of_dispatch 1 [clsInner] [(metaKey, .dict [("k", .int 0)])]
      [("k", .int 0)] ["Inner"] "" clsInner).2.2.2 rfl rfl⟩

/-- C7: enumeration resolution: a raw string naming a member resolves to that
enumeration member; a string naming no member fails with `unknownEnumMember`;
and a reconstruction error makes the whole construction abort with that
error. -/
theorem claim_C7_enum_resolution (fuel : Nat) (ct : ClassTable) (ename : String)
    (ms : List String) (s : String) :
    (s ∈ ms →
      recAutoAt fuel ct (.str s) (.enumOf ename ms) = .ok (.enumMember ename s)) ∧
    (s ∉ ms →
      recAutoAt fuel ct (.str s) (.enumOf ename ms) =
        .error (.unknownEnumMember ename s)) ∧
    (∀ cls m err, applyHints (fun cls' d => constructE fuel ct cls' d) ct cls.hints
        (preDict cls m) = .error err → constructE (fuel + 1) ct cls m = .error err) := by
  refine ⟨?_, ?_, ?_⟩
  · intro h
    show (if ms.contains s then Except.ok (Value.enumMember ename s)
          else Except.error (CerealErr.unknownEnumMember ename s))
        = Except.ok (Value.enumMember ename s)
    rw [if_pos (List.elem_iff.mpr h)]
  · intro h
    show (if ms.contains s then Except.ok (Value.enumMember ename s)
          else Except.error (CerealErr.unknownEnumMember ename s))
        = Except.error (CerealErr.unknownEnumMember ename s)
    rw [if_neg (fun hc => h (List.elem_iff.mp hc))]
  · intro cls m err h
    rw [constructE_succ, h]

/-- C7 witness: member resolution, the unknown-member error, and the abort of
a concrete construction whose enumeration field has an unknown name. -/
theorem claim_C7_enum_resolution_witness :
    recAutoAt 0 [] (.str "a") (.enumOf "E" ["a", "b"]) = .ok (.enumMember "E" "a") ∧
    recAutoAt 0 [] (.str "zz") (.enumOf "E" ["a", "b"])
      = .error (.unknownEnumMember "E" "zz") ∧
    constructE 1 [] clsEnumF [("f", .str "zz")]
      = .error (.unknownEnumMember "E" "zz") :=
  ⟨(claim_C7_enum_resolution 0 [] "E" ["a", "b"] "a").1 (by decide),
   (claim_C7_enum_resolution 0 [] "E" ["a", "b"] "zz").2.1 (by decide),
   (claim_C7_enum_resolution 0 [] "E" ["a"] "zz").2.2 clsEnumF [("f", .str "zz")]
     (.unknownEnumMember "E" "zz") rfl⟩

/-- C8: comparing an entity against a non-entity value raises the
incomparable-types error instead of returning a truth value. -/
theorem claim_C8_incomparable (n : String) (D : Dict) (x : Value)
    (hx : ∀ n2 d2, x ≠ .entity n2 d2) :
    ceq (.entity n D) x = .error .incomparableTypes := by
  cases x with
  | entity n2 d2 => exact absurd rfl (hx n2 d2)
  | null => rfl
  | bool b => rfl
  | int k => rfl
  | str s => rfl
  | vlist vs => rfl
  | dict d2 => rfl
  | enumMember a b => rfl

/-- C8 witness: comparing a concrete entity to an integer errors. -/
theorem claim_C8_incomparable_witness :
    ceq (.entity "A" []) (.int 3) = .error .incomparableTypes :=
  claim_C8_incomparable "A" [] (.int 3) (fun n2 d2 h => Value.noConfusion h)

/-- C9: idempotent reconstruction: the decorator's hint loop is the identity
on a record whose hinted fields already hold fully reconstructed values (in
the sense of `reconB`: live entities, lists of reconstructed values,
enumeration members, nulls for optionals, primitives for scalars). -/
theorem claim_C9_idempotent (fuel : Nat) (ct : ClassTable) (hs : List (String × Hint)) :
    ∀ D : Dict,
      (∀ k v hh, (k, v) ∈ D → lookupHint hs k = some hh → reconB hh v = true) →
      applyHints (fun cls' d => constructE fuel ct cls' d) ct hs D = .ok D := by
  intro D
  induction D with
  | nil => intro _; rfl
  | cons p rest ih =>
    intro h
    obtain ⟨k, v⟩ := p
    rw [applyHints_cons]
    have hrest := ih (fun k2 v2 hh2 hm2 hl2 => h k2 v2 hh2 (List.mem_cons_of_mem _ hm2) hl2)
    cases hh : lookupHint hs k with
    | some hhint =>
      have hr : recursiveAutoDeserialize (fun cls' d => constructE fuel ct cls' d) ct v hhint
          = .ok v :=
        recAuto_reconB _ ct hhint v (h k v hhint (List.mem_cons_self _ _) hh)
      change (match recursiveAutoDeserialize (fun cls' d => constructE fuel ct cls' d)
                ct v hhint with
              | Except.ok w =>
                (match applyHints (fun cls' d => constructE fuel ct cls' d) ct hs rest with
                 | Except.ok r => Except.ok ((k, w) :: r)
                 | Except.error e => Except.error e)
              | Except.error e => Except.error e) = Except.ok ((k, v) :: rest)
      rw [hr, hrest]
    | none =>
      change (match applyHints (fun cls' d => constructE fuel ct cls' d) ct hs rest with
              | Except.ok r => Except.ok ((k, v) :: r)
              | Except.error e => Except.error e) = Except.ok ((k, v) :: rest)
      rw [hrest]

/-- C9 witness: the hint loop leaves a concrete already-reconstructed record
unchanged. -/
theorem claim_C9_idempotent_witness :
    applyHints (fun cls' d => constructE 1 [] cls' d) []
      [("e", .enumOf "E" ["a"])] [("e", .enumMember "E" "a"), ("x", .int 1)]
      = .ok [("e", .enumMember "E" "a"), ("x", .int 1)] :=
  claim_C9_idempotent 1 [] [("e", .enumOf "E" ["a"])]
    [("e", .enumMember "E" "a"), ("x", .int 1)] (by
      intro k v hh hm hl
      rcases List.mem_cons.mp hm with h | h
      · injection h with hk hv
        subst hk
        subst hv
        have hl2 : some (Hint.enumOf "E" ["a"]) = some hh := hl
        injection hl2 with hl2
        rw [← hl2]
        decide
      · rcases List.mem_cons.mp h with h2 | h2
        · injection h2 with hk hv
          subst hk
          have hl2 : (none : Option Hint) = some hh := hl
          exact Option.noConfusion hl2
        · exact absurd h2 (List.not_mem_nil _))

/-- C10: entity equality compares the complete canonical serializations, the
metadata block included: two entities whose stored metadata blocks differ in
the missing list, the extra list or the recorded type tag compare unequal,
whatever their regular fields. -/
theorem claim_C10_meta_distinguishes (n1 n2 : String) (D1 D2 : Dict)
    (mi1 ex1 mi2 ex2 : List String) (ty1 ty2 : String)
    (h1 : lookupA D1 metaKey = some (mkMeta mi1 ex1 ty1))
    (h2 : lookupA D2 metaKey = some (mkMeta mi2 ex2 ty2))
    (hn1 : (keysOf D1).Nodup) (hn2 : (keysOf D2).Nodup)
    (hne : ¬ (mi1 = mi2 ∧ ex1 = ex2 ∧ ty1 = ty2)) :
    ceq (.entity n1 D1) (.entity n2 D2) = .ok false := by
  have hm1 : (keysOf (sortCanonEntries (canonEntityEntries D1))).Nodup := by
    rw [keysOf_sortCanonEntries]
    exact nodup_keysOf_canonEntityEntries D1 hn1
  have hm2 : (keysOf (sortCanonEntries (canonEntityEntries D2))).Nodup := by
    rw [keysOf_sortCanonEntries]
    exact nodup_keysOf_canonEntityEntries D2 hn2
  have e1 : lookupA (sortEntries (sortCanonEntries (canonEntityEntries D1))) metaKey
      = some (sortCanon (mkMeta mi1 ex1 ty1)) := by
    rw [lookupA_sortEntries _ _ hm1, lookupA_sortCanonEntries,
      lookupA_canonEntityEntries D1 metaKey hn1, h1]
    show some (sortCanon (canon (mkMeta mi1 ex1 ty1))) = _
    rw [canon_mkMeta]
  have e2 : lookupA (sortEntries (sortCanonEntries (canonEntityEntries D2))) metaKey
      = some (sortCanon (mkMeta mi2 ex2 ty2)) := by
    rw [lookupA_sortEntries _ _ hm2, lookupA_sortCanonEntries,
      lookupA_canonEntityEntries D2 metaKey hn2, h2]
    show some (sortCanon (canon (mkMeta mi2 ex2 ty2))) = _
    rw [canon_mkMeta]
  have hSne : sortCanon (canon (.entity n1 D1)) ≠ sortCanon (canon (.entity n2 D2)) := by
    intro hS
    have hS1 : Value.dict (sortEntries (sortCanonEntries (canonEntityEntries D1)))
        = Value.dict (sortEntries (sortCanonEntries (canonEntityEntries D2))) := hS
    injection hS1 with hS2
    rw [hS2, e2] at e1
    injection e1 with e1
    rw [sortCanon_mkMeta, sortCanon_mkMeta] at e1
    injection e1 with e1
    injection e1 with p1 e1
    injection p1 with q0 q1
    injection q1 with q1
    injection e1 with p2 e1
    injection p2 with q2a q2
    injection q2 with q2
    injection e1 with p3 e1
    injection p3 with q3a q3
    injection q3 with q3
    exact hne ⟨(mapStr_inj mi2 mi1 q3).symm, (mapStr_inj ex2 ex1 q2).symm, q1.symm⟩
  show Except.ok (Value.beq (sortCanon (canon (Value.entity n1 D1)))
    (sortCanon (canon (Value.entity n2 D2)))) = Except.ok false
  rw [Value.beq_eq_false_of_ne hSne]

/-- C10 witness: equal regular fields, differing presence lists or type tags,
compare unequal. -/
theorem claim_C10_meta_distinguishes_witness :
    ceq (.entity "A" [(metaKey, mkMeta ["x"] [] "A")])
        (.entity "A" [(metaKey, mkMeta [] [] "A")]) = .ok false ∧
    ceq (.entity "A" [(metaKey, mkMeta [] [] "A")])
        (.entity "B" [(metaKey, mkMeta [] [] "B")]) = .ok false :=
  ⟨claim_C10_meta_distinguishes "A" "A"
      [(metaKey, mkMeta ["x"] [] "A")] [(metaKey, mkMeta [] [] "A")]
      ["x"] [] [] [] "A" "A" rfl rfl (by decide) (by decide) (by decide),
   claim_C10_meta_distinguishes "A" "B"
      [(metaKey, mkMeta [] [] "A")] [(metaKey, mkMeta [] [] "B")]
      [] [] [] [] "A" "B" rfl rfl (by decide) (by decide) (by decide)⟩


end Cereal
